import Mathlib

/-!
# Elara interpreter: type acceptance and function execution

A shallow embedding of `interpreter/types.go` and `interpreter/function.go`.

* Go pointers to types are modelled by the tree they point to.  Only `*EmptyType`
  is ever compared by pointer, so an `EmptyType` node carries the address of the
  object it stands for.  A tree is finite: a type object that reaches itself through
  the types of its properties or operands is not a `Ty`.  Such objects are modelled
  apart, in a heap (`TypeObject`, `Heap.Accepts`), where `Accepts` need not return.
* A Go run-time panic inside `Accepts` (an index out of range in `GetProperty`)
  is the result `none`; `some b` is the boolean the call returns.
* A Go `map` is an association list read with `List.lookup`; the order of the
  list is the order in which `range` visits the map.
* Types, values and contexts are taken to be non-nil.  The only nil pointer that is
  modelled is the `name` of an anonymous `Function`.
* `Context`, `Value`, `Signature.Accepts`, `CollectionType` and `MapType` are declared
  in files that are not among the sources; their models follow the spec and say so.
-/

namespace Elara

/-! ## Data model -/

mutual
/-- The implementations of the Go interface `Type` (`types.go`). -/
inductive Ty where
  | EmptyType (addr : Nat) (name : String)
  | StructType (TypeName : String) (Properties : List Property)
      (propertyPositions : List (String × Int))
  | FunctionType (Signature : Signature)
  | UnionType (a b : Ty)
  | IntersectionType (a b : Ty)
  | DefinedType (name : String) (parts : List (String × Ty))
  | CollectionType (ElementType : Ty)
  | MapType (KeyType ValueType : Ty)
/-- The Go struct `Property`.  `DefaultValue` is never read by `Accepts` and is left out. -/
inductive Property where
  | mk (Name : String) (type : Ty) (Modifiers : Nat)
/-- The Go struct `Signature` (`function.go`). -/
inductive Signature where
  | mk (Parameters : List Parameter) (ReturnType : Ty)
/-- The Go struct `Parameter` (`function.go`). -/
inductive Parameter where
  | mk (Name : String) (type : Ty)
end

/-- Field `Name` of a `Property`. -/
def Property.Name : Property → String
  | .mk n _ _ => n

/-- Field `Type` of a `Property`. -/
def Property.type : Property → Ty
  | .mk _ t _ => t

/-- Field `Parameters` of a `Signature`. -/
def Signature.Parameters : Signature → List Parameter
  | .mk ps _ => ps

/-- Field `ReturnType` of a `Signature`. -/
def Signature.ReturnType : Signature → Ty
  | .mk _ r => r

/-- Field `Name` of a `Parameter`. -/
def Parameter.Name : Parameter → String
  | .mk n _ => n

/-- Field `Type` of a `Parameter`. -/
def Parameter.type : Parameter → Ty
  | .mk _ t => t

/-- Modelled from the spec: the payload of a `Value` (its Go declaration is not part of the
sources).  Payloads that the modelled code never inspects (floats, function references, struct
instances, collections, maps, user-defined data) are told apart by a tag only; a function
reference is kept as the name and the signature of the function. -/
inductive Payload where
  | integer (i : Int)
  | string (s : String)
  | char (c : Char)
  | boolean (b : Bool)
  | unit
  | output
  | other (tag : Nat)
  | function (name : Option String) (Signature : Signature)

/-- Modelled from the spec: a `Value` is a type together with a payload (Go fields `Type`
and `Value`). -/
structure Value where
  type : Ty
  value : Payload

/-- Modelled from the spec: a `Variable` is a name, a mutability flag, a declared type and a
value. -/
structure Variable where
  Name : String
  Mutable : Bool
  type : Ty
  Value : Value

/-- Modelled from the spec: an entry of the extension registry; `Accepts` reads only
`extension.Value.Type`. -/
structure Extension where
  Value : Value

/-- Modelled from the spec: a `Context` (scope) holds a parent link, the variables, the types,
the parameters (a namespace of their own), an optional receiver and the extension registry of
the scope.  How the registry matches a type is not part of the sources, so the registry of a
scope is an arbitrary lookup function. -/
inductive Context where
  | mk (parent : Option Context) (vars : List (String × Variable))
      (types : List (String × Ty)) (parameters : List (String × Value))
      (receiver : Option Value) (extensions : Ty → String → Option Extension)

/-- Modelled from the spec: `FindExtension` consults the registry of the scope and then walks
the parent links; `none` is the Go `nil`. -/
def Context.FindExtension : Context → Ty → String → Option Extension
  | .mk parent _ _ _ _ extensions, t, s =>
    match extensions t s with
    | some e => some e
    | none =>
      match parent with
      | none => none
      | some p => p.FindExtension t s

/-! ## `types.go` -/

/-- The method `StructType.GetProperty`: `none` is the panic of `t.Properties[i]` on an index
out of range, `some none` is the result `(Property{}, false)` and `some (some p)` is
`(p, true)`. -/
def StructType.GetProperty (Properties : List Property)
    (propertyPositions : List (String × Int)) (identifier : String) : Option (Option Property) :=
  match propertyPositions.lookup identifier with
  | none => some none
  | some i =>
    if 0 ≤ i then
      match Properties[i.toNat]? with
      | some p => some (some p)
      | none => none
    else none

/-- The comparison `t == otherType` of a `*EmptyType` with a `Type` interface value: equal
when the dynamic type of `otherType` is `*EmptyType` and the two pointers are the same. -/
def EmptyType.pointerEq (addr : Nat) (otherType : Ty) : Bool :=
  match otherType with
  | .EmptyType otherAddr _ => addr == otherAddr
  | _ => false

/-- The type assertion `otherType.(*EmptyType)`, giving the name of the asserted object. -/
def Ty.asEmptyType : Ty → Option String
  | .EmptyType _ name => some name
  | _ => none

/-- Modelled from the spec: `CollectionType.Accepts` is not part of the sources.  The other
type is a collection and the element type accepts its element type; `elementAccepts` is the
method `Accepts` of the element type. -/
def CollectionType.Accepts (elementAccepts : Ty → Context → Option Bool) (otherType : Ty)
    (ctx : Context) : Option Bool :=
  match otherType with
  | .CollectionType otherElementType => elementAccepts otherElementType ctx
  | _ => some false

/-- Modelled from the spec: `MapType.Accepts` is not part of the sources.  The other type is
a map, the key type accepts its key type and the value type accepts its value type;
`keyAccepts` and `valueAccepts` are the methods `Accepts` of the key and value types. -/
def MapType.Accepts (keyAccepts valueAccepts : Ty → Context → Option Bool) (otherType : Ty)
    (ctx : Context) : Option Bool :=
  match otherType with
  | .MapType otherKeyType otherValueType =>
    match keyAccepts otherKeyType ctx with
    | none => none
    | some false => some false
    | some true => valueAccepts otherValueType ctx
  | _ => some false

mutual
/-- The method `Accepts` of every implementation of `Type`.  The cases for `StructType`,
`FunctionType`, `EmptyType`, `UnionType`, `IntersectionType` and `DefinedType` follow
`types.go`; `||` and `&&` evaluate their right operand only when needed. -/
def Ty.Accepts : Ty → Ty → Context → Option Bool
  | .StructType _ Properties _, otherType, ctx =>
    match otherType with
    | .StructType _ otherProperties otherPositions =>
      StructType.AcceptsLoop Properties otherProperties otherPositions ctx
    | _ => some false
  | .FunctionType sig, otherType, ctx =>
    match otherType with
    | .FunctionType otherSig => Signature.Accepts sig otherSig ctx
    | _ => some false
  | .EmptyType addr name, otherType, _ =>
    if name = "Any" then some true
    else
      match otherType.asEmptyType with
      | some otherName => some (decide (name = otherName))
      | none => some (EmptyType.pointerEq addr otherType)
  | .UnionType a b, otherType, ctx =>
    match Ty.Accepts a otherType ctx with
    | none => none
    | some true => some true
    | some false => Ty.Accepts b otherType ctx
  | .IntersectionType a b, otherType, ctx =>
    match Ty.Accepts a otherType ctx with
    | none => none
    | some false => some false
    | some true => Ty.Accepts b otherType ctx
  | .DefinedType _ parts, other, ctx => DefinedType.AcceptsLoop parts other ctx
  | .CollectionType ElementType, otherType, ctx =>
    CollectionType.Accepts (Ty.Accepts ElementType) otherType ctx
  | .MapType KeyType ValueType, otherType, ctx =>
    MapType.Accepts (Ty.Accepts KeyType) (Ty.Accepts ValueType) otherType ctx
termination_by structural x => x
/-- The loop `for _, property := range t.Properties` of `StructType.Accepts`, run against the
properties and positions of `otherStruct`. -/
def StructType.AcceptsLoop :
    List Property → List Property → List (String × Int) → Context → Option Bool
  | [], _, _, _ => some true
  | .mk Name type _ :: rest, otherProperties, otherPositions, ctx =>
    match StructType.GetProperty otherProperties otherPositions Name with
    | none => none
    | some none => some false
    | some (some byName) =>
      match Ty.Accepts type byName.type ctx with
      | none => none
      | some false => some false
      | some true => StructType.AcceptsLoop rest otherProperties otherPositions ctx
termination_by structural x => x
/-- The loop `for s, t2 := range t.parts` of `DefinedType.Accepts`.  `next` is the rest of
the loop (reached by `continue`) and `viaExtension` is the part of the body after the block
`if isStruct { ... }`. -/
def DefinedType.AcceptsLoop : List (String × Ty) → Ty → Context → Option Bool
  | [], _, _ => some true
  | (s, t2) :: rest, other, ctx =>
    let next := DefinedType.AcceptsLoop rest other ctx
    let viaExtension :=
      match ctx.FindExtension other s with
      | none => some false
      | some extension =>
        match Ty.Accepts t2 extension.Value.type ctx with
        | none => none
        | some true => next
        | some false => some false
    match other with
    | .StructType _ Properties propertyPositions =>
      match StructType.GetProperty Properties propertyPositions s with
      | none => none
      | some none => viaExtension
      | some (some property) =>
        match Ty.Accepts t2 property.type ctx with
        | none => none
        | some true => next
        | some false => viaExtension
    | _ => viaExtension
termination_by structural x => x
/-- Modelled from the spec: `Signature.Accepts` is not part of the sources.  The numbers of
parameters are equal, each parameter type accepts the parameter type at the same position,
and the return type accepts the other return type. -/
def Signature.Accepts : Signature → Signature → Context → Option Bool
  | .mk Parameters ReturnType, other, ctx =>
    if Parameters.length ≠ other.Parameters.length then some false
    else
      match Signature.AcceptsParameters Parameters other.Parameters ctx with
      | none => none
      | some false => some false
      | some true => Ty.Accepts ReturnType other.ReturnType ctx
termination_by structural x => x
/-- Modelled from the spec: the positional check of the parameters in `Signature.Accepts`. -/
def Signature.AcceptsParameters : List Parameter → List Parameter → Context → Option Bool
  | [], _, _ => some true
  | _ :: _, [], _ => some true
  | .mk _ type :: rest, otherParameter :: otherRest, ctx =>
    match Ty.Accepts type otherParameter.type ctx with
    | none => none
    | some false => some false
    | some true => Signature.AcceptsParameters rest otherRest ctx
termination_by structural x => x
end

/-- The context with no parent and nothing registered. -/
def Context.empty : Context :=
  .mk none [] [] [] none (fun _ _ => none)

/-- The variable `AnyType` of `built-in-types.go`: `NewEmptyType("Any")`. -/
def AnyType : Ty := .EmptyType 0 "Any"

/-! ## Well-formed struct types

`GetProperty` indexes `Properties` with whatever `propertyPositions` holds, so it panics on an
entry that is not an index of `Properties`.  The data model keeps `propertyPositions` equal to
the map from the name of a property to its index, which excludes such entries. -/

/-- Every entry of `propertyPositions` is an index into `Properties`. -/
def StructType.positionsInRange (Properties : List Property)
    (propertyPositions : List (String × Int)) : Bool :=
  propertyPositions.all fun e => decide (0 ≤ e.2) && decide (e.2.toNat < Properties.length)

mutual
/-- In every struct type that occurs in the type, each entry of `propertyPositions` is an
index into `Properties`. -/
def Ty.PositionsValid : Ty → Bool
  | .EmptyType _ _ => true
  | .StructType _ Properties propertyPositions =>
    StructType.positionsInRange Properties propertyPositions &&
      Property.allPositionsValid Properties
  | .FunctionType sig => Signature.PositionsValid sig
  | .UnionType a b => Ty.PositionsValid a && Ty.PositionsValid b
  | .IntersectionType a b => Ty.PositionsValid a && Ty.PositionsValid b
  | .DefinedType _ parts => DefinedType.partsPositionsValid parts
  | .CollectionType ElementType => Ty.PositionsValid ElementType
  | .MapType KeyType ValueType => Ty.PositionsValid KeyType && Ty.PositionsValid ValueType
termination_by structural x => x
/-- The types of all the properties satisfy `Ty.PositionsValid`. -/
def Property.allPositionsValid : List Property → Bool
  | [] => true
  | .mk _ type _ :: rest => Ty.PositionsValid type && Property.allPositionsValid rest
termination_by structural x => x
/-- The types of all the parts of a defined type satisfy `Ty.PositionsValid`. -/
def DefinedType.partsPositionsValid : List (String × Ty) → Bool
  | [] => true
  | (_, t) :: rest => Ty.PositionsValid t && DefinedType.partsPositionsValid rest
termination_by structural x => x
/-- The parameter types and the return type satisfy `Ty.PositionsValid`. -/
def Signature.PositionsValid : Signature → Bool
  | .mk Parameters ReturnType =>
    Parameter.allPositionsValid Parameters && Ty.PositionsValid ReturnType
termination_by structural x => x
/-- The types of all the parameters satisfy `Ty.PositionsValid`. -/
def Parameter.allPositionsValid : List Parameter → Bool
  | [] => true
  | .mk _ type :: rest => Ty.PositionsValid type && Parameter.allPositionsValid rest
termination_by structural x => x
end

/-- The type of every extension that the context can return satisfies `Ty.PositionsValid`. -/
def Context.PositionsValid (ctx : Context) : Prop :=
  ∀ t s e, ctx.FindExtension t s = some e → e.Value.type.PositionsValid = true

/-- The invariant of the data model on a struct type, on the side of the properties: the
property at index `i` is registered under its name at position `i`. -/
def StructType.positionsConsistent (Properties : List Property)
    (propertyPositions : List (String × Int)) : Bool :=
  (List.range Properties.length).all fun i =>
    match Properties[i]? with
    | some p => decide (propertyPositions.lookup p.Name = some (i : Int))
    | none => true

/-- The invariant of the data model on a struct type, on the side of the map: an entry for a
name is the index of a property of that name. -/
def StructType.positionsSound (Properties : List Property)
    (propertyPositions : List (String × Int)) : Bool :=
  propertyPositions.all fun e =>
    decide (0 ≤ e.2) &&
      (match Properties[e.2.toNat]? with
       | some p => decide (p.Name = e.1)
       | none => false)

mutual
/-- The type is built from `EmptyType`, `StructType`, `UnionType`, `IntersectionType` and
`DefinedType` only, and every struct type in it has consistent `propertyPositions`. -/
def Ty.Concrete : Ty → Bool
  | .EmptyType _ _ => true
  | .StructType _ Properties propertyPositions =>
    StructType.positionsConsistent Properties propertyPositions &&
      Property.allConcrete Properties
  | .FunctionType _ => false
  | .UnionType a b => Ty.Concrete a && Ty.Concrete b
  | .IntersectionType a b => Ty.Concrete a && Ty.Concrete b
  | .DefinedType _ parts => DefinedType.partsConcrete parts
  | .CollectionType _ => false
  | .MapType _ _ => false
termination_by structural x => x
/-- The types of all the properties satisfy `Ty.Concrete`. -/
def Property.allConcrete : List Property → Bool
  | [] => true
  | .mk _ type _ :: rest => Ty.Concrete type && Property.allConcrete rest
termination_by structural x => x
/-- The types of all the parts satisfy `Ty.Concrete`. -/
def DefinedType.partsConcrete : List (String × Ty) → Bool
  | [] => true
  | (_, t) :: rest => Ty.Concrete t && DefinedType.partsConcrete rest
termination_by structural x => x
end

mutual
/-- The type is built from `EmptyType` and `StructType` only, and every struct type in it has
consistent `propertyPositions`. -/
def Ty.EmptyOrStruct : Ty → Bool
  | .EmptyType _ _ => true
  | .StructType _ Properties propertyPositions =>
    StructType.positionsConsistent Properties propertyPositions &&
      Property.allEmptyOrStruct Properties
  | _ => false
termination_by structural x => x
/-- The types of all the properties satisfy `Ty.EmptyOrStruct`. -/
def Property.allEmptyOrStruct : List Property → Bool
  | [] => true
  | .mk _ type _ :: rest => Ty.EmptyOrStruct type && Property.allEmptyOrStruct rest
termination_by structural x => x
end

/-- The type switch `otherType.(*StructType)` succeeds. -/
def Ty.isStructType : Ty → Bool
  | .StructType _ _ _ => true
  | _ => false

/-- The type switch `otherType.(*EmptyType)` succeeds. -/
def Ty.isEmptyType : Ty → Bool
  | .EmptyType _ _ => true
  | _ => false

/-! ## `built-in-types.go` -/

/-- The variable `UnitType`: `NewEmptyType("Unit")`. -/
def UnitType : Ty := .EmptyType 1 "Unit"

/-- The variable `FloatType`: `NewEmptyType("Float")`. -/
def FloatType : Ty := .EmptyType 2 "Float"

/-- The variable `BooleanType`: `NewEmptyType("Boolean")`. -/
def BooleanType : Ty := .EmptyType 3 "Boolean"

/-- The variable `StringType`: `NewEmptyType("String")`. -/
def StringType : Ty := .EmptyType 4 "String"

/-- The variable `OutputType`: `NewEmptyType("Output")`. -/
def OutputType : Ty := .EmptyType 5 "Output"

/-- Modelled from the spec: `UnitValue()` is not part of the sources; it is the value of the
type `Unit`. -/
def UnitValue : Value := ⟨UnitType, .unit⟩

/-! ## `function.go` -/

/-- The run-time errors that the Go runtime raises in the modelled code. -/
inductive RuntimeError where
  | indexOutOfRange
  | nilDereference
  deriving DecidableEq

/-- The strings that `Function.Exec` builds with `fmt.Sprintf` and panics with, kept as the
message together with its arguments. -/
inductive ErrorMessage where
  /-- Message "Illegal number of arguments for function %s. Expected %d, received %d". -/
  | illegalNumberOfArguments (functionName : String) (expected received : Nat)
  /-- Message "Expected %s for parameter %s and got %s". -/
  | parameterTypeMismatch (expected : Ty) (parameterName : String) (got : Value)
  /-- Message "Function '%s' did not return value of type %s, instead was %s". -/
  | returnTypeMismatch (functionName : String) (expected got : Ty)

/-- The payload of a Go panic.  A `*Value` is the signal of a `return` statement. -/
inductive PanicPayload where
  | value (v : Value)
  | message (m : ErrorMessage)
  | runtime (e : RuntimeError)
  | text (s : String)

/-- What a call `f.Body.Exec(scope)` does: it returns `nil` or a value, or it panics. -/
inductive BodyResult where
  | returns (v : Option Value)
  | panics (p : PanicPayload)

/-- The Go interface `Command`, reduced to its method `Exec`. -/
abbrev Command := Context → BodyResult

/-- The Go struct `Function`; `name` is a `*string` and `none` is `nil`. -/
structure Function where
  Signature : Signature
  Body : Command
  name : Option String

/-- Modelled from the spec: `EnterScope` creates a child of the scope.  The label is used for
diagnostics only and is not kept. -/
def Context.EnterScope (ctx : Context) : Context :=
  .mk (some ctx) [] [] [] none (fun _ _ => none)

/-- Modelled from the spec: `DefineParameter` binds a name in the parameter namespace of the
scope. -/
def Context.DefineParameter : Context → String → Value → Context
  | .mk parent vars types parameters receiver extensions, name, value =>
    .mk parent vars types ((name, value) :: parameters) receiver extensions

/-- The assignment `scope.receiver = receiver`. -/
def Context.setReceiver : Context → Option Value → Context
  | .mk parent vars types parameters _ extensions, receiver =>
    .mk parent vars types parameters receiver extensions

/-- Field `parent` of a `Context`. -/
def Context.parent : Context → Option Context
  | .mk parent _ _ _ _ _ => parent

/-- Field `parameters` of a `Context`. -/
def Context.parameters : Context → List (String × Value)
  | .mk _ _ _ parameters _ _ => parameters

/-- Field `receiver` of a `Context`. -/
def Context.receiver : Context → Option Value
  | .mk _ _ _ _ receiver _ => receiver

/-- How a call of `Function.Exec` ends. -/
inductive Outcome where
  | returned (v : Value)
  | panicked (p : PanicPayload)

/-- The observable course of a call of `Function.Exec`: how it ends, whether `EnterScope` was
called, and the scope that was handed to the body when the body was executed. -/
structure ExecResult where
  outcome : Outcome
  entered : Bool
  bodyScope : Option Context

/-- The loop `for i, paramValue := range parameters` of `Function.Exec`, from index `i` on.
`function.go` writes `Accepts` without a context; the context of the call is passed. -/
def Function.bindParameters (f : Function) (ctx : Context) :
    List Value → Nat → Context → Except PanicPayload Context
  | [], _, scope => .ok scope
  | paramValue :: rest, i, scope =>
    match f.Signature.Parameters[i]? with
    | none => .error (.runtime .indexOutOfRange)
    | some expectedParameter =>
      match expectedParameter.type.Accepts paramValue.type ctx with
      | none => .error (.runtime .indexOutOfRange)
      | some false =>
        .error (.message (.parameterTypeMismatch expectedParameter.type
          expectedParameter.Name paramValue))
      | some true =>
        Function.bindParameters f ctx rest (i + 1)
          (scope.DefineParameter expectedParameter.Name paramValue)

/-- The method `Function.Exec`.  The deferred function turns a panic whose payload is a
`*Value` into the result of the call and raises every other payload again.
`function.go` writes `Accepts` without a context; the context of the call is passed. -/
def Function.Exec (f : Function) (ctx : Context) (receiver : Option Value)
    (parameters : List Value) : ExecResult :=
  if parameters.length ≠ f.Signature.Parameters.length then
    match f.name with
    | none => ⟨.panicked (.runtime .nilDereference), false, none⟩
    | some name =>
      ⟨.panicked (.message (.illegalNumberOfArguments name f.Signature.Parameters.length
        parameters.length)), false, none⟩
  else
    match Function.bindParameters f ctx parameters 0 ctx.EnterScope with
    | .error p => ⟨.panicked p, true, none⟩
    | .ok bound =>
      let scope := bound.setReceiver receiver
      match f.Body scope with
      | .panics (.value v) => ⟨.returned v, true, some scope⟩
      | .panics p => ⟨.panicked p, true, some scope⟩
      | .returns r =>
        let value := match r with
          | none => UnitValue
          | some v => v
        match f.Signature.ReturnType.Accepts value.type ctx with
        | none => ⟨.panicked (.runtime .indexOutOfRange), true, some scope⟩
        | some false =>
          ⟨.panicked (.message (.returnTypeMismatch
            (match f.name with
             | none => "<anonymous>"
             | some name => name)
            f.Signature.ReturnType value.type)), true, some scope⟩
        | some true => ⟨.returned value, true, some scope⟩

/-! ## `built-in-types.go`: `Init` -/

/-- Field `vars` of a `Context`: the variables of the scope. -/
def Context.vars : Context → List (String × Variable)
  | .mk _ vars _ _ _ _ => vars

/-- Field `types` of a `Context`. -/
def Context.types : Context → List (String × Ty)
  | .mk _ _ types _ _ _ => types

/-- The assignment `context.types[s] = t`. -/
def Context.setType : Context → String → Ty → Context
  | .mk parent vars types parameters receiver extensions, s, t =>
    .mk parent vars ((s, t) :: types) parameters receiver extensions

/-- Modelled from the spec: `DefineVariable` binds a name in the variables of the scope. -/
def Context.DefineVariable : Context → String → Variable → Context
  | .mk parent vars types parameters receiver extensions, name, value =>
    .mk parent ((name, value) :: vars) types parameters receiver extensions

/-- The function `NewFunctionType` of `types.go`. -/
def NewFunctionType (function : Function) : Ty :=
  .FunctionType function.Signature

/-- The payload of a value that holds a pointer to the function. -/
def Function.reference (f : Function) : Payload :=
  .function f.name f.Signature

/-- What `Init` uses and the sources do not hold: the variable `IntType`, the function
`InitInts`, and the bodies of the three built-in functions (they call `util.Stringify` and
`Context.FindParameter`). -/
structure InitEnv where
  IntType : Ty
  InitInts : Context → Context
  plusBody : Command
  writeBody : Command
  equalsBody : Command

/-- The variable `types` of `built-in-types.go`, in the order of the map literal. -/
def builtInTypes (env : InitEnv) : List (String × Ty) :=
  [("Any", AnyType), ("Unit", UnitType), ("Int", env.IntType), ("Float", FloatType),
    ("Boolean", BooleanType), ("String", StringType), ("Output", OutputType)]

/-- The function `stringPlus` that `Init` builds. -/
def stringPlus (env : InitEnv) : Function :=
  ⟨.mk [.mk "this" StringType, .mk "other" AnyType] StringType, env.plusBody, some "plus"⟩

/-- The function `outputWrite` that `Init` builds. -/
def outputWrite (env : InitEnv) : Function :=
  ⟨.mk [.mk "this" OutputType, .mk "value" AnyType] UnitType, env.writeBody, some "write"⟩

/-- The function `anyEquals` that `Init` builds. -/
def anyEquals (env : InitEnv) : Function :=
  ⟨.mk [.mk "this" AnyType, .mk "other" AnyType] BooleanType, env.equalsBody, some "equals"⟩

/-- The function `Init`.  The three local variables `stringPlusType`, `outputWriteType` and
`anyEqualsType` are computed as in the source: the second one from `stringPlus`. -/
def Init (env : InitEnv) (context : Context) : Context :=
  let context := (builtInTypes env).foldl (fun c e => c.setType e.1 e.2) context
  let context := env.InitInts context
  let stringPlusType := NewFunctionType (stringPlus env)
  let context := context.DefineVariable "plus"
    ⟨"plus", false, stringPlusType, ⟨stringPlusType, (stringPlus env).reference⟩⟩
  let outputWriteType := NewFunctionType (stringPlus env)
  let context := context.DefineVariable "write"
    ⟨"write", false, outputWriteType, ⟨outputWriteType, (outputWrite env).reference⟩⟩
  let anyEqualsType := NewFunctionType (anyEquals env)
  context.DefineVariable "equals"
    ⟨"equals", false, anyEqualsType, ⟨anyEqualsType, (anyEquals env).reference⟩⟩

/-! ## `lexer`: tokens -/

/-- The token types of the package `lexer` that the modelled code names; every other token
type is `Other`. -/
inductive TokenType where
  | EOF | NEWLINE
  | If | Else | As | Is | And | Or
  | Equal | Equals | NotEquals
  | GreaterEqual | RAngle | LesserEqual | LAngle
  | Add | Subtract | Multiply | Slash | Mod | Not
  | LParen | RParen | LBrace | RBrace | LSquare | RSquare
  | Dot | Comma | Colon | Arrow
  | Identifier | String | Char | BooleanTrue | BooleanFalse | Int | Float
  | TypeAnd | TypeOr
  | Other (n : Nat)
  deriving DecidableEq

/-- The Go struct `lexer.Token`: a token type, the runes of the lexeme and the position (line
and column). -/
structure Token where
  TokenType : TokenType
  Text : List Char
  Position : Nat × Nat
  deriving DecidableEq

/-! ## `parserlegacy`: syntax trees -/

/-- The type contracts of the package `parserlegacy`, with the fields that `FromASTType`
reads. -/
inductive TypeContract where
  | ElementaryTypeContract (Identifier : String)
  | InvocableTypeContract (Args : List TypeContract) (ReturnType : TypeContract)
  | CollectionTypeContract (ElemType : TypeContract)
  | BinaryTypeContract (TypeOp : TokenType) (Lhs Rhs : TypeContract)
  | DefinedTypeContract (Name : String) (DefType : List (String × TypeContract))
  | MapTypeContract (KeyType ValueType : TypeContract)

/-- Modelled from the spec: a `FunctionArgument` of a function definition, a name with an
optional type contract (its Go declaration is not part of the sources). -/
structure FunctionArgument where
  Name : String
  type : Option TypeContract

/-- A 64-bit floating point number, kept as its bit pattern. -/
structure Float64 where
  bits : Nat

mutual
/-- The implementations of the Go interface `Expr` (`expressions.go`).  A nil `Context` of an
`AssignmentExpr` and a nil `ReturnType` of a `FuncDefExpr` are `none`; a `MapEntry` is a
pair. -/
inductive Expr where
  | BinaryExpr (Lhs : Expr) (Op : TokenType) (Rhs : Expr)
  | UnaryExpr (Op : TokenType) (Rhs : Expr)
  | GroupExpr (Group : Expr)
  | VariableExpr (Identifier : String)
  | AssignmentExpr (Context : Option Expr) (Identifier : String) (Value : Expr)
  | InvocationExpr (Invoker : Expr) (Args : List Expr)
  | ContextExpr (Context : Expr) (Variable : String)
  | TypeCastExpr (expr : Expr) (type : TypeContract)
  | TypeCheckExpr (expr : Expr) (type : TypeContract)
  | IfElseExpr (Condition : Expr) (IfBranch : List Stmt) (IfResult : Expr)
      (ElseBranch : List Stmt) (ElseResult : Expr)
  | FuncDefExpr (Arguments : List FunctionArgument) (ReturnType : Option TypeContract)
      (Statement : Stmt)
  | AccessExpr (expr : Expr) (Index : Expr)
  | CollectionExpr (Elements : List Expr)
  | MapExpr (Entries : List (Expr × Expr))
  | StringLiteralExpr (Value : String)
  | CharLiteralExpr (Value : Char)
  | IntegerLiteralExpr (Value : Int)
  | FloatLiteralExpr (Value : Float64)
  | BooleanLiteralExpr (Value : Bool)
/-- Modelled from the spec: the implementations of the Go interface `Stmt` (their Go
declarations are not part of the sources).  The modelled code tells `ExpressionStmt` from the
others and reads the statements of a block; the other statements are told apart by a tag. -/
inductive Stmt where
  | ExpressionStmt (expr : Expr)
  | BlockStmt (Stmts : List Stmt)
  | OtherStmt (tag : Nat)
end

/-! ## `parserlegacy`: the parser state -/

/-- The Go struct `ParseError`.  A `token` that the composite literal leaves out is the zero
value `Token{}`, modelled by `none`. -/
structure ParseError where
  token : Option Token
  message : String

/-- How a parser function can fail: it panics with a `ParseError`, the Go runtime panics, or
the model runs out of fuel (the Go function would still be running). -/
inductive ParseFailure where
  | parseError (e : ParseError)
  | runtime (e : RuntimeError)
  | outOfFuel

/-- The result of a parser function: a value, or a failure. -/
inductive ParseResult (α : Type) where
  | ok (a : α)
  | error (e : ParseFailure)

/-- Sequencing of parser steps: a failure ends the computation. -/
def ParseResult.bind {α β : Type} (x : ParseResult α) (f : α → ParseResult β) :
    ParseResult β :=
  match x with
  | .ok a => f a
  | .error e => .error e

instance : Monad ParseResult where
  pure := ParseResult.ok
  bind := ParseResult.bind

/-- Modelled from the spec: the parser works on a token vector with a current position. -/
structure Parser where
  tokens : List Token
  current : Nat

/-- Modelled from the spec: `peek` is the token at the current position; indexing past the
end of the slice panics. -/
def Parser.peek (p : Parser) : ParseResult Token :=
  match p.tokens[p.current]? with
  | some t => .ok t
  | none => .error (.runtime .indexOutOfRange)

/-- Modelled from the spec: `previous` is the token before the current position; indexing
before the start of the slice panics. -/
def Parser.previous (p : Parser) : ParseResult Token :=
  if p.current = 0 then .error (.runtime .indexOutOfRange)
  else
    match p.tokens[p.current - 1]? with
    | some t => .ok t
    | none => .error (.runtime .indexOutOfRange)

/-- Modelled from the spec: the parser is at the end when the current token is `EOF`. -/
def Parser.isAtEnd (p : Parser) : ParseResult Bool := do
  let t ← p.peek
  pure (decide (t.TokenType = .EOF))

/-- Modelled from the spec: `check` tells whether the current token has the given type; it is
false at the end. -/
def Parser.check (p : Parser) (tokenType : TokenType) : ParseResult Bool := do
  let atEnd ← p.isAtEnd
  if atEnd then pure false
  else
    let t ← p.peek
    pure (decide (t.TokenType = tokenType))

/-- Modelled from the spec: `advance` moves one token forward, unless the parser is at the
end, and gives the token before the new position. -/
def Parser.advance (p : Parser) : ParseResult (Token × Parser) := do
  let atEnd ← p.isAtEnd
  let p' : Parser := if atEnd then p else { p with current := p.current + 1 }
  let t ← p'.previous
  pure (t, p')

/-- Modelled from the spec: `reverse` moves one token back. -/
def Parser.reverse (p : Parser) : Parser :=
  { p with current := p.current - 1 }

/-- Modelled from the spec: `match(kinds...)` advances over the current token when it has one
of the given types and tells whether it did. -/
def Parser.matchTypes (p : Parser) : List TokenType → ParseResult (Bool × Parser)
  | [] => pure (false, p)
  | t :: rest => do
    let found ← p.check t
    if found then
      let (_, p') ← p.advance
      pure (true, p')
    else p.matchTypes rest

/-- Modelled from the spec: `consume` advances over the current token when it has the given
type and panics otherwise with a `ParseError` that carries the current token. -/
def Parser.consume (p : Parser) (tokenType : TokenType) (message : String) :
    ParseResult (Token × Parser) := do
  let found ← p.check tokenType
  if found then p.advance
  else
    let t ← p.peek
    .error (.parseError ⟨some t, message⟩)

/-- The loop of `cleanNewLines`, at most `n` times. -/
def Parser.cleanNewLinesLoop : Nat → Parser → ParseResult Parser
  | 0, p => pure p
  | n + 1, p => do
    let (found, p') ← p.matchTypes [.NEWLINE]
    if found then Parser.cleanNewLinesLoop n p' else pure p'

/-- Modelled from the spec: `cleanNewLines` skips the newline tokens at the current position.
Each turn of its loop moves the position forward, so the number of tokens bounds it. -/
def Parser.cleanNewLines (p : Parser) : ParseResult Parser :=
  Parser.cleanNewLinesLoop (p.tokens.length - p.current) p

/-- What the expression parser calls and the sources do not hold: the parsers of type
contracts, of the arguments of invocations and function definitions and of statements, the
lookahead `isBlockPresent`, `consumeValidIdentifier`, and `strconv.ParseFloat`.  Each of them
is a function of the parser state. -/
structure ParserEnv where
  typeContractDefinable : Parser → ParseResult (TypeContract × Parser)
  typeContract : Parser → ParseResult (TypeContract × Parser)
  invocationParameters : Option TokenType → Parser → ParseResult (List Expr × Parser)
  functionArguments : Parser → ParseResult (List FunctionArgument × Parser)
  isBlockPresent : Parser → ParseResult (Bool × Parser)
  statement : Parser → ParseResult (Stmt × Parser)
  blockStatement : Parser → ParseResult (List Stmt × Parser)
  exprStatement : Parser → ParseResult (Stmt × Parser)
  consumeValidIdentifier : String → Parser → ParseResult (Token × Parser)
  ParseFloat : List Char → Option Float64

/-! ## `parserlegacy/expressions.go` -/

/-- The value of a decimal digit. -/
def digitValue (c : Char) : Option Nat :=
  if '0' ≤ c ∧ c ≤ '9' then some (c.toNat - '0'.toNat) else none

/-- The value of a non-empty string of decimal digits after the digits read so far. -/
def parseDigits : List Char → Nat → Option Nat
  | [], acc => some acc
  | c :: rest, acc =>
    match digitValue c with
    | some d => parseDigits rest (10 * acc + d)
    | none => none

/-- The call `strconv.ParseInt(s, 10, 64)`: an optional sign and decimal digits, with a value
that fits 64 bits; `none` when the error is not nil. -/
def ParseInt (s : List Char) : Option Int :=
  let (negative, digits) :=
    match s with
    | '+' :: rest => (false, rest)
    | '-' :: rest => (true, rest)
    | _ => (false, s)
  match digits with
  | [] => none
  | _ :: _ =>
    match parseDigits digits 0 with
    | none => none
    | some n =>
      if negative then
        if n ≤ 2 ^ 63 then some (-(n : Int)) else none
      else
        if n < 2 ^ 63 then some (n : Int) else none

/-- The call `strings.ReplaceAll(text, "\\n", "\n")`: every backslash followed by `n` becomes
a line feed, from left to right. -/
def replaceEscapedNewlines : List Char → List Char
  | '\\' :: 'n' :: rest => '\n' :: replaceEscapedNewlines rest
  | c :: rest => c :: replaceEscapedNewlines rest
  | [] => []

/-- The loop `for p.match(lexer.As)` of `typeCast`. -/
def Parser.typeCastLoop (env : ParserEnv) : Nat → Expr → Parser → ParseResult (Expr × Parser)
  | 0, _, _ => .error .outOfFuel
  | fuel + 1, expr, p => do
    let (found, p) ← p.matchTypes [.As]
    if found then
      let (t, p) ← env.typeContractDefinable p
      Parser.typeCastLoop env fuel (.TypeCastExpr expr t) p
    else pure (expr, p)

/-- The loop `for p.match(ops...)` that `logicalOr`, `logicalAnd`, `referenceEquality`,
`comparison`, `addition` and `multiplication` share; `next` is the parser function of the
next level. -/
def Parser.binaryLoop (ops : List TokenType) (next : Parser → ParseResult (Expr × Parser)) :
    Nat → Expr → Parser → ParseResult (Expr × Parser)
  | 0, _, _ => .error .outOfFuel
  | fuel + 1, expr, p => do
    let (found, p) ← p.matchTypes ops
    if found then
      let op ← p.previous
      let (rhs, p) ← next p
      Parser.binaryLoop ops next fuel (.BinaryExpr expr op.TokenType rhs) p
    else pure (expr, p)

/-- The loop `for p.match(lexer.LParen, lexer.Dot, lexer.LSquare)` of `invoke`; `expression`
is the method `expression`. -/
def Parser.invokeLoop (env : ParserEnv) (expression : Parser → ParseResult (Expr × Parser)) :
    Nat → Expr → Parser → ParseResult (Expr × Parser)
  | 0, _, _ => .error .outOfFuel
  | fuel + 1, expr, p => do
    let (found, p) ← p.matchTypes [.LParen, .Dot, .LSquare]
    if found then
      let prev ← p.previous
      match prev.TokenType with
      | .LParen =>
        let (args, p) ← env.invocationParameters (some .Comma) p
        Parser.invokeLoop env expression fuel (.InvocationExpr expr args) p
      | .Dot =>
        let (id, p) ← env.consumeValidIdentifier
          "Expected identifier inside context getter/setter" p
        Parser.invokeLoop env expression fuel (.ContextExpr expr (String.mk id.Text)) p
      | .LSquare =>
        let (index, p) ← expression p
        let (_, p) ← p.consume .RSquare "Expected ']' after access index"
        Parser.invokeLoop env expression fuel (.AccessExpr expr index) p
      | _ => Parser.invokeLoop env expression fuel expr p
    else pure (expr, p)

/-- The loop of `collection` that reads the elements. -/
def Parser.collectionLoop (expression : Parser → ParseResult (Expr × Parser)) :
    Nat → List Expr → Parser → ParseResult (List Expr × Parser)
  | 0, _, _ => .error .outOfFuel
  | fuel + 1, col, p => do
    let (e, p) ← expression p
    let p ← p.cleanNewLines
    let (found, p) ← p.matchTypes [.Comma]
    if found then Parser.collectionLoop expression fuel (col ++ [e]) p
    else pure (col ++ [e], p)

/-- The loop of `mapLiteral` that reads the entries. -/
def Parser.mapLiteralLoop (expression : Parser → ParseResult (Expr × Parser)) :
    Nat → List (Expr × Expr) → Parser → ParseResult (List (Expr × Expr) × Parser)
  | 0, _, _ => .error .outOfFuel
  | fuel + 1, entries, p => do
    let t ← p.peek
    if t.TokenType = .RBrace then pure (entries, p)
    else
      let (key, p) ← expression p
      let (_, p) ← p.consume .Colon "Expected colon between map literal key and value"
      let (val, p) ← expression p
      let t ← p.peek
      let p ← if t.TokenType = .Comma then (do
          let (_, p) ← p.advance
          pure p)
        else pure p
      let p ← p.cleanNewLines
      Parser.mapLiteralLoop expression fuel (entries ++ [(key, val)]) p

/-- The first loop of `tryParseMapLiteral`: it advances until it has read a colon or a
closing brace and gives `seenColon`, `count` and the parser state. -/
def Parser.lookaheadLoop : Nat → Nat → Parser → ParseResult (Bool × Nat × Parser)
  | 0, _, _ => .error .outOfFuel
  | fuel + 1, count, p => do
    let (next, p) ← p.advance
    if next.TokenType = .Colon then pure (true, count + 1, p)
    else if next.TokenType = .RBrace then pure (false, count + 1, p)
    else Parser.lookaheadLoop fuel (count + 1) p

/-- The second loop of `tryParseMapLiteral`: `count` calls of `reverse`. -/
def Parser.reverseTimes : Nat → Parser → Parser
  | 0, p => p
  | n + 1, p => Parser.reverseTimes n p.reverse

/-- The lookahead of `tryParseMapLiteral`, up to the test of `seenColon`: the value of
`seenColon` and the parser state after the calls of `reverse`. -/
def Parser.lookahead (fuel : Nat) (p : Parser) : ParseResult (Bool × Parser) := do
  let (_, p) ← p.advance
  let (seenColon, count, p) ← Parser.lookaheadLoop fuel 0 p
  let p := Parser.reverseTimes count p
  let p := p.reverse
  pure (seenColon, p)

mutual
/-- The method `expression`. -/
def Parser.expression (env : ParserEnv) : Nat → Parser → ParseResult (Expr × Parser)
  | 0, _ => .error .outOfFuel
  | fuel + 1, p => do
    let t ← p.peek
    if t.TokenType = .If then Parser.ifElseExpression env fuel p
    else Parser.assignment env fuel p
/-- The method `assignment`. -/
def Parser.assignment (env : ParserEnv) : Nat → Parser → ParseResult (Expr × Parser)
  | 0, _ => .error .outOfFuel
  | fuel + 1, p => do
    let (expr, p) ← Parser.typeCast env fuel p
    let isEqual ← p.check .Equal
    if isEqual then
      let (eqlTok, p) ← p.advance
      let (rhs, p) ← Parser.typeCast env fuel p
      match expr with
      | .VariableExpr Identifier => pure (.AssignmentExpr none Identifier rhs, p)
      | .ContextExpr Context Variable => pure (.AssignmentExpr (some Context) Variable rhs, p)
      | _ => .error (.parseError ⟨some eqlTok, "Invalid type found behind assignment"⟩)
    else pure (expr, p)
/-- The method `typeCast`. -/
def Parser.typeCast (env : ParserEnv) : Nat → Parser → ParseResult (Expr × Parser)
  | 0, _ => .error .outOfFuel
  | fuel + 1, p => do
    let (expr, p) ← Parser.typeCheck env fuel p
    Parser.typeCastLoop env fuel expr p
/-- The method `typeCheck`. -/
def Parser.typeCheck (env : ParserEnv) : Nat → Parser → ParseResult (Expr × Parser)
  | 0, _ => .error .outOfFuel
  | fuel + 1, p => do
    let (expr, p) ← Parser.logicalOr env fuel p
    let (found, p) ← p.matchTypes [.Is]
    if found then
      let (t, p) ← env.typeContractDefinable p
      pure (.TypeCheckExpr expr t, p)
    else pure (expr, p)
/-- The method `logicalOr`. -/
def Parser.logicalOr (env : ParserEnv) : Nat → Parser → ParseResult (Expr × Parser)
  | 0, _ => .error .outOfFuel
  | fuel + 1, p => do
    let (expr, p) ← Parser.logicalAnd env fuel p
    Parser.binaryLoop [.Or] (Parser.logicalAnd env fuel) fuel expr p
/-- The method `logicalAnd`. -/
def Parser.logicalAnd (env : ParserEnv) : Nat → Parser → ParseResult (Expr × Parser)
  | 0, _ => .error .outOfFuel
  | fuel + 1, p => do
    let (expr, p) ← Parser.referenceEquality env fuel p
    Parser.binaryLoop [.And] (Parser.referenceEquality env fuel) fuel expr p
/-- The method `referenceEquality`. -/
def Parser.referenceEquality (env : ParserEnv) : Nat → Parser → ParseResult (Expr × Parser)
  | 0, _ => .error .outOfFuel
  | fuel + 1, p => do
    let (expr, p) ← Parser.comparison env fuel p
    Parser.binaryLoop [.Equals, .NotEquals] (Parser.comparison env fuel) fuel expr p
/-- The method `comparison`. -/
def Parser.comparison (env : ParserEnv) : Nat → Parser → ParseResult (Expr × Parser)
  | 0, _ => .error .outOfFuel
  | fuel + 1, p => do
    let (expr, p) ← Parser.addition env fuel p
    Parser.binaryLoop [.GreaterEqual, .RAngle, .LesserEqual, .LAngle]
      (Parser.addition env fuel) fuel expr p
/-- The method `addition`. -/
def Parser.addition (env : ParserEnv) : Nat → Parser → ParseResult (Expr × Parser)
  | 0, _ => .error .outOfFuel
  | fuel + 1, p => do
    let (expr, p) ← Parser.multiplication env fuel p
    Parser.binaryLoop [.Add, .Subtract] (Parser.multiplication env fuel) fuel expr p
/-- The method `multiplication`. -/
def Parser.multiplication (env : ParserEnv) : Nat → Parser → ParseResult (Expr × Parser)
  | 0, _ => .error .outOfFuel
  | fuel + 1, p => do
    let (expr, p) ← Parser.unary env fuel p
    Parser.binaryLoop [.Multiply, .Slash, .Mod] (Parser.unary env fuel) fuel expr p
/-- The method `unary`. -/
def Parser.unary (env : ParserEnv) : Nat → Parser → ParseResult (Expr × Parser)
  | 0, _ => .error .outOfFuel
  | fuel + 1, p => do
    let (found, p) ← p.matchTypes [.Subtract, .Not, .Add]
    if found then
      let op ← p.previous
      let (rhs, p) ← Parser.unary env fuel p
      pure (.UnaryExpr op.TokenType rhs, p)
    else Parser.invoke env fuel p
/-- The method `invoke`. -/
def Parser.invoke (env : ParserEnv) : Nat → Parser → ParseResult (Expr × Parser)
  | 0, _ => .error .outOfFuel
  | fuel + 1, p => do
    let (expr, p) ← Parser.funDef env fuel p
    Parser.invokeLoop env (Parser.expression env fuel) fuel expr p
/-- The method `funDef`. -/
def Parser.funDef (env : ParserEnv) : Nat → Parser → ParseResult (Expr × Parser)
  | 0, _ => .error .outOfFuel
  | fuel + 1, p => do
    let tok ← p.peek
    match tok.TokenType with
    | .LParen =>
      let (args, p) ← env.functionArguments p
      let (_, p) ← p.consume .Arrow "Expected arrow at function definition"
      let isIdentifier ← p.check .Identifier
      let (typ, p) ← (if isIdentifier then (do
          let (present, p) ← env.isBlockPresent p
          if present then
            let (t, p) ← env.typeContract p
            pure (some t, p)
          else pure (none, p))
        else pure (none, p) : ParseResult (Option TypeContract × Parser))
      let (statement, p) ← env.statement p
      pure (.FuncDefExpr args typ statement, p)
    | .LBrace =>
      let (mapExpr, p) ← Parser.tryParseMapLiteral env fuel p
      match mapExpr with
      | some e => pure (e, p)
      | none =>
        let prev ← p.previous
        if prev.TokenType = .Arrow then
          .error (.parseError
            ⟨some tok, "Single line function expected, found block function"⟩)
        else
          let (stmts, p) ← env.blockStatement p
          pure (.FuncDefExpr [] none (.BlockStmt stmts), p)
    | .Arrow =>
      let (_, p) ← p.advance
      let (statement, p) ← env.exprStatement p
      pure (.FuncDefExpr [] none statement, p)
    | _ => Parser.collection env fuel p
/-- The method `tryParseMapLiteral`; `none` is the result `nil`. -/
def Parser.tryParseMapLiteral (env : ParserEnv) :
    Nat → Parser → ParseResult (Option Expr × Parser)
  | 0, _ => .error .outOfFuel
  | fuel + 1, p => do
    let (seenColon, p) ← Parser.lookahead fuel p
    if !seenColon then pure (none, p)
    else
      let (e, p) ← Parser.mapLiteral env fuel p
      pure (some e, p)
/-- The method `mapLiteral`. -/
def Parser.mapLiteral (env : ParserEnv) : Nat → Parser → ParseResult (Expr × Parser)
  | 0, _ => .error .outOfFuel
  | fuel + 1, p => do
    let (_, p) ← p.consume .LBrace "Expected \x7b in map literal"
    let p ← p.cleanNewLines
    let (entries, p) ← Parser.mapLiteralLoop (Parser.expression env fuel) fuel [] p
    let (_, p) ← p.consume .RBrace "Expected \x7d to close map literal"
    pure (.MapExpr entries, p)
/-- The method `collection`. -/
def Parser.collection (env : ParserEnv) : Nat → Parser → ParseResult (Expr × Parser)
  | 0, _ => .error .outOfFuel
  | fuel + 1, p => do
    let (found, p) ← p.matchTypes [.LSquare]
    if found then
      let (col, p) ← Parser.collectionLoop (Parser.expression env fuel) fuel [] p
      let (_, p) ← p.consume .RSquare "Expected ']' at end of collection literal"
      pure (.CollectionExpr col, p)
    else Parser.primary env fuel p
/-- The method `primary`.  The two tests after the `switch` are made in the cases that can
fail them: a conversion error in the cases `Int` and `Float`, and no expression in the
default case. -/
def Parser.primary (env : ParserEnv) : Nat → Parser → ParseResult (Expr × Parser)
  | 0, _ => .error .outOfFuel
  | fuel + 1, p => do
    let tok ← p.peek
    match tok.TokenType with
    | .String =>
      let (str, p) ← p.consume .String "Expected string"
      pure (.StringLiteralExpr (String.mk (replaceEscapedNewlines str.Text)), p)
    | .Char =>
      let (charTok, p) ← p.consume .Char "Expected char"
      match charTok.Text with
      | [] => .error (.runtime .indexOutOfRange)
      | char :: _ => pure (.CharLiteralExpr char, p)
    | .BooleanTrue =>
      let (_, p) ← p.consume .BooleanTrue "Expected BooleanTrue"
      pure (.BooleanLiteralExpr true, p)
    | .BooleanFalse =>
      let (_, p) ← p.consume .BooleanFalse "Expected BooleanFalse"
      pure (.BooleanLiteralExpr false, p)
    | .Int =>
      let (str, p) ← p.consume .Int "Expected integer"
      match ParseInt str.Text with
      | some integer => pure (.IntegerLiteralExpr integer, p)
      | none =>
        let prev ← p.previous
        .error (.parseError ⟨some prev, "Expected literal"⟩)
    | .Float =>
      let (str, p) ← p.consume .Float "Expected float"
      match env.ParseFloat str.Text with
      | some float => pure (.FloatLiteralExpr float, p)
      | none =>
        let prev ← p.previous
        .error (.parseError ⟨some prev, "Expected literal"⟩)
    | .Identifier =>
      let (str, p) ← p.consume .Identifier "Expected identifier"
      pure (.VariableExpr (String.mk str.Text), p)
    | .If => Parser.ifElseExpression env fuel p
    | .LParen =>
      let (_, p) ← p.advance
      let (e, p) ← Parser.expression env fuel p
      let (_, p) ← p.consume .RParen "Expected ')' after grouped expression"
      pure (.GroupExpr e, p)
    | _ => .error (.parseError ⟨some tok, "Invalid expression"⟩)
/-- The method `ifElseExpression`.  Indexing the statements of an empty block panics. -/
def Parser.ifElseExpression (env : ParserEnv) : Nat → Parser → ParseResult (Expr × Parser)
  | 0, _ => .error .outOfFuel
  | fuel + 1, p => do
    let (_, p) ← p.consume .If "Expected if at beginning of if expression"
    let (condition, p) ← Parser.logicalOr env fuel p
    let t ← p.peek
    if t.TokenType = .Arrow then
      let (_, p) ← p.consume .Arrow ""
      let (mainResult, p) ← Parser.expression env fuel p
      let ((elseBranch, elseResult), p) ← Parser.elseExpression env fuel p
      pure (.IfElseExpr condition [] mainResult elseBranch elseResult, p)
    else
      let (stmts, p) ← env.blockStatement p
      match stmts.getLast? with
      | none => .error (.runtime .indexOutOfRange)
      | some (.ExpressionStmt mainResult) =>
        let ((elseBranch, elseResult), p) ← Parser.elseExpression env fuel p
        pure (.IfElseExpr condition stmts.dropLast mainResult elseBranch elseResult, p)
      | some _ =>
        .error (.parseError ⟨none, "Last line in an `if` block must be an expression"⟩)
/-- The method `elseExpression`.  Indexing the statements of an empty block panics. -/
def Parser.elseExpression (env : ParserEnv) :
    Nat → Parser → ParseResult ((List Stmt × Expr) × Parser)
  | 0, _ => .error .outOfFuel
  | fuel + 1, p => do
    let p ← p.cleanNewLines
    let (_, p) ← p.consume .Else "if expression must follow with else expression"
    let t ← p.peek
    if t.TokenType = .Arrow then
      let (_, p) ← p.advance
      let (e, p) ← Parser.expression env fuel p
      pure (([], e), p)
    else if t.TokenType = .If then
      let (e, p) ← Parser.ifElseExpression env fuel p
      pure (([], e), p)
    else
      let (stmts, p) ← env.blockStatement p
      match stmts.getLast? with
      | none => .error (.runtime .indexOutOfRange)
      | some (.ExpressionStmt elseResult) => pure ((stmts.dropLast, elseResult), p)
      | some _ =>
        .error (.parseError
          ⟨none, "Last line in an `else` expression block must be an expression"⟩)
end

/-- An environment in which every function that the sources do not hold fails; it serves to
run the parser on expressions that need none of them. -/
def ParserEnv.failing : ParserEnv where
  typeContractDefinable := fun p => .error (.parseError ⟨p.tokens[p.current]?, "absent"⟩)
  typeContract := fun p => .error (.parseError ⟨p.tokens[p.current]?, "absent"⟩)
  invocationParameters := fun _ p => .error (.parseError ⟨p.tokens[p.current]?, "absent"⟩)
  functionArguments := fun p => .error (.parseError ⟨p.tokens[p.current]?, "absent"⟩)
  isBlockPresent := fun p => .error (.parseError ⟨p.tokens[p.current]?, "absent"⟩)
  statement := fun p => .error (.parseError ⟨p.tokens[p.current]?, "absent"⟩)
  blockStatement := fun p => .error (.parseError ⟨p.tokens[p.current]?, "absent"⟩)
  exprStatement := fun p => .error (.parseError ⟨p.tokens[p.current]?, "absent"⟩)
  consumeValidIdentifier := fun _ p => .error (.parseError ⟨p.tokens[p.current]?, "absent"⟩)
  ParseFloat := fun _ => none

/-- A token of the given type and text, at line 1 and column 0. -/
def Token.of (t : Elara.TokenType) (text : String) : Token :=
  ⟨t, text.toList, (1, 0)⟩

/-- The environment `ParserEnv.failing` with a `blockStatement` that gives the statements
`stmts` and moves `skip` tokens forward. -/
def ParserEnv.withBlock (stmts : List Stmt) (skip : Nat) : ParserEnv :=
  { ParserEnv.failing with
    blockStatement := fun p => .ok (stmts, ⟨p.tokens, p.current + skip⟩) }

/-- The expression is a `GroupExpr`. -/
def Expr.isGroup : Expr → Bool
  | .GroupExpr _ => true
  | _ => false

/-- The expression that an atomic operand stands for: a literal or an identifier, as
`primary` reads it; `none` for every other token and for a literal whose text does not
convert. -/
def Token.atom (env : ParserEnv) (t : Token) : Option Expr :=
  match t.TokenType with
  | .String => some (.StringLiteralExpr (String.mk (replaceEscapedNewlines t.Text)))
  | .Char =>
    match t.Text with
    | [] => none
    | char :: _ => some (.CharLiteralExpr char)
  | .BooleanTrue => some (.BooleanLiteralExpr true)
  | .BooleanFalse => some (.BooleanLiteralExpr false)
  | .Int => (ParseInt t.Text).map .IntegerLiteralExpr
  | .Float => (env.ParseFloat t.Text).map .FloatLiteralExpr
  | .Identifier => some (.VariableExpr (String.mk t.Text))
  | _ => none

/-- The operators that the parser function of level `k` of the ladder matches, from
`logicalOr` (level 0) to `multiplication` (level 5). -/
def Parser.levelOps : Nat → List TokenType
  | 0 => [.Or]
  | 1 => [.And]
  | 2 => [.Equals, .NotEquals]
  | 3 => [.GreaterEqual, .RAngle, .LesserEqual, .LAngle]
  | 4 => [.Add, .Subtract]
  | 5 => [.Multiply, .Slash, .Mod]
  | _ => []

/-- The level of a binary operator in the ladder `or` < `and` < `==`, `!=` < comparison <
`+`, `-` < `*`, `/`, `%`. -/
def TokenType.level : TokenType → Option Nat
  | .Or => some 0
  | .And => some 1
  | .Equals => some 2
  | .NotEquals => some 2
  | .GreaterEqual => some 3
  | .RAngle => some 3
  | .LesserEqual => some 3
  | .LAngle => some 3
  | .Add => some 4
  | .Subtract => some 4
  | .Multiply => some 5
  | .Slash => some 5
  | .Mod => some 5
  | _ => none

/-- The token type is one that the expression parser matches after an operand: a binary
operator, the start of an invocation, of a dotted access or of an index, `as`, `is` or
`=`. -/
def TokenType.continuesExpression (t : TokenType) : Bool :=
  t.level.isSome || decide (t = .LParen) || decide (t = .Dot) || decide (t = .LSquare) ||
    decide (t = .As) || decide (t = .Is) || decide (t = .Equal)

/-- The parser function of level `k` of the ladder: `logicalOr`, `logicalAnd`,
`referenceEquality`, `comparison`, `addition`, `multiplication`, and `unary` below them. -/
def Parser.level (env : ParserEnv) : Nat → Nat → Parser → ParseResult (Expr × Parser)
  | 0 => Parser.logicalOr env
  | 1 => Parser.logicalAnd env
  | 2 => Parser.referenceEquality env
  | 3 => Parser.comparison env
  | 4 => Parser.addition env
  | 5 => Parser.multiplication env
  | _ => Parser.unary env

/-- With enough fuel the parser function of level `k` gives the result `r` at `p`. -/
def Parser.ParsesAt (env : ParserEnv) (k : Nat) (p : Parser) (r : Expr × Parser) : Prop :=
  ∀ fuel, 18 ≤ fuel + k → Parser.level env k fuel p = .ok r

/-- The statement is an `ExpressionStmt`: the type assertion
`lastMainStmt.(ExpressionStmt)` succeeds. -/
def Stmt.isExpressionStmt : Stmt → Bool
  | .ExpressionStmt _ => true
  | _ => false

/-! ## `ast/data.go` -/

/-- Modelled from the spec: an `Identifier` of the package `ast` is a name (its Go declaration
is not part of the sources; `Module.ToString` reads the field `name`). -/
structure Identifier where
  name : String

/-- The Go struct `Module`.  `Sub` is a field of type `Identifier`, not a pointer; a `Sub`
that is not provided is the zero value, with the empty name. -/
structure Module where
  Root : Identifier
  Sub : Identifier

/-- The test `&m.Sub != nil` of `Module.ToString`: the address of a field of the module is
never nil. -/
def Module.subAddressIsNotNil (_ : Module) : Bool := true

/-- The method `Module.ToString`. -/
def Module.ToString (m : Module) : String :=
  if m.subAddressIsNotNil then m.Root.name
  else m.Root.name ++ "/" ++ m.Sub.name

/-! ## `lexer/lexer.go` -/

/-- The four results of a call `scanner.Read()`. -/
structure Reading where
  tok : TokenType
  runes : List Char
  line : Nat
  col : Nat

/-- What `Lex` uses and the sources do not hold: the scanner that `NewTokenReader` makes for
the runes of the code, given as the results of its successive calls of `Read`, and the zero
value `Token{}` with which `make` fills the slice. -/
structure LexEnv where
  NewTokenReader : List Char → Nat → Reading
  zeroToken : Token

/-- The token that `Lex` builds from a reading; `CreatePosition(line, col)` is the pair. -/
def Reading.token (r : Reading) : Token :=
  ⟨r.tok, r.runes, (r.line, r.col)⟩

/-- The loop of `Lex`: `k` is the number of calls of `Read` made so far, `tokens` the slice
and `i` the index.  The test `i <= len(tokens)-1` is made on integers.  `none` is a loop that
is still running when the fuel is used up. -/
def Lex.loop (read : Nat → Reading) : Nat → Nat → List Token → Nat → Option (List Token)
  | 0, _, _, _ => none
  | fuel + 1, k, tokens, i =>
    if (read k).tok = .EOF then some (tokens.take i)
    else if (i : Int) ≤ (tokens.length : Int) - 1 then
      Lex.loop read fuel (k + 1) (tokens.set i (read k).token) (i + 1)
    else
      Lex.loop read fuel (k + 1) (tokens ++ [(read k).token]) (tokens ++ [(read k).token]).length

/-- The size of the slice that `Lex` makes: `len(code)`, halved when it is more than 10. -/
def Lex.estimateLength (code : String) : Nat :=
  if code.utf8ByteSize > 10 then code.utf8ByteSize / 2 else code.utf8ByteSize

/-- The function `Lex`. -/
def Lex (env : LexEnv) (fuel : Nat) (code : String) : Option (List Token) :=
  Lex.loop (env.NewTokenReader code.toList) fuel 0
    (List.replicate (Lex.estimateLength code) env.zeroToken) 0

/-- A loop that appends each token that the scanner reads before its first `EOF` to a list
that starts empty: what `Lex` would be without the slice made in advance. -/
def Lex.appendLoop (read : Nat → Reading) : Nat → Nat → List Token → Option (List Token)
  | 0, _, _ => none
  | fuel + 1, k, tokens =>
    if (read k).tok = .EOF then some tokens
    else Lex.appendLoop read fuel (k + 1) (tokens ++ [(read k).token])

/-- A scanner to run `Lex` on: it reads every rune of the code as an identifier of its own,
at line 1 and at the column of the rune, and `EOF` from the end of the code on. -/
def LexEnv.runes : LexEnv where
  NewTokenReader := fun chars k =>
    match chars[k]? with
    | some c => ⟨.Identifier, [c], 1, k⟩
    | none => ⟨.EOF, [], 1, k⟩
  zeroToken := ⟨.Other 0, [], (0, 0)⟩

/-- A scanner to run `Lex` on: it reads a code that is not empty as one string token, and
`EOF` after it. -/
def LexEnv.whole : LexEnv where
  NewTokenReader := fun chars k =>
    if k = 0 ∧ chars ≠ [] then ⟨.String, chars, 1, 0⟩ else ⟨.EOF, [], 1, chars.length⟩
  zeroToken := ⟨.Other 0, [], (0, 0)⟩

/-! ## `types.go`: `FromASTType` -/

/-- Modelled from the spec: `FindType` looks the name up in the types of the scope and then
walks the parent links; `none` is the Go `nil`. -/
def Context.FindType : Context → String → Option Ty
  | .mk parent _ types _ _ _, name =>
    match types.lookup name with
    | some t => some t
    | none =>
      match parent with
      | none => none
      | some p => p.FindType name

/-- The assignment `parts[key] = value` on a Go map: the entry of the key is replaced. -/
def mapAssign (parts : List (String × Ty)) (key : String) (value : Ty) : List (String × Ty) :=
  (key, value) :: parts.filter fun e => e.1 ≠ key

mutual
/-- The function `FromASTType`.  `next` is the address of the next object that is allocated;
`NewEmptyType` allocates one.  The result is the type and the next free address, or the
payload of the panic. -/
def FromASTType : TypeContract → Context → Nat → Except PanicPayload (Ty × Nat)
  | .ElementaryTypeContract Identifier, ctx, next =>
    match ctx.FindType Identifier with
    | some found => .ok (found, next)
    | none => .ok (.EmptyType next Identifier, next + 1)
  | .InvocableTypeContract Args ReturnType, ctx, next =>
    match FromASTType ReturnType ctx next with
    | .error e => .error e
    | .ok (returned, next) =>
      match FromASTType.args Args ctx 0 next with
      | .error e => .error e
      | .ok (args, next) => .ok (.FunctionType (.mk args returned), next)
  | .CollectionTypeContract ElemType, ctx, next =>
    match FromASTType ElemType ctx next with
    | .error e => .error e
    | .ok (elemType, next) => .ok (.CollectionType elemType, next)
  | .BinaryTypeContract TypeOp Lhs Rhs, ctx, next =>
    match TypeOp with
    | .TypeAnd =>
      match FromASTType Lhs ctx next with
      | .error e => .error e
      | .ok (a, next) =>
        match FromASTType Rhs ctx next with
        | .error e => .error e
        | .ok (b, next) => .ok (.IntersectionType a b, next)
    | .TypeOr =>
      match FromASTType Lhs ctx next with
      | .error e => .error e
      | .ok (a, next) =>
        match FromASTType Rhs ctx next with
        | .error e => .error e
        | .ok (b, next) => .ok (.UnionType a b, next)
    | _ => .error (.text "Cannot handle BinaryTypeContract")
  | .DefinedTypeContract Name DefType, ctx, next =>
    match FromASTType.parts DefType ctx [] next with
    | .error e => .error e
    | .ok (parts, next) => .ok (.DefinedType Name parts, next)
  | .MapTypeContract KeyType ValueType, ctx, next =>
    match FromASTType KeyType ctx next with
    | .error e => .error e
    | .ok (keyType, next) =>
      match FromASTType ValueType ctx next with
      | .error e => .error e
      | .ok (valueType, next) => .ok (.MapType keyType valueType, next)
termination_by structural x => x
/-- The loop `for i, arg := range t.Args` of `FromASTType`, from index `i` on. -/
def FromASTType.args :
    List TypeContract → Context → Nat → Nat → Except PanicPayload (List Parameter × Nat)
  | [], _, _, next => .ok ([], next)
  | arg :: rest, ctx, i, next =>
    match FromASTType arg ctx next with
    | .error e => .error e
    | .ok (argType, next) =>
      match FromASTType.args rest ctx (i + 1) next with
      | .error e => .error e
      | .ok (args, next) => .ok (.mk ("arg" ++ toString i) argType :: args, next)
termination_by structural x => x
/-- The loop `for _, definedType := range t.DefType` of `FromASTType`; `parts` is the map
built so far. -/
def FromASTType.parts :
    List (String × TypeContract) → Context → List (String × Ty) → Nat →
      Except PanicPayload (List (String × Ty) × Nat)
  | [], _, parts, next => .ok (parts, next)
  | (Identifier, DefType) :: rest, ctx, parts, next =>
    match FromASTType DefType ctx next with
    | .error e => .error e
    | .ok (t, next) => FromASTType.parts rest ctx (mapAssign parts Identifier t) next
termination_by structural x => x
end

/-! ## Type objects that refer to themselves

In Go a property, an operand or a part holds a pointer to a type object, and a struct type
can reach itself through the types of its properties.  The objects below sit in a heap and
name each other by address, so that such a type can be written down; `Accepts` on them takes
fuel, one unit for each call. -/

/-- A type object of `types.go` in a heap: an `EmptyType`, a `StructType` whose properties
hold the name and the address of the type of the property, a `UnionType` or an
`IntersectionType` whose operands are addresses. -/
inductive TypeObject where
  | EmptyType (name : String)
  | StructType (TypeName : String) (Properties : List (String × Nat))
      (propertyPositions : List (String × Int))
  | UnionType (a b : Nat)
  | IntersectionType (a b : Nat)

/-- What a call of `Accepts` on the objects of a heap does: it returns a boolean, it panics,
or it is still running when the fuel is used up. -/
inductive HeapResult where
  | returns (b : Bool)
  | panics
  | running
deriving DecidableEq

/-- The method `StructType.GetProperty` on the properties of a heap object, with the results
of `StructType.GetProperty`. -/
def TypeObject.GetProperty (Properties : List (String × Nat))
    (propertyPositions : List (String × Int)) (identifier : String) :
    Option (Option (String × Nat)) :=
  match propertyPositions.lookup identifier with
  | none => some none
  | some i =>
    if 0 ≤ i then
      match Properties[i.toNat]? with
      | some p => some (some p)
      | none => none
    else none

/-- The loop `for _, property := range t.Properties` of `StructType.Accepts` on heap objects;
`accepts` is the method `Accepts` on two addresses. -/
def TypeObject.AcceptsLoop (accepts : Nat → Nat → HeapResult) :
    List (String × Nat) → List (String × Nat) → List (String × Int) → HeapResult
  | [], _, _ => .returns true
  | (Name, type) :: rest, otherProperties, otherPositions =>
    match TypeObject.GetProperty otherProperties otherPositions Name with
    | none => .panics
    | some none => .returns false
    | some (some byName) =>
      match accepts type byName.2 with
      | .returns true => TypeObject.AcceptsLoop accepts rest otherProperties otherPositions
      | r => r

/-- The method `Accepts` of `EmptyType`, `StructType`, `UnionType` and `IntersectionType`
on the objects at the addresses `t` and `otherType` of a heap; an address without an object
is a nil pointer. -/
def Heap.Accepts (heap : Nat → Option TypeObject) : Nat → Nat → Nat → HeapResult
  | 0, _, _ => .running
  | fuel + 1, t, otherType =>
    match heap t with
    | none => .panics
    | some (.EmptyType name) =>
      if name = "Any" then .returns true
      else
        match heap otherType with
        | some (.EmptyType otherName) => .returns (decide (name = otherName))
        | _ => .returns (decide (t = otherType))
    | some (.StructType _ Properties _) =>
      match heap otherType with
      | some (.StructType _ otherProperties otherPositions) =>
        TypeObject.AcceptsLoop (Heap.Accepts heap fuel) Properties otherProperties
          otherPositions
      | _ => .returns false
    | some (.UnionType a b) =>
      match Heap.Accepts heap fuel a otherType with
      | .returns false => Heap.Accepts heap fuel b otherType
      | r => r
    | some (.IntersectionType a b) =>
      match Heap.Accepts heap fuel a otherType with
      | .returns true => Heap.Accepts heap fuel b otherType
      | r => r

/-- A heap with one object, at address 0: the struct type `Node` whose only property,
`next`, has the type `Node` itself. -/
def Heap.selfReferential : Nat → Option TypeObject :=
  fun a => if a = 0 then some (.StructType "Node" [("next", 0)] [("next", 0)]) else none

/-! ## An extension function -/

/-- A root context in which one extension is registered: for the type `String`, under the
name `length`, a function of the type `(this: String) -> Float`. -/
def Context.withLengthExtension : Context :=
  .mk none [] [] [] none fun t s =>
    if t.asEmptyType = some "String" ∧ s = "length" then
      some ⟨⟨.FunctionType (.mk [.mk "this" StringType] FloatType),
        .function (some "length") (.mk [.mk "this" StringType] FloatType)⟩⟩
    else none

/-! # Theorems -/

/-! ## Basic facts about the fields and `GetProperty` -/

@[simp] theorem Property_Name_mk (n : String) (t : Ty) (m : Nat) :
    (Property.mk n t m).Name = n := rfl

@[simp] theorem Property_type_mk (n : String) (t : Ty) (m : Nat) :
    (Property.mk n t m).type = t := rfl

@[simp] theorem Parameter_Name_mk (n : String) (t : Ty) : (Parameter.mk n t).Name = n := rfl

@[simp] theorem Parameter_type_mk (n : String) (t : Ty) : (Parameter.mk n t).type = t := rfl

@[simp] theorem Signature_Parameters_mk (ps : List Parameter) (r : Ty) :
    (Signature.mk ps r).Parameters = ps := rfl

@[simp] theorem Signature_ReturnType_mk (ps : List Parameter) (r : Ty) :
    (Signature.mk ps r).ReturnType = r := rfl

theorem StructType_GetProperty_mem {ps : List Property} {pos : List (String × Int)}
    {s : String} {q : Property} (h : StructType.GetProperty ps pos s = some (some q)) :
    q ∈ ps := by
  unfold StructType.GetProperty at h
  split at h
  · simp at h
  · split at h
    · split at h
      · rename_i p hp
        simp at h
        subst h
        exact List.getElem?_mem hp
      · simp at h
    · simp at h

theorem Property_allPositionsValid_mem {ps : List Property} (h : Property.allPositionsValid ps = true)
    {q : Property} (hq : q ∈ ps) : q.type.PositionsValid = true := by
  induction ps with
  | nil => simp at hq
  | cons p rest ih =>
    cases p with
    | mk n t m =>
      simp [Property.allPositionsValid] at h
      rcases List.mem_cons.1 hq with rfl | hq
      · simpa [Property.type] using h.1
      · exact ih h.2 hq

theorem StructType_GetProperty_ne_none {ps : List Property} {pos : List (String × Int)}
    (h : StructType.positionsInRange ps pos = true) (s : String) :
    StructType.GetProperty ps pos s ≠ none := by
  unfold StructType.GetProperty
  split
  · simp
  · rename_i i hi
    have hmem : (s, i) ∈ pos := by
      clear h
      induction pos with
      | nil => simp [List.lookup] at hi
      | cons e rest ih =>
        obtain ⟨k, v⟩ := e
        simp only [List.lookup] at hi
        split at hi
        · rename_i hk
          simp at hi
          have : s = k := by simpa using hk
          subst this; subst hi
          simp
        · exact List.mem_cons_of_mem _ (ih hi)
    have hr := (List.all_eq_true.1 h) _ hmem
    simp at hr
    obtain ⟨h0, h1⟩ := hr
    rw [if_pos h0]
    have : ps[i.toNat]? = some ps[i.toNat] := List.getElem?_eq_getElem h1
    rw [this]
    simp

/-! ## `Accepts` returns on well-formed types

The types of this section are trees, hence finite.  On type objects that refer to themselves
`Accepts` need not return; those are the objects of `Heap.Accepts`. -/

mutual
theorem Ty_Accepts_ne_none (ctx : Context) (hctx : ctx.PositionsValid) :
    ∀ (T other : Ty), other.PositionsValid = true → T.Accepts other ctx ≠ none
  | .StructType _ ps _, other, h => by
    cases other with
    | StructType n qs pos =>
      simp only [Ty.PositionsValid, Bool.and_eq_true] at h
      simp only [Ty.Accepts]
      exact StructType_AcceptsLoop_ne_none ctx hctx ps qs pos h.1 h.2
    | _ => simp [Ty.Accepts]
  | .FunctionType sig, other, h => by
    cases other with
    | FunctionType osig =>
      simp only [Ty.Accepts]
      exact Signature_Accepts_ne_none ctx hctx sig osig (by simpa [Ty.PositionsValid] using h)
    | _ => simp [Ty.Accepts]
  | .EmptyType _ name, other, _ => by
    simp only [Ty.Accepts]
    split
    · simp
    · split <;> simp
  | .UnionType a b, other, h => by
    have ha := Ty_Accepts_ne_none ctx hctx a other h
    have hb := Ty_Accepts_ne_none ctx hctx b other h
    simp only [Ty.Accepts]
    split
    · contradiction
    · simp
    · exact hb
  | .IntersectionType a b, other, h => by
    have ha := Ty_Accepts_ne_none ctx hctx a other h
    have hb := Ty_Accepts_ne_none ctx hctx b other h
    simp only [Ty.Accepts]
    split
    · contradiction
    · simp
    · exact hb
  | .DefinedType _ parts, other, h => by
    simp only [Ty.Accepts]
    exact DefinedType_AcceptsLoop_ne_none ctx hctx parts other h
  | .CollectionType e, other, h => by
    cases other with
    | CollectionType oe =>
      simp only [Ty.Accepts, CollectionType.Accepts]
      exact Ty_Accepts_ne_none ctx hctx e oe (by simpa [Ty.PositionsValid] using h)
    | _ => simp [Ty.Accepts, CollectionType.Accepts]
  | .MapType k v, other, h => by
    cases other with
    | MapType ok ov =>
      simp only [Ty.PositionsValid, Bool.and_eq_true] at h
      have hk := Ty_Accepts_ne_none ctx hctx k ok h.1
      have hv := Ty_Accepts_ne_none ctx hctx v ov h.2
      simp only [Ty.Accepts, MapType.Accepts]
      split
      · contradiction
      · simp
      · exact hv
    | _ => simp [Ty.Accepts, MapType.Accepts]
theorem StructType_AcceptsLoop_ne_none (ctx : Context) (hctx : ctx.PositionsValid) :
    ∀ (ps qs : List Property) (pos : List (String × Int)),
      StructType.positionsInRange qs pos = true → Property.allPositionsValid qs = true →
      StructType.AcceptsLoop ps qs pos ctx ≠ none
  | [], _, _, _, _ => by simp [StructType.AcceptsLoop]
  | .mk n t _ :: rest, qs, pos, h1, h2 => by
    have hrest := StructType_AcceptsLoop_ne_none ctx hctx rest qs pos h1 h2
    have hg := StructType_GetProperty_ne_none h1 n
    simp only [StructType.AcceptsLoop]
    split
    · contradiction
    · simp
    · rename_i q hq
      have hqv := Property_allPositionsValid_mem h2 (StructType_GetProperty_mem hq)
      have ht := Ty_Accepts_ne_none ctx hctx t q.type hqv
      split
      · contradiction
      · simp
      · exact hrest
theorem DefinedType_AcceptsLoop_ne_none (ctx : Context) (hctx : ctx.PositionsValid) :
    ∀ (parts : List (String × Ty)) (other : Ty), other.PositionsValid = true →
      DefinedType.AcceptsLoop parts other ctx ≠ none
  | [], _, _ => by simp [DefinedType.AcceptsLoop]
  | (s, t2) :: rest, other, h => by
    have hrest := DefinedType_AcceptsLoop_ne_none ctx hctx rest other h
    have hext : (match ctx.FindExtension other s with
        | none => some false
        | some extension =>
          match Ty.Accepts t2 extension.Value.type ctx with
          | none => none
          | some true => DefinedType.AcceptsLoop rest other ctx
          | some false => some false) ≠ none := by
      split
      · simp
      · rename_i e he
        have := Ty_Accepts_ne_none ctx hctx t2 e.Value.type (hctx _ _ _ he)
        split
        · contradiction
        · exact hrest
        · simp
    cases other with
    | StructType n qs pos =>
      simp only [Ty.PositionsValid, Bool.and_eq_true] at h
      have hg := StructType_GetProperty_ne_none h.1 s
      simp only [DefinedType.AcceptsLoop]
      split
      · contradiction
      · exact hext
      · rename_i q hq
        have hqv := Property_allPositionsValid_mem h.2 (StructType_GetProperty_mem hq)
        have ht := Ty_Accepts_ne_none ctx hctx t2 q.type hqv
        split
        · contradiction
        · exact hrest
        · exact hext
    | _ => simpa only [DefinedType.AcceptsLoop] using hext
theorem Signature_Accepts_ne_none (ctx : Context) (hctx : ctx.PositionsValid) :
    ∀ (sig other : Signature), other.PositionsValid = true →
      Signature.Accepts sig other ctx ≠ none
  | .mk ps r, other, h => by
    cases other with
    | mk ops ort =>
      simp only [Signature.PositionsValid, Bool.and_eq_true] at h
      have hp := Signature_AcceptsParameters_ne_none ctx hctx ps ops h.1
      have hr := Ty_Accepts_ne_none ctx hctx r ort h.2
      simp only [Signature.Accepts, Signature.Parameters, Signature.ReturnType]
      split
      · simp
      · split
        · contradiction
        · simp
        · exact hr
theorem Signature_AcceptsParameters_ne_none (ctx : Context) (hctx : ctx.PositionsValid) :
    ∀ (ps ops : List Parameter), Parameter.allPositionsValid ops = true →
      Signature.AcceptsParameters ps ops ctx ≠ none
  | [], _, _ => by simp [Signature.AcceptsParameters]
  | _ :: _, [], _ => by simp [Signature.AcceptsParameters]
  | .mk _ t :: rest, .mk _ ot :: orest, h => by
    simp only [Parameter.allPositionsValid, Bool.and_eq_true] at h
    have ht := Ty_Accepts_ne_none ctx hctx t ot h.1
    have hrest := Signature_AcceptsParameters_ne_none ctx hctx rest orest h.2
    simp only [Signature.AcceptsParameters, Parameter.type]
    split
    · contradiction
    · simp
    · exact hrest
end

/-! ## The loops of `StructType.Accepts` and `DefinedType.Accepts` -/

theorem StructType_AcceptsLoop_eq_true_iff (ctx : Context) (qs : List Property)
    (pos : List (String × Int)) :
    ∀ ps : List Property, StructType.AcceptsLoop ps qs pos ctx = some true ↔
      ∀ p ∈ ps, ∃ q, StructType.GetProperty qs pos p.Name = some (some q) ∧
        p.type.Accepts q.type ctx = some true
  | [] => by simp [StructType.AcceptsLoop]
  | .mk n t m :: rest => by
    have ih := StructType_AcceptsLoop_eq_true_iff ctx qs pos rest
    simp only [StructType.AcceptsLoop, List.forall_mem_cons, Property_Name_mk, Property_type_mk]
    rw [← ih]
    cases hg : StructType.GetProperty qs pos n with
    | none => simp
    | some r =>
      cases r with
      | none => simp
      | some q =>
        cases ha : Ty.Accepts t q.type ctx with
        | none => simp [ha]
        | some b => cases b <;> simp [ha]

theorem DefinedType_viaExtension_eq_true_iff (ctx : Context) (other : Ty) (s : String) (t2 : Ty)
    (next : Option Bool) :
    (match ctx.FindExtension other s with
      | none => some false
      | some extension =>
        match Ty.Accepts t2 extension.Value.type ctx with
        | none => none
        | some true => next
        | some false => some false) = some true ↔
      (∃ e, ctx.FindExtension other s = some e ∧ t2.Accepts e.Value.type ctx = some true) ∧
        next = some true := by
  cases he : ctx.FindExtension other s with
  | none => simp
  | some e =>
    cases ha : Ty.Accepts t2 e.Value.type ctx with
    | none => simp [ha]
    | some b => cases b <;> simp [ha]

theorem DefinedType_AcceptsLoop_cons_struct (ctx : Context) (s : String) (t2 : Ty)
    (rest : List (String × Ty)) (n : String) (qs : List Property) (pos : List (String × Int)) :
    DefinedType.AcceptsLoop ((s, t2) :: rest) (.StructType n qs pos) ctx =
      match StructType.GetProperty qs pos s with
      | none => none
      | some none =>
        (match ctx.FindExtension (.StructType n qs pos) s with
          | none => some false
          | some extension =>
            match Ty.Accepts t2 extension.Value.type ctx with
            | none => none
            | some true => DefinedType.AcceptsLoop rest (.StructType n qs pos) ctx
            | some false => some false)
      | some (some property) =>
        match Ty.Accepts t2 property.type ctx with
        | none => none
        | some true => DefinedType.AcceptsLoop rest (.StructType n qs pos) ctx
        | some false =>
          (match ctx.FindExtension (.StructType n qs pos) s with
            | none => some false
            | some extension =>
              match Ty.Accepts t2 extension.Value.type ctx with
              | none => none
              | some true => DefinedType.AcceptsLoop rest (.StructType n qs pos) ctx
              | some false => some false) := by
  simp only [DefinedType.AcceptsLoop]

theorem DefinedType_AcceptsLoop_cons_other (ctx : Context) (s : String) (t2 : Ty)
    (rest : List (String × Ty)) (other : Ty) (h : other.isStructType = false) :
    DefinedType.AcceptsLoop ((s, t2) :: rest) other ctx =
      match ctx.FindExtension other s with
      | none => some false
      | some extension =>
        match Ty.Accepts t2 extension.Value.type ctx with
        | none => none
        | some true => DefinedType.AcceptsLoop rest other ctx
        | some false => some false := by
  cases other with
  | StructType n qs pos => simp [Ty.isStructType] at h
  | _ => simp only [DefinedType.AcceptsLoop]

theorem Context_empty_PositionsValid : Context.empty.PositionsValid := by
  intro t s e h
  simp [Context.empty, Context.FindExtension] at h

/-! ## The contract table of `Accepts` -/

/-- Claim C1: the empty type named "Any" accepts every type, whichever object it is and
whatever the context. -/
theorem AnyType_Accepts (addr : Nat) (T : Ty) (ctx : Context) :
    (Ty.EmptyType addr "Any").Accepts T ctx = some true := by
  simp [Ty.Accepts]

/-- Claim C5, refuted as stated: the empty type `Any` accepts the struct type `O`, but the
union of a struct type with the property `x` and of `Any` does not return on `O`: the left
operand is evaluated first, and `GetProperty` on `O`, whose entry for `x` points outside its
properties, panics. -/
theorem UnionType_Accepts_fails_on_accepted :
    AnyType.Accepts (.StructType "O" [] [("x", 0)]) Context.empty = some true ∧
    (Ty.StructType "S" [.mk "x" AnyType 0] [("x", 0)]).Accepts
      (.StructType "O" [] [("x", 0)]) Context.empty = none ∧
    (Ty.UnionType (.StructType "S" [.mk "x" AnyType 0] [("x", 0)]) AnyType).Accepts
      (.StructType "O" [] [("x", 0)]) Context.empty = none := by
  decide

/-- Claim C5, amended: a union type evaluates `a.Accepts(X) || b.Accepts(X)` from left to
right.  It returns true exactly when `A` accepts `X`, or `A` rejects `X` and `B` accepts it;
it returns false exactly when both reject `X`; it fails exactly when `A` fails, or `A`
rejects `X` and `B` fails.  So whenever the call on `A` returns, the union accepts `X`
exactly when `A` or `B` accepts it, and union introduction holds for all types. -/
theorem UnionType_Accepts_iff (A B X : Ty) (ctx : Context) :
    ((Ty.UnionType A B).Accepts X ctx = some true ↔
      A.Accepts X ctx = some true ∨
        (A.Accepts X ctx = some false ∧ B.Accepts X ctx = some true)) ∧
    ((Ty.UnionType A B).Accepts X ctx = some false ↔
      A.Accepts X ctx = some false ∧ B.Accepts X ctx = some false) ∧
    ((Ty.UnionType A B).Accepts X ctx = none ↔
      A.Accepts X ctx = none ∨ (A.Accepts X ctx = some false ∧ B.Accepts X ctx = none)) ∧
    (A.Accepts X ctx ≠ none →
      ((Ty.UnionType A B).Accepts X ctx = some true ↔
        A.Accepts X ctx = some true ∨ B.Accepts X ctx = some true)) ∧
    (A.Accepts X ctx = some true → (Ty.UnionType A B).Accepts X ctx = some true) := by
  simp only [Ty.Accepts]
  cases ha : A.Accepts X ctx with
  | none => simp
  | some b => cases b <;> simp

theorem UnionType_Accepts_iff_witness :
    (Ty.UnionType FloatType AnyType).Accepts (Ty.StructType "S" [] []) Context.empty
        = some true ↔
      FloatType.Accepts (Ty.StructType "S" [] []) Context.empty = some true ∨
        AnyType.Accepts (Ty.StructType "S" [] []) Context.empty = some true :=
  (UnionType_Accepts_iff FloatType AnyType (Ty.StructType "S" [] []) Context.empty).2.2.2.1
    (by decide)

/-- Claim C6: an intersection type accepts `X` exactly when both of its operands accept `X`;
in particular an accepted `X` is accepted by each operand. -/
theorem IntersectionType_Accepts_iff (A B X : Ty) (ctx : Context) :
    ((Ty.IntersectionType A B).Accepts X ctx = some true ↔
      A.Accepts X ctx = some true ∧ B.Accepts X ctx = some true) ∧
    ((Ty.IntersectionType A B).Accepts X ctx = some true →
      A.Accepts X ctx = some true ∧ B.Accepts X ctx = some true) := by
  have key : (Ty.IntersectionType A B).Accepts X ctx = some true ↔
      A.Accepts X ctx = some true ∧ B.Accepts X ctx = some true := by
    simp only [Ty.Accepts]
    cases ha : A.Accepts X ctx with
    | none => simp
    | some b => cases b <;> simp
  exact ⟨key, key.1⟩

theorem IntersectionType_Accepts_iff_witness :
    AnyType.Accepts StringType Context.empty = some true ∧
      StringType.Accepts StringType Context.empty = some true :=
  (IntersectionType_Accepts_iff AnyType StringType StringType Context.empty).2 (by decide)

/-- Claim C7: an empty type whose name is not "Any" accepts `O` exactly when `O` is an empty
type of the same name, be it the same object or another one; the comparison of pointers that
is left for the other types never succeeds, so every type that is not an empty type is
rejected. -/
theorem EmptyType_Accepts_iff (addr : Nat) (n : String) (O : Ty) (ctx : Context)
    (hn : n ≠ "Any") :
    ((Ty.EmptyType addr n).Accepts O ctx = some true ↔ ∃ addr', O = .EmptyType addr' n) ∧
    (∀ addr', (Ty.EmptyType addr n).Accepts (.EmptyType addr' n) ctx = some true) ∧
    (O.isEmptyType = false → EmptyType.pointerEq addr O = false ∧
      (Ty.EmptyType addr n).Accepts O ctx = some false) := by
  refine ⟨?_, fun addr' => by simp [Ty.Accepts, Ty.asEmptyType, hn], ?_⟩
  · cases O with
    | EmptyType a m =>
      simp only [Ty.Accepts, Ty.asEmptyType, if_neg hn]
      constructor
      · intro h
        have : n = m := by simpa using h
        exact ⟨a, by rw [this]⟩
      · rintro ⟨a', h⟩
        cases h
        simp
    | _ => simp [Ty.Accepts, Ty.asEmptyType, EmptyType.pointerEq, hn]
  · intro h
    cases O with
    | EmptyType a m => simp [Ty.isEmptyType] at h
    | _ => simp [Ty.Accepts, Ty.asEmptyType, EmptyType.pointerEq, hn]

theorem EmptyType_Accepts_iff_witness :
    "Float" ≠ "Any" ∧
      ((Ty.EmptyType 2 "Float").Accepts (Ty.EmptyType 7 "Float") Context.empty = some true ↔
        ∃ addr', Ty.EmptyType 7 "Float" = .EmptyType addr' "Float") :=
  ⟨by decide, (EmptyType_Accepts_iff 2 "Float" (Ty.EmptyType 7 "Float") Context.empty
    (by decide)).1⟩

theorem DefinedType_AcceptsLoop_eq_true_iff (ctx : Context) (other : Ty) :
    ∀ parts : List (String × Ty), DefinedType.AcceptsLoop parts other ctx = some true ↔
      ∀ x ∈ parts,
        (∃ n qs pos q, other = .StructType n qs pos ∧
            StructType.GetProperty qs pos x.1 = some (some q) ∧
            x.2.Accepts q.type ctx = some true) ∨
          ((∀ n qs pos, other = .StructType n qs pos →
              StructType.GetProperty qs pos x.1 = some none ∨
                ∃ q, StructType.GetProperty qs pos x.1 = some (some q) ∧
                  x.2.Accepts q.type ctx = some false) ∧
            ∃ e, ctx.FindExtension other x.1 = some e ∧
              x.2.Accepts e.Value.type ctx = some true)
  | [] => by simp [DefinedType.AcceptsLoop]
  | (s, t2) :: rest => by
    have ih := DefinedType_AcceptsLoop_eq_true_iff ctx other rest
    rw [List.forall_mem_cons, ← ih]
    cases hs : other.isStructType with
    | false =>
      rw [DefinedType_AcceptsLoop_cons_other ctx s t2 rest other hs,
        DefinedType_viaExtension_eq_true_iff]
      constructor
      · rintro ⟨he, hnext⟩
        refine ⟨Or.inr ⟨?_, he⟩, hnext⟩
        intro n qs pos heq
        rw [heq] at hs
        simp [Ty.isStructType] at hs
      · rintro ⟨hx, hnext⟩
        refine ⟨?_, hnext⟩
        rcases hx with ⟨n, qs, pos, q, heq, _, _⟩ | ⟨_, he⟩
        · rw [heq] at hs
          simp [Ty.isStructType] at hs
        · exact he
    | true =>
      cases other with
      | StructType n qs pos =>
        rw [DefinedType_AcceptsLoop_cons_struct]
        cases hg : StructType.GetProperty qs pos s with
        | none =>
          simp only []
          constructor
          · intro h
            cases h
          · rintro ⟨hx, _⟩
            rcases hx with ⟨n', qs', pos', q, heq, hq, _⟩ | ⟨hfirst, _⟩
            · cases heq
              rw [hg] at hq
              cases hq
            · rcases hfirst n qs pos rfl with h1 | ⟨q, h1, _⟩
              · rw [hg] at h1
                cases h1
              · rw [hg] at h1
                cases h1
        | some r =>
          cases r with
          | none =>
            simp only []
            rw [DefinedType_viaExtension_eq_true_iff]
            constructor
            · rintro ⟨he, hnext⟩
              refine ⟨Or.inr ⟨?_, he⟩, hnext⟩
              intro n' qs' pos' heq
              cases heq
              exact Or.inl hg
            · rintro ⟨hx, hnext⟩
              refine ⟨?_, hnext⟩
              rcases hx with ⟨n', qs', pos', q, heq, hq, _⟩ | ⟨_, he⟩
              · cases heq
                rw [hg] at hq
                cases hq
              · exact he
          | some q =>
            simp only []
            cases ha : Ty.Accepts t2 q.type ctx with
            | none =>
              simp only []
              constructor
              · intro h
                cases h
              · rintro ⟨hx, _⟩
                rcases hx with ⟨n', qs', pos', q', heq, hq, hacc⟩ | ⟨hfirst, _⟩
                · cases heq
                  rw [hg] at hq
                  cases hq
                  rw [ha] at hacc
                  cases hacc
                · rcases hfirst n qs pos rfl with h1 | ⟨q', h1, hacc⟩
                  · rw [hg] at h1
                    cases h1
                  · rw [hg] at h1
                    cases h1
                    rw [ha] at hacc
                    cases hacc
            | some b =>
              cases b with
              | true =>
                simp only []
                constructor
                · intro hnext
                  exact ⟨Or.inl ⟨n, qs, pos, q, rfl, hg, ha⟩, hnext⟩
                · rintro ⟨_, hnext⟩
                  exact hnext
              | false =>
                simp only []
                rw [DefinedType_viaExtension_eq_true_iff]
                constructor
                · rintro ⟨he, hnext⟩
                  refine ⟨Or.inr ⟨?_, he⟩, hnext⟩
                  intro n' qs' pos' heq
                  cases heq
                  exact Or.inr ⟨q, hg, ha⟩
                · rintro ⟨hx, hnext⟩
                  refine ⟨?_, hnext⟩
                  rcases hx with ⟨n', qs', pos', q', heq, hq, hacc⟩ | ⟨_, he⟩
                  · cases heq
                    rw [hg] at hq
                    cases hq
                    rw [ha] at hacc
                    cases hacc
                  · exact he
      | _ => simp [Ty.isStructType] at hs

/-- Claim C8, refuted as stated: in a context where the extension function `length` of the
type `(this: String) -> Float` is registered for `String`, the defined type with the part
`length: Float` rejects `String`, although `Float` accepts the result type of the extension
function: the part is tested against the type of the extension value, which is the function
type. -/
theorem DefinedType_rejects_extension_function :
    (∃ e sig, Context.withLengthExtension.FindExtension StringType "length" = some e ∧
      e.Value.type = .FunctionType sig ∧
      FloatType.Accepts sig.ReturnType Context.withLengthExtension = some true ∧
      FloatType.Accepts e.Value.type Context.withLengthExtension = some false) ∧
    (Ty.DefinedType "D" [("length", FloatType)]).Accepts StringType
      Context.withLengthExtension = some false :=
  ⟨⟨_, _, rfl, rfl, rfl, rfl⟩, rfl⟩

/-- Claim C8, amended: a defined type accepts `O` exactly when for each part `(f, t)` either
`O` is a struct type in which `GetProperty` finds a property `f` whose type `t` accepts, or
that test is false without failing (`O` is not a struct type, or it has no entry `f`, or `t`
rejects the type of the property) and the context finds an extension `f` for `O` whose value
has a type that `t` accepts; a defined type without parts accepts every type. -/
theorem DefinedType_Accepts_iff (name : String) (parts : List (String × Ty)) (O : Ty)
    (ctx : Context) :
    ((Ty.DefinedType name parts).Accepts O ctx = some true ↔
      ∀ x ∈ parts,
        (∃ n qs pos q, O = .StructType n qs pos ∧
            StructType.GetProperty qs pos x.1 = some (some q) ∧
            x.2.Accepts q.type ctx = some true) ∨
          ((∀ n qs pos, O = .StructType n qs pos →
              StructType.GetProperty qs pos x.1 = some none ∨
                ∃ q, StructType.GetProperty qs pos x.1 = some (some q) ∧
                  x.2.Accepts q.type ctx = some false) ∧
            ∃ e, ctx.FindExtension O x.1 = some e ∧
              x.2.Accepts e.Value.type ctx = some true)) ∧
    (Ty.DefinedType name []).Accepts O ctx = some true := by
  refine ⟨?_, by simp [Ty.Accepts, DefinedType.AcceptsLoop]⟩
  simp only [Ty.Accepts]
  exact DefinedType_AcceptsLoop_eq_true_iff ctx O parts

theorem DefinedType_Accepts_iff_witness :
    (Ty.DefinedType "D" [("x", FloatType)]).Accepts
      (Ty.StructType "S" [.mk "x" FloatType 0] [("x", 0)]) Context.empty = some true :=
  (DefinedType_Accepts_iff "D" [("x", FloatType)]
    (Ty.StructType "S" [.mk "x" FloatType 0] [("x", 0)]) Context.empty).1.2
    (fun x hx => by
      have hx' : x = ("x", FloatType) := by simpa using hx
      subst hx'
      exact Or.inl ⟨"S", [.mk "x" FloatType 0], [("x", 0)], .mk "x" FloatType 0, rfl, rfl,
        rfl⟩)

/-! ## Struct types that keep the invariant of `propertyPositions` -/

theorem mem_of_lookup_eq_some {s : String} {i : Int} :
    ∀ {pos : List (String × Int)}, pos.lookup s = some i → (s, i) ∈ pos
  | [], h => by simp [List.lookup] at h
  | (k, v) :: rest, h => by
    simp only [List.lookup] at h
    split at h
    · rename_i hk
      have hsk : s = k := by simpa using hk
      have hvi : v = i := by simpa using h
      subst hsk; subst hvi
      simp
    · exact List.mem_cons_of_mem _ (mem_of_lookup_eq_some h)

theorem StructType_GetProperty_of_consistent {ps : List Property} {pos : List (String × Int)}
    (h : StructType.positionsConsistent ps pos = true) {p : Property} (hp : p ∈ ps) :
    StructType.GetProperty ps pos p.Name = some (some p) := by
  obtain ⟨i, hi⟩ := List.mem_iff_getElem?.1 hp
  have hlt : i < ps.length := by
    rcases List.getElem?_eq_some.1 hi with ⟨hlt, _⟩
    exact hlt
  have hall := (List.all_eq_true.1 h) i (List.mem_range.2 hlt)
  rw [hi] at hall
  have hlook : pos.lookup p.Name = some (i : Int) := by simpa using hall
  unfold StructType.GetProperty
  rw [hlook]
  simp [hi]

theorem StructType_GetProperty_Name_of_sound {ps : List Property} {pos : List (String × Int)}
    (h : StructType.positionsSound ps pos = true) {s : String} {q : Property}
    (hq : StructType.GetProperty ps pos s = some (some q)) : q.Name = s := by
  unfold StructType.GetProperty at hq
  split at hq
  · simp at hq
  · rename_i i hi
    have hall := (List.all_eq_true.1 h) _ (mem_of_lookup_eq_some hi)
    simp only [Bool.and_eq_true, decide_eq_true_eq] at hall
    obtain ⟨h0, hm⟩ := hall
    rw [if_pos h0] at hq
    cases hget : ps[i.toNat]? with
    | none => simp [hget] at hq
    | some p =>
      simp only [hget] at hq hm
      have : p = q := by simpa using hq
      subst this
      simpa using hm

mutual
theorem Ty_Accepts_self_of_EmptyOrStruct (ctx : Context) :
    ∀ T : Ty, T.EmptyOrStruct = true → T.Accepts T ctx = some true
  | .EmptyType _ _, _ => by simp [Ty.Accepts, Ty.asEmptyType]
  | .StructType _ ps pos, h => by
    simp only [Ty.EmptyOrStruct, Bool.and_eq_true] at h
    simp only [Ty.Accepts, StructType_AcceptsLoop_eq_true_iff]
    intro p hp
    exact ⟨p, StructType_GetProperty_of_consistent h.1 hp,
      Property_Accepts_self_of_allEmptyOrStruct ctx ps h.2 p hp⟩
  | .FunctionType _, h => by simp [Ty.EmptyOrStruct] at h
  | .UnionType _ _, h => by simp [Ty.EmptyOrStruct] at h
  | .IntersectionType _ _, h => by simp [Ty.EmptyOrStruct] at h
  | .DefinedType _ _, h => by simp [Ty.EmptyOrStruct] at h
  | .CollectionType _, h => by simp [Ty.EmptyOrStruct] at h
  | .MapType _ _, h => by simp [Ty.EmptyOrStruct] at h
theorem Property_Accepts_self_of_allEmptyOrStruct (ctx : Context) :
    ∀ ps : List Property, Property.allEmptyOrStruct ps = true →
      ∀ p ∈ ps, p.type.Accepts p.type ctx = some true
  | [], _ => by simp
  | .mk _ t _ :: rest, h => by
    simp only [Property.allEmptyOrStruct, Bool.and_eq_true] at h
    intro p hp
    rcases List.mem_cons.1 hp with rfl | hp
    · exact Ty_Accepts_self_of_EmptyOrStruct ctx t h.1
    · exact Property_Accepts_self_of_allEmptyOrStruct ctx rest h.2 p hp
end

/-- Claim C2, refuted as stated: a union type, an intersection type and a defined type with
a part, all built from the built-in empty types, do not accept themselves. -/
theorem Accepts_not_reflexive_on_Concrete :
    (Ty.UnionType FloatType StringType).Concrete = true ∧
    (Ty.UnionType FloatType StringType).Accepts (Ty.UnionType FloatType StringType)
      Context.empty = some false ∧
    (Ty.IntersectionType FloatType StringType).Concrete = true ∧
    (Ty.IntersectionType FloatType StringType).Accepts
      (Ty.IntersectionType FloatType StringType) Context.empty = some false ∧
    (Ty.DefinedType "D" [("x", FloatType)]).Concrete = true ∧
    (Ty.DefinedType "D" [("x", FloatType)]).Accepts (Ty.DefinedType "D" [("x", FloatType)])
      Context.empty = some false := by
  decide

theorem Heap_AcceptsLoop_running (accepts : Nat → Nat → HeapResult) (name : String)
    (type : Nat) (byName : String × Nat) (otherProperties : List (String × Nat))
    (otherPositions : List (String × Int))
    (hget : TypeObject.GetProperty otherProperties otherPositions name = some (some byName))
    (hrun : accepts type byName.2 = .running) (rest : List (String × Nat)) :
    TypeObject.AcceptsLoop accepts ((name, type) :: rest) otherProperties otherPositions =
      .running := by
  simp [TypeObject.AcceptsLoop, hget, hrun]

theorem Heap_Accepts_self_reference_running :
    ∀ fuel : Nat, Heap.Accepts Heap.selfReferential fuel 0 0 = .running
  | 0 => rfl
  | fuel + 1 => by
    have ih := Heap_Accepts_self_reference_running fuel
    have hobj : Heap.selfReferential 0 =
        some (.StructType "Node" [("next", 0)] [("next", 0)]) := rfl
    simp only [Heap.Accepts, hobj]
    exact Heap_AcceptsLoop_running (Heap.Accepts Heap.selfReferential fuel) "next" 0
      ("next", 0) [("next", 0)] [("next", 0)] (by rfl) ih []

/-- Claim C2, amended: every type that is a finite tree of empty types and of struct types
with consistent `propertyPositions` (no struct type reaches itself through the types of its
properties) accepts itself, in every context. -/
theorem Accepts_reflexive_on_EmptyOrStruct (T : Ty) (ctx : Context)
    (h : T.EmptyOrStruct = true) : T.Accepts T ctx = some true :=
  Ty_Accepts_self_of_EmptyOrStruct ctx T h

theorem Accepts_reflexive_on_EmptyOrStruct_witness :
    (Ty.StructType "S" [.mk "x" FloatType 0, .mk "y" (.StructType "T" [] []) 0]
        [("x", 0), ("y", 1)]).Accepts
      (Ty.StructType "S" [.mk "x" FloatType 0, .mk "y" (.StructType "T" [] []) 0]
        [("x", 0), ("y", 1)]) Context.empty = some true :=
  Accepts_reflexive_on_EmptyOrStruct _ Context.empty (by decide)

/-- Claim C4, refuted as stated: the struct type `S` with the property `x: Float` accepts the
struct type `O` whose only property is `y: Float` and whose `propertyPositions` holds, next to
the index of `y`, a stale entry `x -> 0`; it rejects the struct type obtained from `O` by
adding the property `x: String`, a name that no property of `O` has, with
`propertyPositions` the index of the properties. -/
theorem StructType_width_subtyping_fails_on_stale_entry :
    (Ty.StructType "S" [.mk "x" FloatType 0] [("x", 0)]).Accepts
      (.StructType "O" [.mk "y" FloatType 0] [("y", 0), ("x", 0)]) Context.empty = some true ∧
    StructType.positionsConsistent [.mk "y" FloatType 0] [("y", 0), ("x", 0)] = true ∧
    StructType.positionsSound [.mk "y" FloatType 0] [("y", 0), ("x", 0)] = false ∧
    StructType.positionsConsistent [.mk "y" FloatType 0, .mk "x" StringType 0]
      [("y", 0), ("x", 1)] = true ∧
    (Ty.StructType "S" [.mk "x" FloatType 0] [("x", 0)]).Accepts
      (.StructType "P" [.mk "y" FloatType 0, .mk "x" StringType 0] [("y", 0), ("x", 1)])
      Context.empty = some false := by
  decide

/-- Claim C4, amended: struct width-subtyping.  When a struct type `S` accepts a struct type
`O` in which every entry of `propertyPositions` is the index of a property of that name, it
accepts every struct type `O'` that has all the properties of `O`, and possibly more, and
whose `propertyPositions` holds for each of its properties the index of that property. -/
theorem StructType_width_subtyping (n m m' : String) (ps qs qs' : List Property)
    (pos qpos qpos' : List (String × Int)) (ctx : Context)
    (hacc : (Ty.StructType n ps pos).Accepts (.StructType m qs qpos) ctx = some true)
    (hO : StructType.positionsSound qs qpos = true)
    (hadd : ∀ q ∈ qs, q ∈ qs')
    (hO' : StructType.positionsConsistent qs' qpos' = true) :
    (Ty.StructType n ps pos).Accepts (.StructType m' qs' qpos') ctx = some true := by
  simp only [Ty.Accepts, StructType_AcceptsLoop_eq_true_iff] at hacc ⊢
  intro p hp
  obtain ⟨q, hq, hqa⟩ := hacc p hp
  refine ⟨q, ?_, hqa⟩
  have hname := StructType_GetProperty_Name_of_sound hO hq
  rw [← hname]
  exact StructType_GetProperty_of_consistent hO' (hadd q (StructType_GetProperty_mem hq))

theorem StructType_width_subtyping_witness :
    (Ty.StructType "S" [.mk "x" AnyType 0] [("x", 0)]).Accepts
      (.StructType "P" [.mk "y" StringType 0, .mk "x" FloatType 0, .mk "z" AnyType 0]
        [("y", 0), ("x", 1), ("z", 2)]) Context.empty = some true :=
  StructType_width_subtyping "S" "O" "P" [.mk "x" AnyType 0] [.mk "x" FloatType 0]
    [.mk "y" StringType 0, .mk "x" FloatType 0, .mk "z" AnyType 0]
    [("x", 0)] [("x", 0)] [("y", 0), ("x", 1), ("z", 2)] Context.empty
    (by decide) (by decide) (by simp) (by decide)

/-! ## `Function.Exec` -/

theorem Function_Exec_arity_mismatch (f : Function) (ctx : Context) (receiver : Option Value)
    (parameters : List Value) (h : parameters.length ≠ f.Signature.Parameters.length) :
    f.Exec ctx receiver parameters =
      match f.name with
      | none => ⟨.panicked (.runtime .nilDereference), false, none⟩
      | some name =>
        ⟨.panicked (.message (.illegalNumberOfArguments name f.Signature.Parameters.length
          parameters.length)), false, none⟩ := by
  unfold Function.Exec
  rw [if_pos h]

theorem Function_Exec_arity_mismatch_named (f : Function) (ctx : Context)
    (receiver : Option Value) (parameters : List Value) (name : String)
    (hname : f.name = some name)
    (h : parameters.length ≠ f.Signature.Parameters.length) :
    f.Exec ctx receiver parameters =
      ⟨.panicked (.message (.illegalNumberOfArguments name f.Signature.Parameters.length
        parameters.length)), false, none⟩ := by
  rw [Function_Exec_arity_mismatch f ctx receiver parameters h, hname]

/-- Claim C9, at the failing input: an anonymous function without parameters that is called
with one argument does not fail with the arity-mismatch message; building the message
dereferences the nil `name`, and the call fails with that run-time error (no scope is
entered and the body is not executed). -/
theorem Function_Exec_arity_mismatch_anonymous :
    Function.Exec ⟨.mk [] AnyType, fun _ => .returns none, none⟩ Context.empty none [UnitValue]
        = ⟨.panicked (.runtime .nilDereference), false, none⟩ ∧
      ∀ name expected received,
        (Function.Exec ⟨.mk [] AnyType, fun _ => .returns none, none⟩ Context.empty none
          [UnitValue]).outcome ≠
          .panicked (.message (.illegalNumberOfArguments name expected received)) := by
  have h : Function.Exec ⟨.mk [] AnyType, fun _ => .returns none, none⟩ Context.empty none
      [UnitValue] = ⟨.panicked (.runtime .nilDereference), false, none⟩ := rfl
  refine ⟨h, fun name expected received => ?_⟩
  rw [h]
  simp

theorem Function_Exec_returned_of_body_returns (f : Function) (ctx : Context)
    (receiver : Option Value) (parameters : List Value) (bound : Context) (r : Option Value)
    (v : Value)
    (harity : parameters.length = f.Signature.Parameters.length)
    (hbind : Function.bindParameters f ctx parameters 0 ctx.EnterScope = .ok bound)
    (hbody : f.Body (bound.setReceiver receiver) = .returns r)
    (hret : (f.Exec ctx receiver parameters).outcome = .returned v) :
    v = r.getD UnitValue ∧ f.Signature.ReturnType.Accepts v.type ctx = some true := by
  unfold Function.Exec at hret
  rw [if_neg (by simpa using harity)] at hret
  simp only [hbind, hbody] at hret
  cases r <;>
  · simp only [Option.getD] at hret ⊢
    split at hret
    · simp at hret
    · simp at hret
    · rename_i hacc
      simp only [Outcome.returned.injEq] at hret
      subst hret
      exact ⟨rfl, hacc⟩

/-- Claim C10, at the failing input: a function declared to return `Float` whose body unwinds
with a `return` signal that carries a `String` value returns that value, although the
declared return type does not accept the type of the value. -/
theorem Function_Exec_return_signal_unchecked :
    (Function.Exec
        ⟨.mk [] FloatType, fun _ => .panics (.value ⟨StringType, .string "s"⟩), some "f"⟩
        Context.empty none []).outcome = .returned ⟨StringType, .string "s"⟩ ∧
      FloatType.Accepts StringType Context.empty = some false := by
  refine ⟨rfl, by decide⟩

theorem Function_bindParameters_ok (f : Function) (ctx : Context) :
    ∀ (args : List Value) (i : Nat) (scope : Context),
      (∀ j P a, f.Signature.Parameters[i + j]? = some P → args[j]? = some a →
        P.type.Accepts a.type ctx = some true) →
      args.length + i = f.Signature.Parameters.length →
      Function.bindParameters f ctx args i scope =
        .ok (((f.Signature.Parameters.drop i).zip args).foldl
          (fun s e => s.DefineParameter e.1.Name e.2) scope)
  | [], i, scope, _, _ => by simp [Function.bindParameters]
  | a :: rest, i, scope, hacc, hlen => by
    have hi : i < f.Signature.Parameters.length := by
      simp only [List.length_cons] at hlen; omega
    have hP : f.Signature.Parameters[i]? = some f.Signature.Parameters[i] :=
      List.getElem?_eq_getElem hi
    have h0 := hacc 0 f.Signature.Parameters[i] a hP (by simp)
    have ih := Function_bindParameters_ok f ctx rest (i + 1)
      (scope.DefineParameter f.Signature.Parameters[i].Name a)
      (fun j P b hPj hb => hacc (j + 1) P b (by rw [← hPj]; congr 1; omega) (by simpa using hb))
      (by simp only [List.length_cons] at hlen; omega)
    simp only [Function.bindParameters, hP, h0, ih]
    rw [List.drop_eq_getElem_cons hi]
    simp only [List.zip_cons_cons, List.foldl_cons]

theorem Function_bindParameters_error (f : Function) (ctx : Context) :
    ∀ (args : List Value) (i : Nat) (scope : Context) (k : Nat) (P : Parameter) (a : Value),
      f.Signature.Parameters[i + k]? = some P → args[k]? = some a →
      (∀ j, j < k → ∀ Q b, f.Signature.Parameters[i + j]? = some Q → args[j]? = some b →
        Q.type.Accepts b.type ctx = some true) →
      P.type.Accepts a.type ctx = some false →
      args.length + i = f.Signature.Parameters.length →
      Function.bindParameters f ctx args i scope =
        .error (.message (.parameterTypeMismatch P.type P.Name a))
  | [], _, _, k, _, _, _, ha, _, _, _ => by simp at ha
  | b :: rest, i, scope, 0, P, a, hP, ha, _, hrej, _ => by
    have hab : b = a := by simpa using ha
    subst hab
    have hP' : f.Signature.Parameters[i]? = some P := by simpa using hP
    simp only [Function.bindParameters, hP', hrej]
  | b :: rest, i, scope, k + 1, P, a, hP, ha, hbefore, hrej, hlen => by
    have hi : i < f.Signature.Parameters.length := by
      simp only [List.length_cons] at hlen; omega
    have hQ : f.Signature.Parameters[i]? = some f.Signature.Parameters[i] :=
      List.getElem?_eq_getElem hi
    have h0 := hbefore 0 (by omega) f.Signature.Parameters[i] b hQ (by simp)
    have ih := Function_bindParameters_error f ctx rest (i + 1)
      (scope.DefineParameter f.Signature.Parameters[i].Name b) k P a
      (by rw [← hP]; congr 1; omega) (by simpa using ha)
      (fun j hj Q c hQj hc => hbefore (j + 1) (by omega) Q c (by rw [← hQj]; congr 1; omega)
        (by simpa using hc))
      hrej (by simp only [List.length_cons] at hlen; omega)
    simp only [Function.bindParameters, hQ, h0, ih]

theorem Context_foldl_DefineParameter :
    ∀ (l : List (Parameter × Value)) (parent : Option Context)
      (vars : List (String × Variable)) (types : List (String × Ty))
      (parameters : List (String × Value)) (receiver : Option Value)
      (extensions : Ty → String → Option Extension),
      l.foldl (fun s e => s.DefineParameter e.1.Name e.2)
          (Context.mk parent vars types parameters receiver extensions) =
        Context.mk parent vars types
          ((l.map fun e => (e.1.Name, e.2)).reverse ++ parameters) receiver extensions
  | [], _, _, _, _, _, _ => by simp
  | e :: rest, parent, vars, types, parameters, receiver, extensions => by
    simp only [List.foldl_cons, Context.DefineParameter, List.map_cons, List.reverse_cons,
      List.append_assoc, List.singleton_append]
    exact Context_foldl_DefineParameter rest parent vars types _ receiver extensions

theorem lookup_eq_some_of_mem_of_nodup :
    ∀ (l : List (String × Value)) (k : String) (v : Value),
      (l.map Prod.fst).Nodup → (k, v) ∈ l → l.lookup k = some v
  | [], _, _, _, h => by simp at h
  | (k', v') :: rest, k, v, hnd, h => by
    simp only [List.map_cons, List.nodup_cons] at hnd
    rcases List.mem_cons.1 h with heq | hmem
    · cases heq
      simp [List.lookup]
    · have hne : k ≠ k' := by
        intro hk
        subst hk
        exact hnd.1 (List.mem_map.2 ⟨(k, v), hmem, rfl⟩)
      have hbeq : (k == k') = false := by simpa using hne
      simp only [List.lookup, hbeq]
      exact lookup_eq_some_of_mem_of_nodup rest k v hnd.2 hmem

theorem Function_Exec_of_bind_ok (f : Function) (ctx : Context) (receiver : Option Value)
    (parameters : List Value) (bound : Context)
    (harity : parameters.length = f.Signature.Parameters.length)
    (hbind : Function.bindParameters f ctx parameters 0 ctx.EnterScope = .ok bound) :
    (f.Exec ctx receiver parameters).entered = true ∧
      (f.Exec ctx receiver parameters).bodyScope = some (bound.setReceiver receiver) := by
  unfold Function.Exec
  rw [if_neg (by simpa using harity)]
  simp only [hbind]
  split
  · exact ⟨rfl, rfl⟩
  · exact ⟨rfl, rfl⟩
  · split <;> exact ⟨rfl, rfl⟩

/-- Claim C11: when the body is executed and unwinds with a `return` signal that carries the
value `v`, `Function.Exec` returns `v`; when it panics with any other payload, the call
panics with that same payload. -/
theorem Function_Exec_early_return (f : Function) (ctx : Context) (receiver : Option Value)
    (parameters : List Value) (bound : Context)
    (harity : parameters.length = f.Signature.Parameters.length)
    (hbind : Function.bindParameters f ctx parameters 0 ctx.EnterScope = .ok bound) :
    (∀ v, f.Body (bound.setReceiver receiver) = .panics (.value v) →
      (f.Exec ctx receiver parameters).outcome = .returned v) ∧
    (∀ p, f.Body (bound.setReceiver receiver) = .panics p → (∀ v, p ≠ .value v) →
      (f.Exec ctx receiver parameters).outcome = .panicked p) := by
  constructor
  · intro v hbody
    unfold Function.Exec
    rw [if_neg (by simpa using harity)]
    simp only [hbind, hbody]
  · intro p hbody hp
    unfold Function.Exec
    rw [if_neg (by simpa using harity)]
    cases p with
    | value v => exact absurd rfl (hp v)
    | _ => simp only [hbind, hbody]

theorem Function_Exec_early_return_witness :
    (Function.Exec ⟨.mk [] AnyType, fun _ => .panics (.text "boom"), some "f"⟩
      Context.empty none []).outcome = .panicked (.text "boom") :=
  (Function_Exec_early_return ⟨.mk [] AnyType, fun _ => .panics (.text "boom"), some "f"⟩
    Context.empty none [] Context.empty.EnterScope rfl rfl).2 (.text "boom") rfl
    (fun v h => by cases h)

/-- Claim C12: on a call with matching arity, when argument `k` is the first whose type the
type of parameter `k` rejects, `Function.Exec` fails with the parameter-type-mismatch message
for `k` and the body is not executed; when every argument is accepted, the body is executed
in a fresh child of `ctx` whose parameter namespace holds exactly the bindings of the
parameter names to the arguments at the same positions, so that, the names being distinct,
each parameter name is looked up to its argument. -/
theorem Function_Exec_parameter_binding (f : Function) (ctx : Context)
    (receiver : Option Value) (args : List Value)
    (harity : args.length = f.Signature.Parameters.length) :
    (∀ (k : Nat) (P : Parameter) (a : Value), f.Signature.Parameters[k]? = some P → args[k]? = some a →
      (∀ j, j < k → ∀ (Q : Parameter) (b : Value), f.Signature.Parameters[j]? = some Q → args[j]? = some b →
        Q.type.Accepts b.type ctx = some true) →
      P.type.Accepts a.type ctx = some false →
      f.Exec ctx receiver args =
        ⟨.panicked (.message (.parameterTypeMismatch P.type P.Name a)), true, none⟩) ∧
    ((∀ (j : Nat) (P : Parameter) (a : Value), f.Signature.Parameters[j]? = some P → args[j]? = some a →
        P.type.Accepts a.type ctx = some true) →
      (f.Exec ctx receiver args).bodyScope =
        some (Context.mk (some ctx) [] []
          ((f.Signature.Parameters.zip args).map fun e => (e.1.Name, e.2)).reverse
          receiver (fun _ _ => none)) ∧
      ((f.Signature.Parameters.map Parameter.Name).Nodup →
        ∀ (j : Nat) (P : Parameter) (a : Value), f.Signature.Parameters[j]? = some P → args[j]? = some a →
          (((f.Signature.Parameters.zip args).map fun e => (e.1.Name, e.2)).reverse).lookup
            P.Name = some a)) := by
  constructor
  · intro k P a hP ha hbefore hrej
    have hbind := Function_bindParameters_error f ctx args 0 ctx.EnterScope k P a
      (by simpa using hP) ha
      (fun j hj Q b hQ hb => hbefore j hj Q b (by simpa using hQ) hb) hrej (by simpa using harity)
    unfold Function.Exec
    rw [if_neg (by simpa using harity)]
    simp only [hbind]
  · intro hacc
    have hbind := Function_bindParameters_ok f ctx args 0 ctx.EnterScope
      (fun j P a hP ha => hacc j P a (by simpa using hP) ha) (by simpa using harity)
    constructor
    · rw [(Function_Exec_of_bind_ok f ctx receiver args _ harity hbind).2]
      simp only [List.drop_zero, Context.EnterScope, Context_foldl_DefineParameter,
        List.append_nil, Context.setReceiver]
    · intro hnd j P a hP ha
      apply lookup_eq_some_of_mem_of_nodup
      · rw [List.map_reverse, List.nodup_reverse]
        have hmap : ((f.Signature.Parameters.zip args).map fun e => (e.1.Name, e.2)).map
            Prod.fst = f.Signature.Parameters.map Parameter.Name := by
          rw [List.map_map]
          have : (Prod.fst ∘ fun e : Parameter × Value => (e.1.Name, e.2)) =
              Parameter.Name ∘ Prod.fst := rfl
          rw [this, ← List.map_map, List.map_fst_zip _ _ (by omega)]
        rw [hmap]
        exact hnd
      · rw [List.mem_reverse, List.mem_map]
        refine ⟨(P, a), ?_, rfl⟩
        rw [List.mem_iff_getElem?]
        exact ⟨j, by simp [List.getElem?_zip_eq_some, hP, ha]⟩

theorem Function_Exec_parameter_binding_witness :
    (Function.Exec
        ⟨.mk [.mk "this" StringType, .mk "other" AnyType] StringType,
          fun _ => .returns (some ⟨StringType, .string "ab"⟩), some "plus"⟩
        Context.empty none [⟨StringType, .string "a"⟩, ⟨FloatType, .other 0⟩]).bodyScope =
      some (Context.mk (some Context.empty) [] []
        [("other", ⟨FloatType, .other 0⟩), ("this", ⟨StringType, .string "a"⟩)]
        none (fun _ _ => none)) :=
  ((Function_Exec_parameter_binding
    ⟨.mk [.mk "this" StringType, .mk "other" AnyType] StringType,
      fun _ => .returns (some ⟨StringType, .string "ab"⟩), some "plus"⟩
    Context.empty none [⟨StringType, .string "a"⟩, ⟨FloatType, .other 0⟩] rfl).2
    (by
      intro j P a hP ha
      match j, hP, ha with
      | 0, hP, ha =>
        cases hP
        cases ha
        decide
      | 1, hP, ha =>
        cases hP
        cases ha
        decide
      | j + 2, hP, _ => simp at hP)).1

theorem Context_receiver_setReceiver (scope : Context) (receiver : Option Value) :
    (scope.setReceiver receiver).receiver = receiver := by
  cases scope
  rfl

/-- Claim C13, refuted as stated: a function without parameters that is called with a
receiver runs its body in a scope whose receiver is that value, and a function whose first
parameter is named `this` runs its body in a scope whose receiver is the receiver that the
caller passed, which is not the first argument. -/
theorem Function_Exec_receiver_not_from_this :
    ((Function.Exec ⟨.mk [] AnyType, fun _ => .returns none, some "f"⟩
        Context.empty (some UnitValue) []).bodyScope.map Context.receiver
      = some (some UnitValue)) ∧
    ((Function.Exec ⟨.mk [.mk "this" AnyType] AnyType, fun _ => .returns none, some "g"⟩
        Context.empty (some UnitValue) [⟨StringType, .string "a"⟩]).bodyScope.map
          Context.receiver
      = some (some UnitValue)) ∧
    UnitValue ≠ ⟨StringType, .string "a"⟩ ∧
    ((Function.Exec ⟨.mk [.mk "this" AnyType] AnyType, fun _ => .returns none, some "g"⟩
        Context.empty none [⟨StringType, .string "a"⟩]).bodyScope.map Context.receiver
      = some none) := by
  refine ⟨rfl, rfl, ?_, rfl⟩
  intro h
  simp [UnitValue] at h

/-- Claim C13, amended: in the scope in which `Function.Exec` runs the body, the receiver is
the receiver value that the caller passed to `Exec`, whatever the names of the parameters and
whatever the arguments. -/
theorem Function_Exec_receiver (f : Function) (ctx : Context) (receiver : Option Value)
    (args : List Value) (scope : Context)
    (h : (f.Exec ctx receiver args).bodyScope = some scope) :
    scope.receiver = receiver := by
  by_cases harity : args.length = f.Signature.Parameters.length
  · cases hb : Function.bindParameters f ctx args 0 ctx.EnterScope with
    | error p =>
      unfold Function.Exec at h
      rw [if_neg (by simpa using harity)] at h
      simp only [hb] at h
      simp at h
    | ok bound =>
      rw [(Function_Exec_of_bind_ok f ctx receiver args bound harity hb).2] at h
      cases h
      exact Context_receiver_setReceiver _ _
  · rw [Function_Exec_arity_mismatch f ctx receiver args harity] at h
    split at h <;> simp at h

theorem Function_Exec_receiver_witness :
    (Context.mk (some Context.empty) [] [] [] (some UnitValue) (fun _ _ => none)).receiver =
      some UnitValue :=
  Function_Exec_receiver ⟨.mk [] AnyType, fun _ => .returns none, some "f"⟩
    Context.empty (some UnitValue) [] _ rfl

/-! ## `Init` -/

theorem Context_vars_DefineVariable (c : Context) (name : String) (v : Variable) :
    (c.DefineVariable name v).vars = (name, v) :: c.vars := by
  cases c
  rfl

/-- Claim C14, at the failing input: after `Init`, whatever the context and whatever
`InitInts` does, the variable `write` is immutable but its declared type and the type of its
value are the function type of the signature of `plus`, `(String, Any) => String`, which is
not the function type of the signature of `write`; `plus` and `equals` have the function
types of their own signatures. -/
theorem Init_write_has_type_of_plus (env : InitEnv) (root : Context) :
    (Init env root).vars.lookup "write" =
        some ⟨"write", false, NewFunctionType (stringPlus env),
          ⟨NewFunctionType (stringPlus env), (outputWrite env).reference⟩⟩ ∧
      NewFunctionType (stringPlus env) ≠ NewFunctionType (outputWrite env) ∧
      NewFunctionType (stringPlus env) =
        .FunctionType (.mk [.mk "this" StringType, .mk "other" AnyType] StringType) ∧
      (Init env root).vars.lookup "plus" =
        some ⟨"plus", false, NewFunctionType (stringPlus env),
          ⟨NewFunctionType (stringPlus env), (stringPlus env).reference⟩⟩ ∧
      (Init env root).vars.lookup "equals" =
        some ⟨"equals", false, NewFunctionType (anyEquals env),
          ⟨NewFunctionType (anyEquals env), (anyEquals env).reference⟩⟩ := by
  refine ⟨?_, ?_, rfl, ?_, ?_⟩
  · simp only [Init, Context_vars_DefineVariable]
    rfl
  · simp [NewFunctionType, stringPlus, outputWrite, StringType, OutputType, UnitType]
  · simp only [Init, Context_vars_DefineVariable]
    rfl
  · simp only [Init, Context_vars_DefineVariable]
    rfl

/-! ## The parser: sequencing -/

@[simp] theorem ParseResult_ok_bind {α β : Type} (a : α) (f : α → ParseResult β) :
    (ParseResult.ok a >>= f) = f a := rfl

@[simp] theorem ParseResult_error_bind {α β : Type} (e : ParseFailure)
    (f : α → ParseResult β) : ((ParseResult.error e : ParseResult α) >>= f) = .error e := rfl

@[simp] theorem ParseResult_pure {α : Type} (a : α) :
    (pure a : ParseResult α) = .ok a := rfl

theorem Parser_advance_of_check {p : Parser} {t : TokenType} {tok : Token} {p' : Parser}
    (hcheck : p.check t = .ok true) (hadv : p.advance = .ok (tok, p')) :
    tok.TokenType = t ∧ p.peek = .ok tok ∧ p' = ⟨p.tokens, p.current + 1⟩ := by
  unfold Parser.check Parser.isAtEnd at hcheck
  unfold Parser.advance Parser.isAtEnd at hadv
  cases hpeek : p.peek with
  | error e => simp [hpeek] at hcheck
  | ok cur =>
    simp only [hpeek, ParseResult_ok_bind, ParseResult_pure] at hcheck hadv
    by_cases hend : cur.TokenType = .EOF
    · simp [hend] at hcheck
    · simp only [hend, decide_False, Bool.false_eq_true, if_false, ParseResult_ok_bind,
        ParseResult_pure, ParseResult.ok.injEq, decide_eq_true_eq] at hcheck hadv
      unfold Parser.peek at hpeek
      unfold Parser.previous at hadv
      simp only [Nat.add_one_ne_zero, if_false, Nat.add_sub_cancel] at hadv
      cases hget : p.tokens[p.current]? with
      | none => simp [hget] at hpeek
      | some c =>
        simp only [hget, ParseResult.ok.injEq] at hpeek
        subst hpeek
        simp only [hget, ParseResult_ok_bind, ParseResult.ok.injEq, Prod.mk.injEq] at hadv
        obtain ⟨h1, h2⟩ := hadv
        subst h1
        exact ⟨hcheck, rfl, h2.symm⟩

/-! ## `assignment` -/

/-- Claim C15: when the left-hand side is parsed by `typeCast`, the current token is `=` and
the right-hand side is parsed by `typeCast`, `assignment` gives an `AssignmentExpr` without
context for a variable on the left, an `AssignmentExpr` whose context is the target and whose
name is the field for a dotted access on the left, and fails for every other left-hand side
with the parse error "Invalid type found behind assignment" that carries the `=` token. -/
theorem Parser_assignment_target (env : ParserEnv) (fuel : Nat) (p p1 p2 p3 : Parser)
    (lhs rhs : Expr) (eqlTok : Token)
    (hlhs : Parser.typeCast env fuel p = .ok (lhs, p1))
    (hcheck : p1.check .Equal = .ok true)
    (hadv : p1.advance = .ok (eqlTok, p2))
    (hrhs : Parser.typeCast env fuel p2 = .ok (rhs, p3)) :
    (eqlTok.TokenType = .Equal ∧ p1.peek = .ok eqlTok) ∧
    (∀ name, lhs = .VariableExpr name →
      Parser.assignment env (fuel + 1) p = .ok (.AssignmentExpr none name rhs, p3)) ∧
    (∀ target field, lhs = .ContextExpr target field →
      Parser.assignment env (fuel + 1) p = .ok (.AssignmentExpr (some target) field rhs, p3)) ∧
    ((∀ name, lhs ≠ .VariableExpr name) → (∀ target field, lhs ≠ .ContextExpr target field) →
      Parser.assignment env (fuel + 1) p =
        .error (.parseError ⟨some eqlTok, "Invalid type found behind assignment"⟩)) := by
  have htok := Parser_advance_of_check hcheck hadv
  refine ⟨⟨htok.1, htok.2.1⟩, ?_, ?_, ?_⟩
  · rintro name rfl
    simp [Parser.assignment, hlhs, hcheck, hadv, hrhs]
  · rintro target field rfl
    simp [Parser.assignment, hlhs, hcheck, hadv, hrhs]
  · intro hv hc
    cases lhs with
    | VariableExpr name => exact absurd rfl (hv name)
    | ContextExpr target field => exact absurd rfl (hc target field)
    | _ => simp [Parser.assignment, hlhs, hcheck, hadv, hrhs]

theorem Parser_assignment_target_witness :
    Parser.assignment ParserEnv.failing 21
        ⟨[Token.of .Int "1", Token.of .Equal "=", Token.of .Identifier "b",
          Token.of .EOF ""], 0⟩ =
      .error (.parseError ⟨some (Token.of .Equal "="), "Invalid type found behind assignment"⟩) :=
  (Parser_assignment_target ParserEnv.failing 20
    ⟨[Token.of .Int "1", Token.of .Equal "=", Token.of .Identifier "b", Token.of .EOF ""], 0⟩
    ⟨[Token.of .Int "1", Token.of .Equal "=", Token.of .Identifier "b", Token.of .EOF ""], 1⟩
    ⟨[Token.of .Int "1", Token.of .Equal "=", Token.of .Identifier "b", Token.of .EOF ""], 2⟩
    ⟨[Token.of .Int "1", Token.of .Equal "=", Token.of .Identifier "b", Token.of .EOF ""], 3⟩
    (.IntegerLiteralExpr 1) (.VariableExpr "b") (Token.of .Equal "=")
    rfl rfl rfl rfl).2.2.2 (fun _ h => by cases h) (fun _ _ h => by cases h)

/-! ## `ifElseExpression` and `elseExpression` -/

theorem Parser_ifElseExpression_isIfElse (env : ParserEnv) (fuel : Nat) (p p' : Parser)
    (e : Expr) (h : Parser.ifElseExpression env fuel p = .ok (e, p')) :
    ∃ c ib ir eb er, e = .IfElseExpr c ib ir eb er := by
  cases fuel with
  | zero => simp [Parser.ifElseExpression] at h
  | succ fuel =>
    simp only [Parser.ifElseExpression] at h
    cases h1 : p.consume .If "Expected if at beginning of if expression" with
    | error x => simp [h1] at h
    | ok r1 =>
      obtain ⟨_, p1⟩ := r1
      simp only [h1, ParseResult_ok_bind] at h
      cases h2 : Parser.logicalOr env fuel p1 with
      | error x => simp [h2] at h
      | ok r2 =>
        obtain ⟨c, p2⟩ := r2
        simp only [h2, ParseResult_ok_bind] at h
        cases h3 : p2.peek with
        | error x => simp [h3] at h
        | ok t =>
          simp only [h3, ParseResult_ok_bind] at h
          split at h
          · cases h4 : p2.consume .Arrow "" with
            | error x => simp [h4] at h
            | ok r4 =>
              obtain ⟨_, p4⟩ := r4
              simp only [h4, ParseResult_ok_bind] at h
              cases h5 : Parser.expression env fuel p4 with
              | error x => simp [h5] at h
              | ok r5 =>
                obtain ⟨m, p5⟩ := r5
                simp only [h5, ParseResult_ok_bind] at h
                cases h6 : Parser.elseExpression env fuel p5 with
                | error x => simp [h6] at h
                | ok r6 =>
                  obtain ⟨⟨eb, er⟩, p6⟩ := r6
                  simp only [h6, ParseResult_ok_bind, ParseResult_pure, ParseResult.ok.injEq,
                    Prod.mk.injEq] at h
                  exact ⟨c, [], m, eb, er, h.1.symm⟩
          · cases h4 : env.blockStatement p2 with
            | error x => simp [h4] at h
            | ok r4 =>
              obtain ⟨stmts, p4⟩ := r4
              simp only [h4, ParseResult_ok_bind] at h
              split at h
              · simp at h
              · rename_i mainResult _
                cases h6 : Parser.elseExpression env fuel p4 with
                | error x => simp [h6] at h
                | ok r6 =>
                  obtain ⟨⟨eb, er⟩, p6⟩ := r6
                  simp only [h6, ParseResult_ok_bind, ParseResult_pure, ParseResult.ok.injEq,
                    Prod.mk.injEq] at h
                  exact ⟨c, stmts.dropLast, mainResult, eb, er, h.1.symm⟩
              · simp at h

/-- Claim C20: a block branch whose statements end in `ExpressionStmt(e)` gives the statements
before the last one as the prelude and `e` as the result, for the `if` branch and for the
`else` branch; an inline branch gives an empty prelude and the parsed expression; `else if`
gives an empty prelude and the nested `IfElseExpr`. -/
theorem Parser_ifElse_result_lifting (env : ParserEnv) (fuel : Nat) :
    (∀ (p p1 p2 p3 p4 : Parser) (ifTok t : Token) (condition e elseResult : Expr)
        (prelude elseBranch : List Stmt),
      p.consume .If "Expected if at beginning of if expression" = .ok (ifTok, p1) →
      Parser.logicalOr env fuel p1 = .ok (condition, p2) →
      p2.peek = .ok t → t.TokenType ≠ .Arrow →
      env.blockStatement p2 = .ok (prelude ++ [.ExpressionStmt e], p3) →
      Parser.elseExpression env fuel p3 = .ok ((elseBranch, elseResult), p4) →
      Parser.ifElseExpression env (fuel + 1) p =
        .ok (.IfElseExpr condition prelude e elseBranch elseResult, p4)) ∧
    (∀ (p p1 p2 p3 p4 p5 : Parser) (ifTok t arrow : Token) (condition e elseResult : Expr)
        (elseBranch : List Stmt),
      p.consume .If "Expected if at beginning of if expression" = .ok (ifTok, p1) →
      Parser.logicalOr env fuel p1 = .ok (condition, p2) →
      p2.peek = .ok t → t.TokenType = .Arrow →
      p2.consume .Arrow "" = .ok (arrow, p3) →
      Parser.expression env fuel p3 = .ok (e, p4) →
      Parser.elseExpression env fuel p4 = .ok ((elseBranch, elseResult), p5) →
      Parser.ifElseExpression env (fuel + 1) p =
        .ok (.IfElseExpr condition [] e elseBranch elseResult, p5)) ∧
    (∀ (p p1 p2 p3 : Parser) (elseTok t : Token) (e : Expr) (prelude : List Stmt),
      p.cleanNewLines = .ok p1 →
      p1.consume .Else "if expression must follow with else expression" = .ok (elseTok, p2) →
      p2.peek = .ok t → t.TokenType ≠ .Arrow → t.TokenType ≠ .If →
      env.blockStatement p2 = .ok (prelude ++ [.ExpressionStmt e], p3) →
      Parser.elseExpression env (fuel + 1) p = .ok ((prelude, e), p3)) ∧
    (∀ (p p1 p2 p3 p4 : Parser) (elseTok t arrow : Token) (e : Expr),
      p.cleanNewLines = .ok p1 →
      p1.consume .Else "if expression must follow with else expression" = .ok (elseTok, p2) →
      p2.peek = .ok t → t.TokenType = .Arrow →
      p2.advance = .ok (arrow, p3) →
      Parser.expression env fuel p3 = .ok (e, p4) →
      Parser.elseExpression env (fuel + 1) p = .ok (([], e), p4)) ∧
    (∀ (p p1 p2 p3 : Parser) (elseTok t : Token) (e : Expr),
      p.cleanNewLines = .ok p1 →
      p1.consume .Else "if expression must follow with else expression" = .ok (elseTok, p2) →
      p2.peek = .ok t → t.TokenType = .If →
      Parser.ifElseExpression env fuel p2 = .ok (e, p3) →
      Parser.elseExpression env (fuel + 1) p = .ok (([], e), p3) ∧
        ∃ c ib ir eb er, e = .IfElseExpr c ib ir eb er) := by
  refine ⟨?_, ?_, ?_, ?_, ?_⟩
  · intro p p1 p2 p3 p4 ifTok t condition e elseResult prelude elseBranch h1 h2 h3 h4 h5 h6
    simp [Parser.ifElseExpression, h1, h2, h3, h4, h5, h6]
  · intro p p1 p2 p3 p4 p5 ifTok t arrow condition e elseResult elseBranch h1 h2 h3 h4 h5 h6 h7
    simp [Parser.ifElseExpression, h1, h2, h3, h4, h5, h6, h7]
  · intro p p1 p2 p3 elseTok t e prelude h1 h2 h3 h4 h5 h6
    simp [Parser.elseExpression, h1, h2, h3, h4, h5, h6]
  · intro p p1 p2 p3 p4 elseTok t arrow e h1 h2 h3 h4 h5 h6
    simp [Parser.elseExpression, h1, h2, h3, h4, h5, h6]
  · intro p p1 p2 p3 elseTok t e h1 h2 h3 h4 h5
    refine ⟨?_, Parser_ifElseExpression_isIfElse env fuel p2 p3 e h5⟩
    have hne : t.TokenType ≠ .Arrow := by rw [h4]; decide
    simp [Parser.elseExpression, h1, h2, h3, h4, h5]

theorem Parser_ifElse_result_lifting_witness :
    Parser.ifElseExpression
        (ParserEnv.withBlock [.OtherStmt 0, .ExpressionStmt (.VariableExpr "x")] 2) 30
        ⟨[Token.of .If "if", Token.of .Identifier "a", Token.of .LBrace "\x7b",
          Token.of .RBrace "\x7d", Token.of .Else "else", Token.of .Arrow "->",
          Token.of .Identifier "c", Token.of .EOF ""], 0⟩ =
      .ok (.IfElseExpr (.VariableExpr "a") [.OtherStmt 0] (.VariableExpr "x") []
          (.VariableExpr "c"),
        ⟨[Token.of .If "if", Token.of .Identifier "a", Token.of .LBrace "\x7b",
          Token.of .RBrace "\x7d", Token.of .Else "else", Token.of .Arrow "->",
          Token.of .Identifier "c", Token.of .EOF ""], 7⟩) :=
  (Parser_ifElse_result_lifting
    (ParserEnv.withBlock [.OtherStmt 0, .ExpressionStmt (.VariableExpr "x")] 2) 29).1
    ⟨_, 0⟩ ⟨_, 1⟩ ⟨_, 2⟩ ⟨_, 4⟩ ⟨_, 7⟩ (Token.of .If "if") (Token.of .LBrace "\x7b")
    (.VariableExpr "a") (.VariableExpr "x") (.VariableExpr "c") [.OtherStmt 0] []
    rfl rfl rfl (by decide) rfl rfl

/-! ## The lookahead of `tryParseMapLiteral` -/

theorem Parser_advance_eq {ts : List Token} {k : Nat} {t : Token}
    (ht : ts[k]? = some t) (hne : t.TokenType ≠ .EOF) :
    Parser.advance ⟨ts, k⟩ = .ok (t, ⟨ts, k + 1⟩) := by
  simp [Parser.advance, Parser.isAtEnd, Parser.peek, Parser.previous, ht, hne]

theorem Parser_reverseTimes_eq (ts : List Token) :
    ∀ (n k : Nat), Parser.reverseTimes n ⟨ts, k⟩ = ⟨ts, k - n⟩
  | 0, k => rfl
  | n + 1, k => by
    simp only [Parser.reverseTimes, Parser.reverse]
    rw [Parser_reverseTimes_eq ts n (k - 1)]
    congr 1
    omega

theorem Parser_lookaheadLoop_eq (ts : List Token) :
    ∀ (i fuel count k : Nat) (stop : Token), i + 1 ≤ fuel →
      (∀ j, j < i → ∃ t, ts[k + j]? = some t ∧ t.TokenType ≠ .Colon ∧
        t.TokenType ≠ .RBrace ∧ t.TokenType ≠ .EOF) →
      ts[k + i]? = some stop →
      (stop.TokenType = .Colon ∨ stop.TokenType = .RBrace) →
      Parser.lookaheadLoop fuel count ⟨ts, k⟩ =
        .ok (decide (stop.TokenType = .Colon), count + i + 1, ⟨ts, k + i + 1⟩)
  | 0, fuel + 1, count, k, stop, _, _, hstop, htype => by
    have hne : stop.TokenType ≠ .EOF := by
      rcases htype with h | h <;> rw [h] <;> decide
    simp only [Parser.lookaheadLoop, Parser_advance_eq (by simpa using hstop) hne,
      ParseResult_ok_bind]
    rcases htype with h | h
    · simp [h]
    · simp [h]
  | i + 1, fuel + 1, count, k, stop, hfuel, hplain, hstop, htype => by
    obtain ⟨t, ht, h1, h2, h3⟩ := hplain 0 (by omega)
    have ih := Parser_lookaheadLoop_eq ts i fuel (count + 1) (k + 1) stop (by omega)
      (fun j hj => by
        obtain ⟨u, hu, hu'⟩ := hplain (j + 1) (by omega)
        exact ⟨u, by rw [← hu]; congr 1; omega, hu'⟩)
      (by rw [← hstop]; congr 1; omega) htype
    simp only [Parser.lookaheadLoop, Parser_advance_eq (by simpa using ht) h3,
      ParseResult_ok_bind, h1, h2, if_false, ih]
    congr 3
    · omega
    · congr 1
      omega
  | _, 0, _, _, _, hfuel, _, _, _ => by omega

theorem Parser_lookahead_eq (ts : List Token) (c i fuel : Nat) (brace stop : Token)
    (hfuel : i + 1 ≤ fuel)
    (hbrace : ts[c]? = some brace) (hne : brace.TokenType ≠ .EOF)
    (hplain : ∀ j, j < i → ∃ t, ts[c + 1 + j]? = some t ∧ t.TokenType ≠ .Colon ∧
      t.TokenType ≠ .RBrace ∧ t.TokenType ≠ .EOF)
    (hstop : ts[c + 1 + i]? = some stop)
    (htype : stop.TokenType = .Colon ∨ stop.TokenType = .RBrace) :
    Parser.lookahead fuel ⟨ts, c⟩ = .ok (decide (stop.TokenType = .Colon), ⟨ts, c⟩) := by
  simp only [Parser.lookahead, Parser_advance_eq hbrace hne, ParseResult_ok_bind,
    Parser_lookaheadLoop_eq ts i fuel 0 (c + 1) stop hfuel hplain hstop htype,
    Parser_reverseTimes_eq, Parser.reverse, ParseResult_pure]
  congr 3
  omega

/-- Claim C19: at a brace that is followed by a first colon or closing brace, with no `EOF`
token before it, the lookahead leaves the parser where it was; when it has not seen a colon
`tryParseMapLiteral` returns nil at that position, and when it has seen one
`tryParseMapLiteral` is `mapLiteral` run from that position, which starts by consuming the
brace. -/
theorem Parser_tryParseMapLiteral_restores (env : ParserEnv) (ts : List Token)
    (c i fuel : Nat) (brace stop : Token)
    (hfuel : i + 1 ≤ fuel)
    (hbrace : ts[c]? = some brace) (hb : brace.TokenType = .LBrace)
    (hplain : ∀ j, j < i → ∃ t, ts[c + 1 + j]? = some t ∧ t.TokenType ≠ .Colon ∧
      t.TokenType ≠ .RBrace ∧ t.TokenType ≠ .EOF)
    (hstop : ts[c + 1 + i]? = some stop)
    (htype : stop.TokenType = .Colon ∨ stop.TokenType = .RBrace) :
    Parser.lookahead fuel ⟨ts, c⟩ = .ok (decide (stop.TokenType = .Colon), ⟨ts, c⟩) ∧
    (stop.TokenType = .RBrace →
      Parser.tryParseMapLiteral env (fuel + 1) ⟨ts, c⟩ = .ok (none, ⟨ts, c⟩)) ∧
    (stop.TokenType = .Colon →
      Parser.tryParseMapLiteral env (fuel + 1) ⟨ts, c⟩ =
        (Parser.mapLiteral env fuel ⟨ts, c⟩ >>= fun r => .ok (some r.1, r.2))) ∧
    Parser.consume ⟨ts, c⟩ .LBrace "Expected \x7b in map literal" =
      .ok (brace, ⟨ts, c + 1⟩) := by
  have hne : brace.TokenType ≠ .EOF := by rw [hb]; decide
  have hl := Parser_lookahead_eq ts c i fuel brace stop hfuel hbrace hne hplain hstop htype
  refine ⟨hl, ?_, ?_, ?_⟩
  · intro h
    simp [Parser.tryParseMapLiteral, hl, h]
  · intro h
    simp only [Parser.tryParseMapLiteral, hl, h, ParseResult_ok_bind]
    rfl
  · simp [Parser.consume, Parser.check, Parser.isAtEnd, Parser.peek, hbrace, hb,
      Parser.advance, Parser.previous]

theorem Parser_tryParseMapLiteral_restores_witness :
    Parser.tryParseMapLiteral ParserEnv.failing 4
        ⟨[Token.of .Arrow "->", Token.of .LBrace "\x7b", Token.of .Identifier "a",
          Token.of .RBrace "\x7d", Token.of .EOF ""], 1⟩ =
      .ok (none, ⟨[Token.of .Arrow "->", Token.of .LBrace "\x7b", Token.of .Identifier "a",
          Token.of .RBrace "\x7d", Token.of .EOF ""], 1⟩) :=
  (Parser_tryParseMapLiteral_restores ParserEnv.failing
    [Token.of .Arrow "->", Token.of .LBrace "\x7b", Token.of .Identifier "a",
      Token.of .RBrace "\x7d", Token.of .EOF ""] 1 1 3 (Token.of .LBrace "\x7b")
    (Token.of .RBrace "\x7d") (by decide) rfl rfl
    (fun j hj => by
      have hj0 : j = 0 := by omega
      subst hj0
      exact ⟨Token.of .Identifier "a", rfl, by decide, by decide, by decide⟩)
    rfl (Or.inr rfl)).2.1 rfl

theorem Parser_funDef_brace_first_example :
    Parser.funDef (ParserEnv.withBlock [] 2) 5
        ⟨[Token.of .LBrace "\x7b", Token.of .RBrace "\x7d", Token.of .EOF ""], 0⟩ =
      .error (.runtime .indexOutOfRange) ∧
    Parser.funDef (ParserEnv.withBlock [] 2) 5
        ⟨[Token.of .NEWLINE "\n", Token.of .LBrace "\x7b", Token.of .RBrace "\x7d",
          Token.of .EOF ""], 1⟩ =
      .ok (.FuncDefExpr [] none (.BlockStmt []),
        ⟨[Token.of .NEWLINE "\n", Token.of .LBrace "\x7b", Token.of .RBrace "\x7d",
          Token.of .EOF ""], 3⟩) :=
  ⟨rfl, rfl⟩

/-! ## Matching tokens -/

theorem Parser_peek_eq {ts : List Token} {k : Nat} {t : Token} (ht : ts[k]? = some t) :
    Parser.peek ⟨ts, k⟩ = .ok t := by
  simp [Parser.peek, ht]

theorem Parser_check_eq {ts : List Token} {k : Nat} {t : Token} (ht : ts[k]? = some t)
    (tokenType : TokenType) :
    Parser.check ⟨ts, k⟩ tokenType =
      .ok (!decide (t.TokenType = .EOF) && decide (t.TokenType = tokenType)) := by
  by_cases h : t.TokenType = .EOF <;> simp [Parser.check, Parser.isAtEnd, Parser.peek, ht, h]

theorem Parser_matchTypes_not_mem {ts : List Token} {k : Nat} {t : Token}
    (ht : ts[k]? = some t) :
    ∀ ops : List TokenType, t.TokenType ∉ ops →
      Parser.matchTypes ⟨ts, k⟩ ops = .ok (false, ⟨ts, k⟩)
  | [], _ => rfl
  | o :: rest, h => by
    have ho : t.TokenType ≠ o := fun e => h (by simp [e])
    have hrest : t.TokenType ∉ rest := fun e => h (by simp [e])
    simp [Parser.matchTypes, Parser_check_eq ht, ho, Parser_matchTypes_not_mem ht rest hrest]

theorem Parser_matchTypes_mem {ts : List Token} {k : Nat} {t : Token}
    (ht : ts[k]? = some t) (hne : t.TokenType ≠ .EOF) :
    ∀ ops : List TokenType, t.TokenType ∈ ops →
      Parser.matchTypes ⟨ts, k⟩ ops = .ok (true, ⟨ts, k + 1⟩)
  | [], h => by simp at h
  | o :: rest, h => by
    by_cases ho : t.TokenType = o
    · simp [Parser.matchTypes, Parser_check_eq ht, ho ▸ hne, ho, Parser_advance_eq ht hne]
    · have hrest : t.TokenType ∈ rest := by
        rcases List.mem_cons.1 h with e | e
        · exact absurd e ho
        · exact e
      simp [Parser.matchTypes, Parser_check_eq ht, ho, Parser_matchTypes_mem ht hne rest hrest]

theorem Parser_previous_succ {ts : List Token} {k : Nat} {t : Token} (ht : ts[k]? = some t) :
    Parser.previous ⟨ts, k + 1⟩ = .ok t := by
  simp [Parser.previous, ht]

theorem Parser_consume_eq {ts : List Token} {k : Nat} {t : Token} (ht : ts[k]? = some t)
    {tokenType : TokenType} (htype : t.TokenType = tokenType) (hne : tokenType ≠ .EOF)
    (message : String) :
    Parser.consume ⟨ts, k⟩ tokenType message = .ok (t, ⟨ts, k + 1⟩) := by
  subst htype
  simp [Parser.consume, Parser_check_eq ht, hne, Parser_advance_eq ht hne]

theorem Parser_binaryLoop_stop (ops : List TokenType)
    (next : Parser → ParseResult (Expr × Parser)) {ts : List Token} {k : Nat} {t : Token}
    (ht : ts[k]? = some t) (hnot : t.TokenType ∉ ops) (fuel : Nat) (e : Expr) :
    Parser.binaryLoop ops next (fuel + 1) e ⟨ts, k⟩ = .ok (e, ⟨ts, k⟩) := by
  simp [Parser.binaryLoop, Parser_matchTypes_not_mem ht ops hnot]

theorem Parser_binaryLoop_step (ops : List TokenType)
    (next : Parser → ParseResult (Expr × Parser)) {ts : List Token} {k : Nat} {t : Token}
    (ht : ts[k]? = some t) (hne : t.TokenType ≠ .EOF) (hmem : t.TokenType ∈ ops)
    (fuel : Nat) (e rhs : Expr) (p' : Parser) (hnext : next ⟨ts, k + 1⟩ = .ok (rhs, p')) :
    Parser.binaryLoop ops next (fuel + 1) e ⟨ts, k⟩ =
      Parser.binaryLoop ops next fuel (.BinaryExpr e t.TokenType rhs) p' := by
  simp [Parser.binaryLoop, Parser_matchTypes_mem ht hne ops hmem, Parser_previous_succ ht,
    hnext]

/-! ## Atomic operands -/

theorem Parser_primary_atom (env : ParserEnv) {ts : List Token} {i : Nat} {a : Token}
    {e : Expr} (ht : ts[i]? = some a) (ha : a.atom env = some e) (fuel : Nat) :
    Parser.primary env (fuel + 1) ⟨ts, i⟩ = .ok (e, ⟨ts, i + 1⟩) := by
  unfold Token.atom at ha
  cases hT : a.TokenType <;> simp only [hT] at ha <;> try contradiction
  case String =>
    have he : e = .StringLiteralExpr (String.mk (replaceEscapedNewlines a.Text)) := by
      simpa using ha.symm
    simp [Parser.primary, Parser_peek_eq ht, hT, Parser_consume_eq ht hT, he]
  case Char =>
    cases hText : a.Text with
    | nil => simp [hText] at ha
    | cons ch rest =>
      simp only [hText, Option.some.injEq] at ha
      simp [Parser.primary, Parser_peek_eq ht, hT, Parser_consume_eq ht hT, hText, ha]
  case BooleanTrue =>
    have he : e = .BooleanLiteralExpr true := by simpa using ha.symm
    simp [Parser.primary, Parser_peek_eq ht, hT, Parser_consume_eq ht hT, he]
  case BooleanFalse =>
    have he : e = .BooleanLiteralExpr false := by simpa using ha.symm
    simp [Parser.primary, Parser_peek_eq ht, hT, Parser_consume_eq ht hT, he]
  case Int =>
    cases hInt : ParseInt a.Text with
    | none => simp [hInt] at ha
    | some n =>
      simp only [hInt, Option.map_some', Option.some.injEq] at ha
      simp [Parser.primary, Parser_peek_eq ht, hT, Parser_consume_eq ht hT, hInt, ha]
  case Float =>
    cases hFloat : env.ParseFloat a.Text with
    | none => simp [hFloat] at ha
    | some x =>
      simp only [hFloat, Option.map_some', Option.some.injEq] at ha
      simp [Parser.primary, Parser_peek_eq ht, hT, Parser_consume_eq ht hT, hFloat, ha]
  case Identifier =>
    have he : e = .VariableExpr (String.mk a.Text) := by simpa using ha.symm
    simp [Parser.primary, Parser_peek_eq ht, hT, Parser_consume_eq ht hT, he]

theorem Token_atom_type {env : ParserEnv} {a : Token} {e : Expr} (ha : a.atom env = some e) :
    a.TokenType = .String ∨ a.TokenType = .Char ∨ a.TokenType = .BooleanTrue ∨
      a.TokenType = .BooleanFalse ∨ a.TokenType = .Int ∨ a.TokenType = .Float ∨
      a.TokenType = .Identifier := by
  unfold Token.atom at ha
  cases hT : a.TokenType <;> simp only [hT] at ha <;> first | contradiction | simp

theorem Parser_unary_atom (env : ParserEnv) {ts : List Token} {i : Nat} {a n : Token}
    {e : Expr} (ht : ts[i]? = some a) (ha : a.atom env = some e)
    (hn : ts[i + 1]? = some n)
    (hpost : n.TokenType ∉ [TokenType.LParen, TokenType.Dot, TokenType.LSquare])
    (fuel : Nat) :
    Parser.unary env (fuel + 5) ⟨ts, i⟩ = .ok (e, ⟨ts, i + 1⟩) := by
  have hprim := Parser_primary_atom env ht ha fuel
  have hty := Token_atom_type ha
  have h1 : a.TokenType ∉ [TokenType.Subtract, TokenType.Not, TokenType.Add] := by
    rcases hty with h | h | h | h | h | h | h <;> rw [h] <;> decide
  have h2 : a.TokenType ∉ [TokenType.LSquare] := by
    rcases hty with h | h | h | h | h | h | h <;> rw [h] <;> decide
  have hcol : Parser.collection env (fuel + 2) ⟨ts, i⟩ = .ok (e, ⟨ts, i + 1⟩) := by
    simp [Parser.collection, Parser_matchTypes_not_mem ht _ h2, hprim]
  have hfun : Parser.funDef env (fuel + 3) ⟨ts, i⟩ = .ok (e, ⟨ts, i + 1⟩) := by
    simp only [Parser.funDef, Parser_peek_eq ht, ParseResult_ok_bind]
    rcases hty with h | h | h | h | h | h | h <;> simp only [h] <;> exact hcol
  have hinv : Parser.invoke env (fuel + 4) ⟨ts, i⟩ = .ok (e, ⟨ts, i + 1⟩) := by
    simp [Parser.invoke, hfun, Parser.invokeLoop, Parser_matchTypes_not_mem hn _ hpost]
  simp [Parser.unary, Parser_matchTypes_not_mem ht _ h1, hinv]

/-! ## The levels of the ladder -/

theorem Parser_level_succ (env : ParserEnv) (k : Nat) (hk : k < 6) (fuel : Nat) (p : Parser) :
    Parser.level env k (fuel + 1) p =
      (Parser.level env (k + 1) fuel p >>= fun r =>
        Parser.binaryLoop (Parser.levelOps k) (Parser.level env (k + 1) fuel) fuel r.1 r.2) := by
  rcases k with _ | _ | _ | _ | _ | _ | k
  · simp only [Parser.level, Parser.logicalOr, Parser.levelOps]
  · simp only [Parser.level, Parser.logicalAnd, Parser.levelOps]
  · simp only [Parser.level, Parser.referenceEquality, Parser.levelOps]
  · simp only [Parser.level, Parser.comparison, Parser.levelOps]
  · simp only [Parser.level, Parser.addition, Parser.levelOps]
  · simp only [Parser.level, Parser.multiplication, Parser.levelOps]
  · omega

theorem TokenType_level_of_mem_levelOps {t : TokenType} {k : Nat}
    (h : t ∈ Parser.levelOps k) : t.level = some k := by
  rcases k with _ | _ | _ | _ | _ | _ | k <;> simp [Parser.levelOps] at h
  · subst h; rfl
  · subst h; rfl
  · rcases h with h | h <;> subst h <;> rfl
  · rcases h with h | h | h | h <;> subst h <;> rfl
  · rcases h with h | h <;> subst h <;> rfl
  · rcases h with h | h | h <;> subst h <;> rfl

theorem TokenType_mem_levelOps_of_level {t : TokenType} {k : Nat}
    (h : t.level = some k) : t ∈ Parser.levelOps k := by
  cases t <;> simp [TokenType.level] at h <;> subst h <;> simp [Parser.levelOps]

theorem TokenType_level_ne_EOF {t : TokenType} {k : Nat} (h : t.level = some k) :
    t ≠ .EOF := by
  intro e
  subst e
  simp [TokenType.level] at h

theorem Parser_ParsesAt_atom (env : ParserEnv) {ts : List Token} {i : Nat} {a n : Token}
    {e : Expr} (ht : ts[i]? = some a) (ha : a.atom env = some e)
    (hn : ts[i + 1]? = some n)
    (hpost : n.TokenType ∉ [TokenType.LParen, TokenType.Dot, TokenType.LSquare]) :
    ∀ (d k : Nat), k + d = 6 → (∀ j, n.TokenType.level = some j → j < k) →
      Parser.ParsesAt env k ⟨ts, i⟩ (e, ⟨ts, i + 1⟩)
  | 0, k, hk, _ => by
    intro fuel hfuel
    have hk6 : k = 6 := by omega
    subst hk6
    obtain ⟨f, rfl⟩ : ∃ f, fuel = f + 5 := ⟨fuel - 5, by omega⟩
    exact Parser_unary_atom env ht ha hn hpost f
  | d + 1, k, hk, hlev => by
    intro fuel hfuel
    obtain ⟨f, rfl⟩ : ∃ f, fuel = f + 2 := ⟨fuel - 2, by omega⟩
    have ih := Parser_ParsesAt_atom env ht ha hn hpost d (k + 1) (by omega)
      (fun j hj => Nat.lt_succ_of_lt (hlev j hj)) (f + 1) (by omega)
    have hnot : n.TokenType ∉ Parser.levelOps k := fun hmem =>
      absurd (hlev k (TokenType_level_of_mem_levelOps hmem)) (Nat.lt_irrefl k)
    rw [Parser_level_succ env k (by omega), ih]
    exact Parser_binaryLoop_stop _ _ hn hnot f e

theorem Parser_ParsesAt_lift (env : ParserEnv) {ts : List Token} {k m : Nat} {p : Parser}
    {e : Expr} {n : Token} (hk : k < 6)
    (hsub : Parser.ParsesAt env (k + 1) p (e, ⟨ts, m⟩))
    (hn : ts[m]? = some n) (hnot : n.TokenType ∉ Parser.levelOps k) :
    Parser.ParsesAt env k p (e, ⟨ts, m⟩) := by
  intro fuel hfuel
  obtain ⟨f, rfl⟩ : ∃ f, fuel = f + 2 := ⟨fuel - 2, by omega⟩
  rw [Parser_level_succ env k hk, hsub (f + 1) (by omega)]
  exact Parser_binaryLoop_stop _ _ hn hnot f e

theorem Parser_ParsesAt_binary (env : ParserEnv) {ts : List Token} {k m m' : Nat}
    {p : Parser} {e1 e2 : Expr} {op n : Token} (hk : k < 6)
    (hlhs : Parser.ParsesAt env (k + 1) p (e1, ⟨ts, m⟩))
    (hop : ts[m]? = some op) (hmem : op.TokenType ∈ Parser.levelOps k)
    (hrhs : Parser.ParsesAt env (k + 1) ⟨ts, m + 1⟩ (e2, ⟨ts, m'⟩))
    (hn : ts[m']? = some n) (hnot : n.TokenType ∉ Parser.levelOps k) :
    Parser.ParsesAt env k p (.BinaryExpr e1 op.TokenType e2, ⟨ts, m'⟩) := by
  intro fuel hfuel
  obtain ⟨f, rfl⟩ : ∃ f, fuel = f + 3 := ⟨fuel - 3, by omega⟩
  have hne : op.TokenType ≠ .EOF :=
    TokenType_level_ne_EOF (TokenType_level_of_mem_levelOps hmem)
  rw [Parser_level_succ env k hk, hlhs (f + 2) (by omega)]
  simp only [ParseResult_ok_bind]
  rw [Parser_binaryLoop_step _ _ hop hne hmem (f + 1) e1 e2 ⟨ts, m'⟩
    (hrhs (f + 2) (by omega))]
  exact Parser_binaryLoop_stop _ _ hn hnot f _

theorem Parser_ParsesAt_lift_many (env : ParserEnv) {ts : List Token} {m : Nat} {p : Parser}
    {e : Expr} {n : Token} (hn : ts[m]? = some n) :
    ∀ (d k j : Nat), k + d = j → j ≤ 6 →
      Parser.ParsesAt env j p (e, ⟨ts, m⟩) →
      (∀ l, k ≤ l → l < j → n.TokenType ∉ Parser.levelOps l) →
      Parser.ParsesAt env k p (e, ⟨ts, m⟩)
  | 0, k, j, hkj, _, hsub, _ => by
    have : k = j := by omega
    subst this
    exact hsub
  | d + 1, k, j, hkj, hj, hsub, hnot => by
    have ih := Parser_ParsesAt_lift_many env hn d (k + 1) j (by omega) hj hsub
      (fun l hl hlj => hnot l (by omega) hlj)
    exact Parser_ParsesAt_lift env (by omega) ih hn (hnot k (Nat.le_refl k) (by omega))

theorem Parser_expression_of_ParsesAt (env : ParserEnv) {ts : List Token} {i m : Nat}
    {e : Expr} {a n : Token}
    (hparse : Parser.ParsesAt env 0 ⟨ts, i⟩ (e, ⟨ts, m⟩))
    (ha : ts[i]? = some a) (hif : a.TokenType ≠ .If)
    (hn : ts[m]? = some n) (hIs : n.TokenType ≠ .Is) (hAs : n.TokenType ≠ .As)
    (hEqual : n.TokenType ≠ .Equal) (fuel : Nat) (hfuel : 22 ≤ fuel) :
    Parser.expression env fuel ⟨ts, i⟩ = .ok (e, ⟨ts, m⟩) := by
  obtain ⟨f, rfl⟩ : ∃ f, fuel = f + 4 := ⟨fuel - 4, by omega⟩
  have h0 := hparse f (by omega)
  simp only [Parser.level] at h0
  have hcheck : Parser.typeCheck env (f + 1) ⟨ts, i⟩ = .ok (e, ⟨ts, m⟩) := by
    simp [Parser.typeCheck, h0, Parser_matchTypes_not_mem hn [TokenType.Is] (by simpa using hIs)]
  have hcast : Parser.typeCast env (f + 2) ⟨ts, i⟩ = .ok (e, ⟨ts, m⟩) := by
    obtain ⟨g, rfl⟩ : ∃ g, f = g + 1 := ⟨f - 1, by omega⟩
    simp [Parser.typeCast, hcheck, Parser.typeCastLoop,
      Parser_matchTypes_not_mem hn [TokenType.As] (by simpa using hAs)]
  have hassign : Parser.assignment env (f + 3) ⟨ts, i⟩ = .ok (e, ⟨ts, m⟩) := by
    simp [Parser.assignment, hcast, Parser_check_eq hn, hEqual]
  simp [Parser.expression, Parser_peek_eq ha, hif, hassign]

theorem TokenType_level_lt {t : TokenType} {k : Nat} (h : t.level = some k) : k < 6 := by
  cases t <;> simp [TokenType.level] at h <;> omega

theorem TokenType_level_not_after_operand {t : TokenType} {k : Nat} (h : t.level = some k) :
    t ∉ [TokenType.LParen, TokenType.Dot, TokenType.LSquare] := by
  cases t <;> simp [TokenType.level] at h <;> simp

theorem TokenType_not_continues {t : TokenType} (h : t.continuesExpression = false) :
    t.level = none ∧ t ∉ [TokenType.LParen, TokenType.Dot, TokenType.LSquare] ∧
      t ≠ .Is ∧ t ≠ .As ∧ t ≠ .Equal := by
  simp only [TokenType.continuesExpression, Bool.or_eq_false_iff, decide_eq_false_iff_not]
    at h
  obtain ⟨⟨⟨⟨⟨⟨h1, h2⟩, h3⟩, h4⟩, h5⟩, h6⟩, h7⟩ := h
  refine ⟨?_, ?_, h6, h5, h7⟩
  · cases hl : t.level with
    | none => rfl
    | some k => simp [hl] at h1
  · simp [h2, h3, h4]

/-- Claim C16: for atomic operands `a`, `b`, `c`, a binary operator `lo` and a binary operator
`hi` of a strictly higher level of the ladder, followed by a token that does not continue an
expression, `expression` parses `a lo b hi c` to `Binary(a, lo, Binary(b, hi, c))` and
`a hi b lo c` to `Binary(Binary(a, hi, b), lo, c)`, and stops after `c`. -/
theorem Parser_expression_precedence (env : ParserEnv) (a lo b hi c n : Token)
    (rest : List Token) (ea eb ec : Expr) (i j : Nat)
    (ha : a.atom env = some ea) (hb : b.atom env = some eb) (hc : c.atom env = some ec)
    (hlo : lo.TokenType.level = some i) (hhi : hi.TokenType.level = some j) (hij : i < j)
    (hn : n.TokenType.continuesExpression = false) (fuel : Nat) (hfuel : 22 ≤ fuel) :
    Parser.expression env fuel ⟨a :: lo :: b :: hi :: c :: n :: rest, 0⟩ =
        .ok (.BinaryExpr ea lo.TokenType (.BinaryExpr eb hi.TokenType ec),
          ⟨a :: lo :: b :: hi :: c :: n :: rest, 5⟩) ∧
      Parser.expression env fuel ⟨a :: hi :: b :: lo :: c :: n :: rest, 0⟩ =
        .ok (.BinaryExpr (.BinaryExpr ea hi.TokenType eb) lo.TokenType ec,
          ⟨a :: hi :: b :: lo :: c :: n :: rest, 5⟩) := by
  obtain ⟨hnlev, hnpost, hnIs, hnAs, hnEqual⟩ := TokenType_not_continues hn
  have hj6 := TokenType_level_lt hhi
  have hnnot : ∀ l, n.TokenType ∉ Parser.levelOps l := fun l hmem => by
    rw [TokenType_level_of_mem_levelOps hmem] at hnlev
    cases hnlev
  have hnlt : ∀ k l, n.TokenType.level = some l → l < k := fun k l h => by
    rw [hnlev] at h
    cases h
  have hlolt : ∀ l, lo.TokenType.level = some l → l < i + 1 := fun l hl => by
    rw [hlo] at hl; cases hl; omega
  have hlolt' : ∀ l, lo.TokenType.level = some l → l < j + 1 := fun l hl => by
    rw [hlo] at hl; cases hl; omega
  have hhilt : ∀ l, hi.TokenType.level = some l → l < j + 1 := fun l hl => by
    rw [hhi] at hl; cases hl; omega
  have haIf : a.TokenType ≠ .If := by
    rcases Token_atom_type ha with h | h | h | h | h | h | h <;> rw [h] <;> decide
  constructor
  · have t0 : (a :: lo :: b :: hi :: c :: n :: rest)[0]? = some a := by simp
    have t1 : (a :: lo :: b :: hi :: c :: n :: rest)[0 + 1]? = some lo := by simp
    have t2 : (a :: lo :: b :: hi :: c :: n :: rest)[1 + 1]? = some b := by simp
    have t3 : (a :: lo :: b :: hi :: c :: n :: rest)[2 + 1]? = some hi := by simp
    have t4 : (a :: lo :: b :: hi :: c :: n :: rest)[3 + 1]? = some c := by simp
    have t5 : (a :: lo :: b :: hi :: c :: n :: rest)[4 + 1]? = some n := by simp
    have hbc : Parser.ParsesAt env j ⟨a :: lo :: b :: hi :: c :: n :: rest, 2⟩
        (.BinaryExpr eb hi.TokenType ec, ⟨a :: lo :: b :: hi :: c :: n :: rest, 5⟩) :=
      Parser_ParsesAt_binary env hj6
        (Parser_ParsesAt_atom env (i := 2) t2 hb t3 (TokenType_level_not_after_operand hhi)
          (6 - (j + 1)) (j + 1) (by omega) hhilt)
        t3 (TokenType_mem_levelOps_of_level hhi)
        (Parser_ParsesAt_atom env (i := 4) t4 hc t5 hnpost (6 - (j + 1)) (j + 1)
          (by omega) (hnlt (j + 1)))
        t5 (hnnot j)
    have hbc' := Parser_ParsesAt_lift_many env t5 (j - (i + 1)) (i + 1) j
      (by omega) (by omega) hbc (fun l _ _ => hnnot l)
    have hall := Parser_ParsesAt_binary env (k := i) (by omega)
      (Parser_ParsesAt_atom env (i := 0) t0 ha t1 (TokenType_level_not_after_operand hlo)
        (6 - (i + 1)) (i + 1) (by omega) hlolt)
      t1 (TokenType_mem_levelOps_of_level hlo) hbc' t5 (hnnot i)
    have h0 := Parser_ParsesAt_lift_many env t5 i 0 i (by omega) (by omega) hall
      (fun l _ _ => hnnot l)
    exact Parser_expression_of_ParsesAt env h0 t0 haIf t5 hnIs hnAs hnEqual fuel hfuel
  · have t0 : (a :: hi :: b :: lo :: c :: n :: rest)[0]? = some a := by simp
    have t1 : (a :: hi :: b :: lo :: c :: n :: rest)[0 + 1]? = some hi := by simp
    have t2 : (a :: hi :: b :: lo :: c :: n :: rest)[1 + 1]? = some b := by simp
    have t3 : (a :: hi :: b :: lo :: c :: n :: rest)[2 + 1]? = some lo := by simp
    have t4 : (a :: hi :: b :: lo :: c :: n :: rest)[3 + 1]? = some c := by simp
    have t5 : (a :: hi :: b :: lo :: c :: n :: rest)[4 + 1]? = some n := by simp
    have hlonot : ∀ l, i < l → lo.TokenType ∉ Parser.levelOps l := fun l hl hmem => by
      rw [TokenType_level_of_mem_levelOps hmem] at hlo
      cases hlo
      omega
    have hab : Parser.ParsesAt env j ⟨a :: hi :: b :: lo :: c :: n :: rest, 0⟩
        (.BinaryExpr ea hi.TokenType eb, ⟨a :: hi :: b :: lo :: c :: n :: rest, 3⟩) :=
      Parser_ParsesAt_binary env hj6
        (Parser_ParsesAt_atom env (i := 0) t0 ha t1 (TokenType_level_not_after_operand hhi)
          (6 - (j + 1)) (j + 1) (by omega) hhilt)
        t1 (TokenType_mem_levelOps_of_level hhi)
        (Parser_ParsesAt_atom env (i := 2) t2 hb t3 (TokenType_level_not_after_operand hlo)
          (6 - (j + 1)) (j + 1) (by omega) hlolt')
        t3 (hlonot j hij)
    have hab' := Parser_ParsesAt_lift_many env t3 (j - (i + 1)) (i + 1) j
      (by omega) (by omega) hab (fun l hl _ => hlonot l (by omega))
    have hall := Parser_ParsesAt_binary env (k := i) (by omega) hab'
      t3 (TokenType_mem_levelOps_of_level hlo)
      (Parser_ParsesAt_atom env (i := 4) t4 hc t5 hnpost (6 - (i + 1)) (i + 1) (by omega)
        (hnlt (i + 1)))
      t5 (hnnot i)
    have h0 := Parser_ParsesAt_lift_many env t5 i 0 i (by omega) (by omega) hall
      (fun l _ _ => hnnot l)
    exact Parser_expression_of_ParsesAt env h0 t0 haIf t5 hnIs hnAs hnEqual fuel hfuel

theorem Parser_expression_precedence_witness :
    Parser.expression ParserEnv.failing 30
        ⟨[Token.of .Identifier "a", Token.of .Add "+", Token.of .Int "12",
          Token.of .Multiply "*", Token.of .Identifier "c", Token.of .EOF ""], 0⟩ =
      .ok (.BinaryExpr (.VariableExpr "a") .Add
          (.BinaryExpr (.IntegerLiteralExpr 12) .Multiply (.VariableExpr "c")),
        ⟨[Token.of .Identifier "a", Token.of .Add "+", Token.of .Int "12",
          Token.of .Multiply "*", Token.of .Identifier "c", Token.of .EOF ""], 5⟩) :=
  (Parser_expression_precedence ParserEnv.failing (Token.of .Identifier "a")
    (Token.of .Add "+") (Token.of .Int "12") (Token.of .Multiply "*")
    (Token.of .Identifier "c") (Token.of .EOF "") [] (.VariableExpr "a")
    (.IntegerLiteralExpr 12) (.VariableExpr "c") 4 5 rfl rfl rfl rfl rfl (by decide) rfl 30
    (by decide)).1

/-! ## A stream that starts with a parenthesis -/

theorem ParseResult_bind_eq_ok {α β : Type} {x : ParseResult α} {f : α → ParseResult β}
    {b : β} : (x >>= f) = .ok b ↔ ∃ a, x = .ok a ∧ f a = .ok b := by
  cases x with
  | ok a => simp
  | error e => simp

theorem Parser_binaryLoop_not_group (ops : List TokenType)
    (next : Parser → ParseResult (Expr × Parser)) :
    ∀ (fuel : Nat) (e : Expr) (p : Parser) (r : Expr) (p' : Parser), e.isGroup = false →
      Parser.binaryLoop ops next fuel e p = .ok (r, p') → r.isGroup = false
  | 0, _, _, _, _, _, h => by simp [Parser.binaryLoop] at h
  | fuel + 1, e, p, r, p', he, h => by
    simp only [Parser.binaryLoop, ParseResult_bind_eq_ok] at h
    obtain ⟨⟨found, p1⟩, _, h⟩ := h
    cases found with
    | false =>
      simp only [Bool.false_eq_true, if_false, ParseResult_pure, ParseResult.ok.injEq,
        Prod.mk.injEq] at h
      rw [← h.1]
      exact he
    | true =>
      simp only [if_true, ParseResult_bind_eq_ok] at h
      obtain ⟨op, _, ⟨rhs, p2⟩, _, h⟩ := h
      exact Parser_binaryLoop_not_group ops next fuel _ p2 r p' (by rfl) h

theorem Parser_typeCastLoop_not_group (env : ParserEnv) :
    ∀ (fuel : Nat) (e : Expr) (p : Parser) (r : Expr) (p' : Parser), e.isGroup = false →
      Parser.typeCastLoop env fuel e p = .ok (r, p') → r.isGroup = false
  | 0, _, _, _, _, _, h => by simp [Parser.typeCastLoop] at h
  | fuel + 1, e, p, r, p', he, h => by
    simp only [Parser.typeCastLoop, ParseResult_bind_eq_ok] at h
    obtain ⟨⟨found, p1⟩, _, h⟩ := h
    cases found with
    | false =>
      simp only [Bool.false_eq_true, if_false, ParseResult_pure, ParseResult.ok.injEq,
        Prod.mk.injEq] at h
      rw [← h.1]
      exact he
    | true =>
      simp only [if_true, ParseResult_bind_eq_ok] at h
      obtain ⟨⟨t, p2⟩, _, h⟩ := h
      exact Parser_typeCastLoop_not_group env fuel _ p2 r p' (by rfl) h

theorem Parser_invokeLoop_not_group (env : ParserEnv)
    (expression : Parser → ParseResult (Expr × Parser)) :
    ∀ (fuel : Nat) (e : Expr) (p : Parser) (r : Expr) (p' : Parser), e.isGroup = false →
      Parser.invokeLoop env expression fuel e p = .ok (r, p') → r.isGroup = false
  | 0, _, _, _, _, _, h => by simp [Parser.invokeLoop] at h
  | fuel + 1, e, p, r, p', he, h => by
    simp only [Parser.invokeLoop, ParseResult_bind_eq_ok] at h
    obtain ⟨⟨found, p1⟩, _, h⟩ := h
    cases found with
    | false =>
      simp only [Bool.false_eq_true, if_false, ParseResult_pure, ParseResult.ok.injEq,
        Prod.mk.injEq] at h
      rw [← h.1]
      exact he
    | true =>
      simp only [if_true, ParseResult_bind_eq_ok] at h
      obtain ⟨prev, _, h⟩ := h
      split at h
      · simp only [ParseResult_bind_eq_ok] at h
        obtain ⟨⟨args, p2⟩, _, h⟩ := h
        exact Parser_invokeLoop_not_group env expression fuel _ p2 r p' (by rfl) h
      · simp only [ParseResult_bind_eq_ok] at h
        obtain ⟨⟨id, p2⟩, _, h⟩ := h
        exact Parser_invokeLoop_not_group env expression fuel _ p2 r p' (by rfl) h
      · simp only [ParseResult_bind_eq_ok] at h
        obtain ⟨⟨index, p2⟩, _, ⟨_, p3⟩, _, h⟩ := h
        exact Parser_invokeLoop_not_group env expression fuel _ p3 r p' (by rfl) h
      · exact Parser_invokeLoop_not_group env expression fuel _ p1 r p' he h

theorem Parser_funDef_paren (env : ParserEnv) {ts : List Token} {k : Nat} {tok : Token}
    (ht : ts[k]? = some tok) (hT : tok.TokenType = .LParen) (fuel : Nat) (r : Expr)
    (p' : Parser) (h : Parser.funDef env fuel ⟨ts, k⟩ = .ok (r, p')) :
    ∃ args typ statement, r = .FuncDefExpr args typ statement := by
  cases fuel with
  | zero => simp [Parser.funDef] at h
  | succ fuel =>
    simp only [Parser.funDef, Parser_peek_eq ht, ParseResult_ok_bind, hT,
      ParseResult_bind_eq_ok] at h
    obtain ⟨⟨args, p1⟩, _, ⟨_, p2⟩, _, isId, _, ⟨typ, p3⟩, _, ⟨statement, p4⟩, _, h⟩ := h
    simp only [ParseResult_pure, ParseResult.ok.injEq, Prod.mk.injEq] at h
    exact ⟨args, typ, statement, h.1.symm⟩

theorem Parser_level_paren (env : ParserEnv) {ts : List Token} {k : Nat} {tok : Token}
    (ht : ts[k]? = some tok) (hT : tok.TokenType = .LParen) :
    ∀ (d l fuel : Nat) (r : Expr) (p' : Parser), l + d = 6 →
      Parser.level env l fuel ⟨ts, k⟩ = .ok (r, p') → r.isGroup = false
  | 0, l, fuel, r, p', hl, h => by
    have hl6 : l = 6 := by omega
    subst hl6
    simp only [Parser.level] at h
    cases fuel with
    | zero => simp [Parser.unary] at h
    | succ fuel =>
      have hnot : tok.TokenType ∉ [TokenType.Subtract, TokenType.Not, TokenType.Add] := by
        rw [hT]; decide
      simp only [Parser.unary, Parser_matchTypes_not_mem ht _ hnot, ParseResult_ok_bind,
        Bool.false_eq_true, if_false] at h
      cases fuel with
      | zero => simp [Parser.invoke] at h
      | succ fuel =>
        simp only [Parser.invoke, ParseResult_bind_eq_ok] at h
        obtain ⟨⟨e, p1⟩, hfun, h⟩ := h
        obtain ⟨args, typ, statement, rfl⟩ := Parser_funDef_paren env ht hT fuel e p1 hfun
        exact Parser_invokeLoop_not_group env _ fuel _ p1 r p' (by rfl) h
  | d + 1, l, fuel, r, p', hl, h => by
    cases fuel with
    | zero =>
      have hl6 : l < 6 := by omega
      rcases l with _ | _ | _ | _ | _ | _ | l
      · simp [Parser.level, Parser.logicalOr] at h
      · simp [Parser.level, Parser.logicalAnd] at h
      · simp [Parser.level, Parser.referenceEquality] at h
      · simp [Parser.level, Parser.comparison] at h
      · simp [Parser.level, Parser.addition] at h
      · simp [Parser.level, Parser.multiplication] at h
      · omega
    | succ fuel =>
      rw [Parser_level_succ env l (by omega), ParseResult_bind_eq_ok] at h
      obtain ⟨⟨e, p1⟩, hsub, h⟩ := h
      have he := Parser_level_paren env ht hT d (l + 1) fuel e p1 (by omega) hsub
      exact Parser_binaryLoop_not_group _ _ fuel e p1 r p' he h

theorem Parser_assignment_paren (env : ParserEnv) {ts : List Token} {k : Nat} {tok : Token}
    (ht : ts[k]? = some tok) (hT : tok.TokenType = .LParen) (fuel : Nat) (r : Expr)
    (p' : Parser) (h : Parser.assignment env fuel ⟨ts, k⟩ = .ok (r, p')) :
    r.isGroup = false := by
  cases fuel with
  | zero => simp [Parser.assignment] at h
  | succ fuel =>
    simp only [Parser.assignment, ParseResult_bind_eq_ok] at h
    obtain ⟨⟨e, p1⟩, hcast, isEqual, _, h⟩ := h
    have he : e.isGroup = false := by
      cases fuel with
      | zero => simp [Parser.typeCast] at hcast
      | succ fuel =>
        simp only [Parser.typeCast, ParseResult_bind_eq_ok] at hcast
        obtain ⟨⟨e0, p0⟩, hcheck, hloop⟩ := hcast
        refine Parser_typeCastLoop_not_group env fuel e0 p0 e p1 ?_ hloop
        cases fuel with
        | zero => simp [Parser.typeCheck] at hcheck
        | succ fuel =>
          simp only [Parser.typeCheck, ParseResult_bind_eq_ok] at hcheck
          obtain ⟨⟨e00, p00⟩, hor, ⟨found, p01⟩, _, hcheck⟩ := hcheck
          have hor' : Parser.level env 0 fuel ⟨ts, k⟩ = .ok (e00, p00) := hor
          have h00 := Parser_level_paren env ht hT 6 0 fuel e00 p00 rfl hor'
          cases found with
          | false =>
            simp only [Bool.false_eq_true, if_false, ParseResult_pure, ParseResult.ok.injEq,
              Prod.mk.injEq] at hcheck
            rw [← hcheck.1]
            exact h00
          | true =>
            simp only [if_true, ParseResult_bind_eq_ok] at hcheck
            obtain ⟨⟨t, p02⟩, _, hcheck⟩ := hcheck
            simp only [ParseResult_pure, ParseResult.ok.injEq, Prod.mk.injEq] at hcheck
            rw [← hcheck.1]
            rfl
    cases isEqual with
    | false =>
      simp only [Bool.false_eq_true, if_false, ParseResult_pure, ParseResult.ok.injEq,
        Prod.mk.injEq] at h
      rw [← h.1]
      exact he
    | true =>
      simp only [if_true, ParseResult_bind_eq_ok] at h
      obtain ⟨⟨eqlTok, p2⟩, _, ⟨rhs, p3⟩, _, h⟩ := h
      split at h
      · simp only [ParseResult_pure, ParseResult.ok.injEq, Prod.mk.injEq] at h
        rw [← h.1]
        rfl
      · simp only [ParseResult_pure, ParseResult.ok.injEq, Prod.mk.injEq] at h
        rw [← h.1]
        rfl
      · simp at h

/-- Claim C17, on the code: whatever the functions outside the sources do and whatever the
fuel, `expression` never gives a `GroupExpr` at a stream that starts with `(`: `funDef` takes
every opening parenthesis for the start of a function definition, so that the case `LParen`
of `primary` is never reached. -/
theorem Parser_expression_paren_never_group (env : ParserEnv) (ts : List Token) (k : Nat)
    (tok : Token) (ht : ts[k]? = some tok) (hT : tok.TokenType = .LParen) (fuel : Nat)
    (e : Expr) (p' : Parser) :
    Parser.expression env fuel ⟨ts, k⟩ ≠ .ok (.GroupExpr e, p') := by
  intro h
  cases fuel with
  | zero => simp [Parser.expression] at h
  | succ fuel =>
    have hif : tok.TokenType ≠ .If := by rw [hT]; decide
    simp only [Parser.expression, Parser_peek_eq ht, ParseResult_ok_bind, hif, if_false] at h
    have := Parser_assignment_paren env ht hT fuel _ p' h
    simp [Expr.isGroup] at this

theorem Parser_expression_paren_never_group_witness :
    Parser.expression ParserEnv.failing 30
        ⟨[Token.of .LParen "(", Token.of .Int "1", Token.of .Add "+", Token.of .Int "2",
          Token.of .RParen ")", Token.of .EOF ""], 0⟩ ≠
      .ok (.GroupExpr (.BinaryExpr (.IntegerLiteralExpr 1) .Add (.IntegerLiteralExpr 2)),
        ⟨[Token.of .LParen "(", Token.of .Int "1", Token.of .Add "+", Token.of .Int "2",
          Token.of .RParen ")", Token.of .EOF ""], 5⟩) :=
  Parser_expression_paren_never_group ParserEnv.failing _ 0 (Token.of .LParen "(") rfl rfl
    30 _ _

theorem Parser_primary_group_example :
    Parser.primary ParserEnv.failing 30
        ⟨[Token.of .LParen "(", Token.of .Int "1", Token.of .Add "+", Token.of .Int "2",
          Token.of .RParen ")", Token.of .EOF ""], 0⟩ =
      .ok (.GroupExpr (.BinaryExpr (.IntegerLiteralExpr 1) .Add (.IntegerLiteralExpr 2)),
        ⟨[Token.of .LParen "(", Token.of .Int "1", Token.of .Add "+", Token.of .Int "2",
          Token.of .RParen ")", Token.of .EOF ""], 5⟩) := rfl

theorem Parser_expression_paren_example :
    Parser.expression ParserEnv.failing 30
        ⟨[Token.of .LParen "(", Token.of .Int "1", Token.of .Add "+", Token.of .Int "2",
          Token.of .RParen ")", Token.of .EOF ""], 0⟩ =
      .error (.parseError ⟨some (Token.of .LParen "("), "absent"⟩) := rfl

/-! ## The last line of a block branch -/

/-- Claim C21: a block branch of an `if` or of an `else` whose statements are not empty and
do not end in an `ExpressionStmt` fails with the parse error of the last line, but a block
branch with no statement at all fails with an index out of range, not with that parse
error. -/
theorem Parser_ifElse_last_line (env : ParserEnv) (fuel : Nat) :
    (∀ (p p1 p2 p3 : Parser) (ifTok t : Token) (condition : Expr) (stmts : List Stmt),
      p.consume .If "Expected if at beginning of if expression" = .ok (ifTok, p1) →
      Parser.logicalOr env fuel p1 = .ok (condition, p2) →
      p2.peek = .ok t → t.TokenType ≠ .Arrow →
      env.blockStatement p2 = .ok (stmts, p3) →
      (stmts = [] →
        Parser.ifElseExpression env (fuel + 1) p = .error (.runtime .indexOutOfRange)) ∧
      (∀ s, stmts.getLast? = some s → s.isExpressionStmt = false →
        Parser.ifElseExpression env (fuel + 1) p =
          .error (.parseError ⟨none, "Last line in an `if` block must be an expression"⟩))) ∧
    (∀ (p p1 p2 p3 : Parser) (elseTok t : Token) (stmts : List Stmt),
      p.cleanNewLines = .ok p1 →
      p1.consume .Else "if expression must follow with else expression" = .ok (elseTok, p2) →
      p2.peek = .ok t → t.TokenType ≠ .Arrow → t.TokenType ≠ .If →
      env.blockStatement p2 = .ok (stmts, p3) →
      (stmts = [] →
        Parser.elseExpression env (fuel + 1) p = .error (.runtime .indexOutOfRange)) ∧
      (∀ s, stmts.getLast? = some s → s.isExpressionStmt = false →
        Parser.elseExpression env (fuel + 1) p =
          .error (.parseError
            ⟨none, "Last line in an `else` expression block must be an expression"⟩))) := by
  refine ⟨?_, ?_⟩
  · intro p p1 p2 p3 ifTok t condition stmts h1 h2 h3 h4 h5
    refine ⟨?_, ?_⟩
    · intro he
      subst he
      simp [Parser.ifElseExpression, h1, h2, h3, h4, h5]
    · intro s hs hexp
      cases s with
      | ExpressionStmt e => simp [Stmt.isExpressionStmt] at hexp
      | BlockStmt b => simp [Parser.ifElseExpression, h1, h2, h3, h4, h5, hs]
      | OtherStmt n => simp [Parser.ifElseExpression, h1, h2, h3, h4, h5, hs]
  · intro p p1 p2 p3 elseTok t stmts h1 h2 h3 h4 h5 h6
    refine ⟨?_, ?_⟩
    · intro he
      subst he
      simp [Parser.elseExpression, h1, h2, h3, h4, h5, h6]
    · intro s hs hexp
      cases s with
      | ExpressionStmt e => simp [Stmt.isExpressionStmt] at hexp
      | BlockStmt b => simp [Parser.elseExpression, h1, h2, h3, h4, h5, h6, hs]
      | OtherStmt n => simp [Parser.elseExpression, h1, h2, h3, h4, h5, h6, hs]

theorem Parser_ifElse_last_line_witness :
    Parser.ifElseExpression (ParserEnv.withBlock [] 2) 30
        ⟨[Token.of .If "if", Token.of .Identifier "a", Token.of .LBrace "\x7b",
          Token.of .RBrace "\x7d", Token.of .Else "else", Token.of .Arrow "->",
          Token.of .Identifier "c", Token.of .EOF ""], 0⟩ =
      .error (.runtime .indexOutOfRange) :=
  ((Parser_ifElse_last_line (ParserEnv.withBlock [] 2) 29).1
    ⟨[Token.of .If "if", Token.of .Identifier "a", Token.of .LBrace "\x7b",
      Token.of .RBrace "\x7d", Token.of .Else "else", Token.of .Arrow "->",
      Token.of .Identifier "c", Token.of .EOF ""], 0⟩
    ⟨[Token.of .If "if", Token.of .Identifier "a", Token.of .LBrace "\x7b",
      Token.of .RBrace "\x7d", Token.of .Else "else", Token.of .Arrow "->",
      Token.of .Identifier "c", Token.of .EOF ""], 1⟩
    ⟨[Token.of .If "if", Token.of .Identifier "a", Token.of .LBrace "\x7b",
      Token.of .RBrace "\x7d", Token.of .Else "else", Token.of .Arrow "->",
      Token.of .Identifier "c", Token.of .EOF ""], 2⟩
    ⟨[Token.of .If "if", Token.of .Identifier "a", Token.of .LBrace "\x7b",
      Token.of .RBrace "\x7d", Token.of .Else "else", Token.of .Arrow "->",
      Token.of .Identifier "c", Token.of .EOF ""], 4⟩
    (Token.of .If "if") (Token.of .LBrace "\x7b")
    (.VariableExpr "a") [] rfl rfl rfl (by decide) rfl).1 rfl

theorem Parser_elseExpression_empty_block_example :
    Parser.expression
        { ParserEnv.failing with
          blockStatement := fun p =>
            if p.current = 2 then .ok ([.ExpressionStmt (.VariableExpr "b")], ⟨p.tokens, 5⟩)
            else .ok ([], ⟨p.tokens, p.current + 2⟩) } 30
        ⟨[Token.of .If "if", Token.of .Identifier "a", Token.of .LBrace "\x7b",
          Token.of .Identifier "b", Token.of .RBrace "\x7d", Token.of .Else "else",
          Token.of .LBrace "\x7b", Token.of .RBrace "\x7d", Token.of .EOF ""], 0⟩ =
      .error (.runtime .indexOutOfRange) := rfl

/-! ## The token of the parse errors -/

/-- Claim C22: the parse error that `ifElseExpression` raises for a block of the `if` branch
whose last statement is not an expression, and the one that `elseExpression` raises for such
a block of the `else` branch, carry no token of the input stream: the token of the error is
the zero value, and only the message is set. -/
theorem Parser_ifElse_error_without_token :
    Parser.expression (ParserEnv.withBlock [.OtherStmt 0] 2) 30
        ⟨[Token.of .If "if", Token.of .Identifier "a", Token.of .LBrace "\x7b",
          Token.of .RBrace "\x7d", Token.of .Else "else", Token.of .Arrow "->",
          Token.of .Identifier "c", Token.of .EOF ""], 0⟩ =
      .error (.parseError ⟨none, "Last line in an `if` block must be an expression"⟩) ∧
    Parser.expression (ParserEnv.withBlock [.OtherStmt 0] 2) 30
        ⟨[Token.of .If "if", Token.of .Identifier "a", Token.of .Arrow "->",
          Token.of .Identifier "b", Token.of .Else "else", Token.of .LBrace "\x7b",
          Token.of .RBrace "\x7d", Token.of .EOF ""], 0⟩ =
      .error (.parseError
        ⟨none, "Last line in an `else` expression block must be an expression"⟩) :=
  ⟨rfl, rfl⟩

theorem Parser_primary_error_token_example :
    Parser.primary ParserEnv.failing 30
        ⟨[Token.of .RParen ")", Token.of .EOF ""], 0⟩ =
      .error (.parseError ⟨some (Token.of .RParen ")"), "Invalid expression"⟩) := rfl

/-! ## Operators of one level -/

theorem Parser_ParsesAt_binary_twice (env : ParserEnv) {ts : List Token} {k m m' m'' : Nat}
    {p : Parser} {e1 e2 e3 : Expr} {op1 op2 n : Token} (hk : k < 6)
    (hlhs : Parser.ParsesAt env (k + 1) p (e1, ⟨ts, m⟩))
    (hop1 : ts[m]? = some op1) (hmem1 : op1.TokenType ∈ Parser.levelOps k)
    (hmid : Parser.ParsesAt env (k + 1) ⟨ts, m + 1⟩ (e2, ⟨ts, m'⟩))
    (hop2 : ts[m']? = some op2) (hmem2 : op2.TokenType ∈ Parser.levelOps k)
    (hrhs : Parser.ParsesAt env (k + 1) ⟨ts, m' + 1⟩ (e3, ⟨ts, m''⟩))
    (hn : ts[m'']? = some n) (hnot : n.TokenType ∉ Parser.levelOps k) :
    Parser.ParsesAt env k p
      (.BinaryExpr (.BinaryExpr e1 op1.TokenType e2) op2.TokenType e3, ⟨ts, m''⟩) := by
  intro fuel hfuel
  obtain ⟨f, rfl⟩ : ∃ f, fuel = f + 4 := ⟨fuel - 4, by omega⟩
  have hne1 : op1.TokenType ≠ .EOF :=
    TokenType_level_ne_EOF (TokenType_level_of_mem_levelOps hmem1)
  have hne2 : op2.TokenType ≠ .EOF :=
    TokenType_level_ne_EOF (TokenType_level_of_mem_levelOps hmem2)
  rw [Parser_level_succ env k hk, hlhs (f + 3) (by omega)]
  simp only [ParseResult_ok_bind]
  rw [Parser_binaryLoop_step _ _ hop1 hne1 hmem1 (f + 2) e1 e2 ⟨ts, m'⟩
    (hmid (f + 3) (by omega))]
  rw [Parser_binaryLoop_step _ _ hop2 hne2 hmem2 (f + 1) _ e3 ⟨ts, m''⟩
    (hrhs (f + 3) (by omega))]
  exact Parser_binaryLoop_stop _ _ hn hnot f _

/-- Claim C26: for atomic operands `a`, `b`, `c` and two binary operators `op1`, `op2` of the
same level of the ladder, followed by a token that does not continue an expression,
`expression` parses `a op1 b op2 c` to `Binary(Binary(a, op1, b), op2, c)` and stops after
`c`. -/
theorem Parser_expression_left_associative (env : ParserEnv) (a op1 b op2 c n : Token)
    (rest : List Token) (ea eb ec : Expr) (k : Nat)
    (ha : a.atom env = some ea) (hb : b.atom env = some eb) (hc : c.atom env = some ec)
    (h1 : op1.TokenType.level = some k) (h2 : op2.TokenType.level = some k)
    (hn : n.TokenType.continuesExpression = false) (fuel : Nat) (hfuel : 22 ≤ fuel) :
    Parser.expression env fuel ⟨a :: op1 :: b :: op2 :: c :: n :: rest, 0⟩ =
      .ok (.BinaryExpr (.BinaryExpr ea op1.TokenType eb) op2.TokenType ec,
        ⟨a :: op1 :: b :: op2 :: c :: n :: rest, 5⟩) := by
  obtain ⟨hnlev, hnpost, hnIs, hnAs, hnEqual⟩ := TokenType_not_continues hn
  have hk6 := TokenType_level_lt h1
  have hnnot : ∀ l, n.TokenType ∉ Parser.levelOps l := fun l hmem => by
    rw [TokenType_level_of_mem_levelOps hmem] at hnlev
    cases hnlev
  have hnlt : ∀ l, n.TokenType.level = some l → l < k + 1 := fun l h => by
    rw [hnlev] at h
    cases h
  have h1lt : ∀ l, op1.TokenType.level = some l → l < k + 1 := fun l hl => by
    rw [h1] at hl; cases hl; omega
  have h2lt : ∀ l, op2.TokenType.level = some l → l < k + 1 := fun l hl => by
    rw [h2] at hl; cases hl; omega
  have haIf : a.TokenType ≠ .If := by
    rcases Token_atom_type ha with h | h | h | h | h | h | h <;> rw [h] <;> decide
  have t0 : (a :: op1 :: b :: op2 :: c :: n :: rest)[0]? = some a := by simp
  have t1 : (a :: op1 :: b :: op2 :: c :: n :: rest)[0 + 1]? = some op1 := by simp
  have t2 : (a :: op1 :: b :: op2 :: c :: n :: rest)[1 + 1]? = some b := by simp
  have t3 : (a :: op1 :: b :: op2 :: c :: n :: rest)[2 + 1]? = some op2 := by simp
  have t4 : (a :: op1 :: b :: op2 :: c :: n :: rest)[3 + 1]? = some c := by simp
  have t5 : (a :: op1 :: b :: op2 :: c :: n :: rest)[4 + 1]? = some n := by simp
  have hall := Parser_ParsesAt_binary_twice env (k := k) hk6
    (Parser_ParsesAt_atom env (i := 0) t0 ha t1 (TokenType_level_not_after_operand h1)
      (6 - (k + 1)) (k + 1) (by omega) h1lt)
    t1 (TokenType_mem_levelOps_of_level h1)
    (Parser_ParsesAt_atom env (i := 2) t2 hb t3 (TokenType_level_not_after_operand h2)
      (6 - (k + 1)) (k + 1) (by omega) h2lt)
    t3 (TokenType_mem_levelOps_of_level h2)
    (Parser_ParsesAt_atom env (i := 4) t4 hc t5 hnpost (6 - (k + 1)) (k + 1) (by omega) hnlt)
    t5 (hnnot k)
  have h0 := Parser_ParsesAt_lift_many env t5 k 0 k (by omega) (by omega) hall
    (fun l _ _ => hnnot l)
  exact Parser_expression_of_ParsesAt env h0 t0 haIf t5 hnIs hnAs hnEqual fuel hfuel

theorem Parser_expression_left_associative_witness :
    Parser.expression ParserEnv.failing 30
        ⟨[Token.of .Int "10", Token.of .Subtract "-", Token.of .Int "4",
          Token.of .Add "+", Token.of .Identifier "c", Token.of .EOF ""], 0⟩ =
      .ok (.BinaryExpr (.BinaryExpr (.IntegerLiteralExpr 10) .Subtract (.IntegerLiteralExpr 4))
          .Add (.VariableExpr "c"),
        ⟨[Token.of .Int "10", Token.of .Subtract "-", Token.of .Int "4",
          Token.of .Add "+", Token.of .Identifier "c", Token.of .EOF ""], 5⟩) :=
  Parser_expression_left_associative ParserEnv.failing (Token.of .Int "10")
    (Token.of .Subtract "-") (Token.of .Int "4") (Token.of .Add "+")
    (Token.of .Identifier "c") (Token.of .EOF "") [] (.IntegerLiteralExpr 10)
    (.IntegerLiteralExpr 4) (.VariableExpr "c") 4 rfl rfl rfl rfl rfl rfl 30 (by decide)

/-! ## `Module.ToString` -/

/-- Claim C24: `Module.ToString` gives the name of the root alone for every module, also for
a module whose `Sub` is provided: the test `&m.Sub != nil` always holds, so the rendering
`Root/Sub` is never produced. -/
theorem Module_ToString_root_only (m : Module) :
    m.ToString = m.Root.name ∧
      (Module.mk ⟨"Root"⟩ ⟨"Sub"⟩).ToString = "Root" ∧
      (Module.mk ⟨"Root"⟩ ⟨"Sub"⟩).ToString ≠ "Root/Sub" := by
  refine ⟨?_, ?_, ?_⟩
  · simp [Module.ToString, Module.subAddressIsNotNil]
  · simp [Module.ToString, Module.subAddressIsNotNil]
  · simp [Module.ToString, Module.subAddressIsNotNil]

/-! ## `Lex` -/

theorem List_take_succ_set {α : Type} (x : α) :
    ∀ (l : List α) (i : Nat), i < l.length → (l.set i x).take (i + 1) = l.take i ++ [x]
  | [], _, h => by simp at h
  | _ :: _, 0, _ => by simp
  | y :: l, i + 1, h => by
    have ih := List_take_succ_set x l i (by simpa using h)
    simp [ih]

theorem Lex_loop_eq_appendLoop (read : Nat → Reading) :
    ∀ (fuel k : Nat) (tokens : List Token) (i : Nat), i ≤ tokens.length →
      Lex.loop read fuel k tokens i = Lex.appendLoop read fuel k (tokens.take i)
  | 0, _, _, _, _ => rfl
  | fuel + 1, k, tokens, i, hi => by
    unfold Lex.loop Lex.appendLoop
    by_cases hEOF : (read k).tok = .EOF
    · simp [hEOF]
    · simp only [hEOF, if_false]
      by_cases hlt : (i : Int) ≤ (tokens.length : Int) - 1
      · have hlt' : i < tokens.length := by omega
        simp only [hlt, if_true]
        rw [Lex_loop_eq_appendLoop read fuel (k + 1) _ (i + 1) (by simpa using hlt'),
          List_take_succ_set _ tokens i hlt']
      · have heq : i = tokens.length := by omega
        simp only [hlt, if_false]
        rw [Lex_loop_eq_appendLoop read fuel (k + 1) _ _ (Nat.le_refl _), List.take_length]
        subst heq
        rw [List.take_length]

theorem Lex_appendLoop_no_EOF (read : Nat → Reading) :
    ∀ (fuel k : Nat) (acc toks : List Token), Lex.appendLoop read fuel k acc = some toks →
      (∀ t ∈ acc, t.TokenType ≠ .EOF) → ∀ t ∈ toks, t.TokenType ≠ .EOF
  | 0, _, _, _, h, _ => by simp [Lex.appendLoop] at h
  | fuel + 1, k, acc, toks, h, hacc => by
    unfold Lex.appendLoop at h
    by_cases hEOF : (read k).tok = .EOF
    · simp only [hEOF, if_true, Option.some.injEq] at h
      subst h
      exact hacc
    · simp only [hEOF, if_false] at h
      refine Lex_appendLoop_no_EOF read fuel (k + 1) _ toks h ?_
      intro t ht
      rcases List.mem_append.1 ht with h1 | h1
      · exact hacc t h1
      · have : t = (read k).token := by simpa using h1
        subst this
        exact hEOF

theorem Lex_appendLoop_returns (read : Nat → Reading) :
    ∀ (n k : Nat) (acc : List Token) (fuel : Nat), (read (k + n)).tok = .EOF → n < fuel →
      ∃ toks, Lex.appendLoop read fuel k acc = some toks ∧ toks.length ≤ acc.length + n
  | 0, k, acc, fuel, hEOF, hfuel => by
    obtain ⟨f, rfl⟩ : ∃ f, fuel = f + 1 := ⟨fuel - 1, by omega⟩
    refine ⟨acc, ?_, by omega⟩
    have hEOF' : (read k).tok = .EOF := by simpa using hEOF
    simp [Lex.appendLoop, hEOF']
  | n + 1, k, acc, fuel, hEOF, hfuel => by
    obtain ⟨f, rfl⟩ : ∃ f, fuel = f + 1 := ⟨fuel - 1, by omega⟩
    by_cases hk : (read k).tok = .EOF
    · exact ⟨acc, by simp [Lex.appendLoop, hk], by omega⟩
    · have hEOF' : (read (k + 1 + n)).tok = .EOF := by
        have : k + 1 + n = k + (n + 1) := by omega
        rw [this]
        exact hEOF
      obtain ⟨toks, h1, h2⟩ :=
        Lex_appendLoop_returns read n (k + 1) (acc ++ [(read k).token]) f hEOF' (by omega)
      refine ⟨toks, ?_, ?_⟩
      · simp [Lex.appendLoop, hk, h1]
      · simp at h2
        omega

theorem Lex_appendLoop_first_EOF (read : Nat → Reading) :
    ∀ (n k : Nat) (acc : List Token) (fuel : Nat),
      (∀ j, j < n → (read (k + j)).tok ≠ .EOF) → (read (k + n)).tok = .EOF → n < fuel →
      Lex.appendLoop read fuel k acc =
        some (acc ++ (List.range n).map fun j => (read (k + j)).token)
  | 0, k, acc, fuel, _, hEOF, hfuel => by
    obtain ⟨f, rfl⟩ : ∃ f, fuel = f + 1 := ⟨fuel - 1, by omega⟩
    have hEOF' : (read k).tok = .EOF := by simpa using hEOF
    simp [Lex.appendLoop, hEOF']
  | n + 1, k, acc, fuel, hbefore, hEOF, hfuel => by
    obtain ⟨f, rfl⟩ : ∃ f, fuel = f + 1 := ⟨fuel - 1, by omega⟩
    have hk : (read k).tok ≠ .EOF := by simpa using hbefore 0 (by omega)
    have hEOF' : (read (k + 1 + n)).tok = .EOF := by
      have : k + 1 + n = k + (n + 1) := by omega
      rw [this]
      exact hEOF
    have hbefore' : ∀ j, j < n → (read (k + 1 + j)).tok ≠ .EOF := fun j hj => by
      have : k + 1 + j = k + (j + 1) := by omega
      rw [this]
      exact hbefore (j + 1) (by omega)
    have ih := Lex_appendLoop_first_EOF read n (k + 1) (acc ++ [(read k).token]) f
      hbefore' hEOF' (by omega)
    unfold Lex.appendLoop
    simp only [hk, if_false]
    rw [ih, List.range_succ_eq_map]
    simp only [List.map_cons, List.map_map, List.append_assoc, List.singleton_append,
      Nat.add_zero]
    congr 3
    apply List.map_congr_left
    intro j _
    simp only [Function.comp, Nat.succ_eq_add_one]
    congr 2
    omega

theorem Lex_eq_appendLoop_of_env (env : LexEnv) (fuel : Nat) (code : String) :
    Lex env fuel code = Lex.appendLoop (env.NewTokenReader code.toList) fuel 0 [] := by
  unfold Lex
  rw [Lex_loop_eq_appendLoop _ fuel 0 _ 0 (Nat.zero_le _)]
  simp

theorem Lex_empty_code_not_EOF :
    Lex LexEnv.runes 1 "" = some [] ∧
      Lex LexEnv.runes 3 "ab" =
        some [⟨.Identifier, ['a'], (1, 0)⟩, ⟨.Identifier, ['b'], (1, 1)⟩] :=
  ⟨rfl, rfl⟩

/-- Claim C23, amended: when the scanner reads `EOF` at its call `n` and the fuel is more
than `n`, `Lex` returns exactly the tokens of the readings before the first `EOF`, in this
order: with `m` the call of the first `EOF`, the result is the list of the tokens of the
readings `0` to `m - 1`.  None of them is `EOF`, the `EOF` that ends the loop is not part of
the result, and the result is empty when the first reading is `EOF`. -/
theorem Lex_without_EOF (env : LexEnv) (fuel : Nat) (code : String) (n : Nat)
    (hEOF : (env.NewTokenReader code.toList n).tok = .EOF) (hfuel : n < fuel) :
    ∃ m, m ≤ n ∧ (env.NewTokenReader code.toList m).tok = .EOF ∧
      (∀ j, j < m → (env.NewTokenReader code.toList j).tok ≠ .EOF) ∧
      Lex env fuel code =
        some ((List.range m).map fun j => (env.NewTokenReader code.toList j).token) ∧
      (∀ t ∈ (List.range m).map fun j => (env.NewTokenReader code.toList j).token,
        t.TokenType ≠ .EOF) ∧
      (n = 0 → Lex env fuel code = some []) := by
  have hex : ∃ m, (env.NewTokenReader code.toList m).tok = .EOF := ⟨n, hEOF⟩
  have hle : Nat.find hex ≤ n := Nat.find_min' hex hEOF
  have hmin : ∀ j, j < Nat.find hex → (env.NewTokenReader code.toList j).tok ≠ .EOF :=
    fun j hj => Nat.find_min hex hj
  have hlex : Lex env fuel code = some ((List.range (Nat.find hex)).map fun j =>
      (env.NewTokenReader code.toList j).token) := by
    rw [Lex_eq_appendLoop_of_env,
      Lex_appendLoop_first_EOF _ (Nat.find hex) 0 [] fuel (by simpa using hmin)
        (by simpa using Nat.find_spec hex) (by omega)]
    simp
  refine ⟨Nat.find hex, hle, Nat.find_spec hex, hmin, hlex, ?_, ?_⟩
  · intro t ht
    obtain ⟨j, hj, rfl⟩ := List.mem_map.1 ht
    exact hmin j (List.mem_range.1 hj)
  · intro hn
    have h0 : Nat.find hex = 0 := by omega
    rw [hlex, h0]
    rfl

theorem Lex_without_EOF_witness :
    ∃ m, m ≤ 2 ∧ (LexEnv.runes.NewTokenReader "ab".toList m).tok = .EOF ∧
      (∀ j, j < m → (LexEnv.runes.NewTokenReader "ab".toList j).tok ≠ .EOF) ∧
      Lex LexEnv.runes 3 "ab" =
        some ((List.range m).map fun j => (LexEnv.runes.NewTokenReader "ab".toList j).token) ∧
      (∀ t ∈ (List.range m).map fun j => (LexEnv.runes.NewTokenReader "ab".toList j).token,
        t.TokenType ≠ .EOF) ∧
      (2 = 0 → Lex LexEnv.runes 3 "ab" = some []) :=
  Lex_without_EOF LexEnv.runes 3 "ab" 2 rfl (by decide)

theorem Lex_no_padding_example :
    Lex.estimateLength "abc" = 3 ∧
      Lex LexEnv.whole 5 "abc" = some [⟨.String, ['a', 'b', 'c'], (1, 0)⟩] ∧
      Lex.estimateLength "abcdefghijkl" = 6 ∧
      (Lex LexEnv.runes 20 "abcdefghijkl").map List.length = some 12 :=
  ⟨rfl, rfl, rfl, rfl⟩

/-! ## `FromASTType` -/

/-- Claim C25: for an elementary contract, `FromASTType` returns the type that `FindType`
finds for the name when there is one, and a new `EmptyType` of that name otherwise, and does
not fail; a binary contract with `|` or `&` gives the union or the intersection of the
converted operands, a collection contract the collection of the converted element type, a
map contract the map of the converted key and value types. -/
theorem FromASTType_cases (ctx : Context) (next : Nat) :
    (∀ (n : String) (found : Ty), ctx.FindType n = some found →
      FromASTType (.ElementaryTypeContract n) ctx next = .ok (found, next)) ∧
    (∀ (n : String), ctx.FindType n = none →
      FromASTType (.ElementaryTypeContract n) ctx next = .ok (.EmptyType next n, next + 1)) ∧
    (∀ (lhs rhs : TypeContract) (a b : Ty) (n1 n2 : Nat),
      FromASTType lhs ctx next = .ok (a, n1) → FromASTType rhs ctx n1 = .ok (b, n2) →
      FromASTType (.BinaryTypeContract .TypeOr lhs rhs) ctx next = .ok (.UnionType a b, n2) ∧
      FromASTType (.BinaryTypeContract .TypeAnd lhs rhs) ctx next =
        .ok (.IntersectionType a b, n2)) ∧
    (∀ (elem : TypeContract) (e : Ty) (n1 : Nat),
      FromASTType elem ctx next = .ok (e, n1) →
      FromASTType (.CollectionTypeContract elem) ctx next = .ok (.CollectionType e, n1)) ∧
    (∀ (key value : TypeContract) (k v : Ty) (n1 n2 : Nat),
      FromASTType key ctx next = .ok (k, n1) → FromASTType value ctx n1 = .ok (v, n2) →
      FromASTType (.MapTypeContract key value) ctx next = .ok (.MapType k v, n2)) := by
  refine ⟨?_, ?_, ?_, ?_, ?_⟩
  · intro n found h
    simp [FromASTType, h]
  · intro n h
    simp [FromASTType, h]
  · intro lhs rhs a b n1 n2 h1 h2
    constructor <;> simp [FromASTType, h1, h2]
  · intro elem e n1 h
    simp [FromASTType, h]
  · intro key value k v n1 n2 h1 h2
    simp [FromASTType, h1, h2]

theorem FromASTType_cases_witness :
    FromASTType
        (.BinaryTypeContract .TypeOr (.ElementaryTypeContract "Int")
          (.CollectionTypeContract (.ElementaryTypeContract "Foo")))
        (Context.empty.setType "Int" (.EmptyType 7 "Int")) 10 =
      .ok (.UnionType (.EmptyType 7 "Int") (.CollectionType (.EmptyType 10 "Foo")), 11) :=
  ((FromASTType_cases (Context.empty.setType "Int" (.EmptyType 7 "Int")) 10).2.2.1
    (.ElementaryTypeContract "Int") (.CollectionTypeContract (.ElementaryTypeContract "Foo"))
    (.EmptyType 7 "Int") (.CollectionType (.EmptyType 10 "Foo")) 10 11 rfl rfl).1

end Elara
